import Mathlib

/-!
# Machine-pool preflight checks and lifecycle hooks of cluster-api-provider-aws

A shallow embedding of `exp/controllers/awsmachinepool_preflight.go` together with
the library routines it calls (`unstructured.NestedString`, `semver.ParseTolerant`,
`version.Compare` with build tags), followed by theorems about `runPreflightChecks`.

Go strings are lists of characters, Go `(value, error)` results of parsers are
`Except`, and a Go `error` that may be `nil` is an `Option Err`.

The second part embeds `pkg/cloud/services/autoscaling/lifecyclehook.go`: the comparator
`lifecycleHookNeedsUpdate`, the reconciler `ReconcileLifecycleHooks` over a stateful service
that records every call, the conditions it writes (`conditions.MarkTrue`, `conditions.MarkFalse`
with `fmt.Sprintf`), and the service methods on top of a model of the remote hook store. A Go
`*string` is an address with the text stored there, so that pointer comparison is visible.
-/

namespace CAPA

/-! ## Go string helpers -/

/-- Go `len(s)`: length in bytes of the UTF-8 encoding. -/
def byteLen (s : List Char) : Nat :=
  (s.map Char.utf8Size).sum

/-- Go `unicode.IsSpace`. -/
def isSpace (c : Char) : Bool :=
  let n := c.toNat
  n = 9 || n = 10 || n = 11 || n = 12 || n = 13 || n = 32 || n = 0x85 || n = 0xA0 ||
  n = 0x1680 || (0x2000 ≤ n && n ≤ 0x200a) || n = 0x2028 || n = 0x2029 || n = 0x202f ||
  n = 0x205f || n = 0x3000

/-- Go `strings.TrimSpace`. -/
def TrimSpace (s : List Char) : List Char :=
  ((s.dropWhile isSpace).reverse.dropWhile isSpace).reverse

/-- Go `strings.TrimPrefix(s, "v")`. -/
def TrimPrefixV : List Char → List Char
  | 'v' :: rest => rest
  | s => s

/-- Go `strings.TrimLeft(p, "0")`. -/
def TrimLeftZero (p : List Char) : List Char :=
  p.dropWhile (fun c => c == '0')

/-- Splits at the first occurrence of `sep`: the text before it and the text after it. -/
def cut (sep : Char) : List Char → Option (List Char × List Char)
  | [] => none
  | c :: cs =>
    if c = sep then some ([], cs)
    else match cut sep cs with
      | none => none
      | some (a, b) => some (c :: a, b)

/-- Go `strings.SplitN(s, sep, n)` for a one-character separator and `n ≥ 0`. -/
def SplitN (sep : Char) : Nat → List Char → List (List Char)
  | 0, _ => []
  | 1, s => [s]
  | n + 2, s =>
    match cut sep s with
    | none => [s]
    | some (a, b) => a :: SplitN sep (n + 1) b

/-- Go `strings.Split(s, sep)` for a one-character separator. -/
def Split (sep : Char) : List Char → List (List Char)
  | [] => [[]]
  | c :: cs =>
    if c = sep then [] :: Split sep cs
    else match Split sep cs with
      | [] => [[c]]
      | p :: ps => (c :: p) :: ps

/-- Go `strings.Join(parts, ".")`. -/
def JoinDot : List (List Char) → List Char
  | [] => []
  | [p] => p
  | p :: q :: rest => p ++ '.' :: JoinDot (q :: rest)

/-- The constant `numbers` of blang/semver. -/
def numbers : List Char := "0123456789".toList

/-- The constant `alphanum` of blang/semver. -/
def alphanum : List Char :=
  "0123456789abcdefghijklmnopqrstuvwxyzABCDEFGHIJKLMNOPQRSTUVWXYZ-".toList

/-- The helper `containsOnly(s, comp)` of blang/semver. -/
def containsOnly (s comp : List Char) : Bool :=
  s.all (fun c => comp.contains c)

/-- The helper `hasLeadingZeroes(s)` of blang/semver: `len(s) > 1 && s[0] == '0'`. -/
def hasLeadingZeroes (s : List Char) : Bool :=
  decide (1 < byteLen s) && s.head? == some '0'

/-- Go `strings.ContainsAny(s, "+-")`. -/
def containsPlusMinus (s : List Char) : Bool :=
  s.any (fun c => c == '+' || c == '-')

/-! ## Errors -/

/-- The failures of `strconv.ParseUint` and of the blang/semver parser. -/
inductive SemverError
  | strconvSyntax
  | strconvRange
  | versionStringEmpty
  | noMajorMinorPatch
  | invalidMajor
  | leadingZeroMajor
  | invalidMinor
  | leadingZeroMinor
  | invalidPatch
  | leadingZeroPatch
  | prereleaseEmpty
  | leadingZeroPrerelease
  | invalidPrerelease
  | buildEmpty
  | invalidBuild
  | shortVersionWithMeta
  deriving DecidableEq, Repr

/-- A non-nil Go `error` value as seen by the preflight code. -/
inductive Err
  | external (text : String)
  | accessor (path : List String) (expected : String)
  | semver (e : SemverError)
  | wrap (cause : Err) (message : String)
  deriving DecidableEq, Repr

/-- The `errors.Wrap(err, message)` of pkg/errors; wrapping `nil` gives `nil`. -/
def Wrap : Option Err → String → Option Err
  | none, _ => none
  | some e, m => some (Err.wrap e m)

/-! ## strconv.ParseUint and blang/semver -/

/-- Accumulates decimal digits; `none` on a character that is not a digit. -/
def digitsValue : Nat → List Char → Option Nat
  | acc, [] => some acc
  | acc, c :: cs =>
    if c.isDigit then digitsValue (acc * 10 + (c.toNat - 48)) cs else none

/-- Go `strconv.ParseUint(s, 10, 64)`. -/
def ParseUint (s : List Char) : Except SemverError Nat :=
  match s with
  | [] => .error .strconvSyntax
  | _ =>
    match digitsValue 0 s with
    | none => .error .strconvSyntax
    | some n => if n < 2 ^ 64 then .ok n else .error .strconvRange

/-- The type `semver.PRVersion`. -/
structure PRVersion where
  VersionStr : List Char
  VersionNum : Nat
  IsNum : Bool
  deriving DecidableEq, Repr

/-- The type `semver.Version`. -/
structure Version where
  Major : Nat
  Minor : Nat
  Patch : Nat
  Pre : List PRVersion
  Build : List (List Char)
  deriving DecidableEq, Repr

/-- The function `semver.NewPRVersion`. -/
def NewPRVersion (s : List Char) : Except SemverError PRVersion :=
  if byteLen s = 0 then .error .prereleaseEmpty
  else if containsOnly s numbers then
    if hasLeadingZeroes s then .error .leadingZeroPrerelease
    else match ParseUint s with
      | .error e => .error e
      | .ok num => .ok { VersionStr := [], VersionNum := num, IsNum := true }
  else if containsOnly s alphanum then
    .ok { VersionStr := s, VersionNum := 0, IsNum := false }
  else .error .invalidPrerelease

/-- The loop of `semver.Parse` over the pre-release identifiers. -/
def parsePre : List (List Char) → Except SemverError (List PRVersion)
  | [] => .ok []
  | s :: rest =>
    match NewPRVersion s with
    | .error e => .error e
    | .ok pr =>
      match parsePre rest with
      | .error e => .error e
      | .ok prs => .ok (pr :: prs)

/-- The loop of `semver.Parse` over the build identifiers. -/
def parseBuild : List (List Char) → Except SemverError (List (List Char))
  | [] => .ok []
  | s :: rest =>
    if byteLen s = 0 then .error .buildEmpty
    else if !containsOnly s alphanum then .error .invalidBuild
    else match parseBuild rest with
      | .error e => .error e
      | .ok bs => .ok (s :: bs)

/-- Splits `patchStr` at the first `+`: the remaining patch text and the build identifiers. -/
def splitBuild (patchStr : List Char) : List Char × List (List Char) :=
  match cut '+' patchStr with
  | some (a, b) => (a, Split '.' b)
  | none => (patchStr, [])

/-- Splits `patchStr` at the first `-`: the remaining patch text and the pre-release identifiers. -/
def splitPre (patchStr : List Char) : List Char × List (List Char) :=
  match cut '-' patchStr with
  | some (a, b) => (a, Split '.' b)
  | none => (patchStr, [])

/-- The function `semver.Parse`. -/
def Parse (s : List Char) : Except SemverError Version :=
  if byteLen s = 0 then .error .versionStringEmpty
  else match SplitN '.' 3 s with
    | [p0, p1, p2] =>
      if !containsOnly p0 numbers then .error .invalidMajor
      else if hasLeadingZeroes p0 then .error .leadingZeroMajor
      else match ParseUint p0 with
        | .error e => .error e
        | .ok major =>
          if !containsOnly p1 numbers then .error .invalidMinor
          else if hasLeadingZeroes p1 then .error .leadingZeroMinor
          else match ParseUint p1 with
            | .error e => .error e
            | .ok minor =>
              let (patchStr1, build) := splitBuild p2
              let (patchStr, prerelease) := splitPre patchStr1
              if !containsOnly patchStr numbers then .error .invalidPatch
              else if hasLeadingZeroes patchStr then .error .leadingZeroPatch
              else match ParseUint patchStr with
                | .error e => .error e
                | .ok patch =>
                  match parsePre prerelease with
                  | .error e => .error e
                  | .ok pre =>
                    match parseBuild build with
                    | .error e => .error e
                    | .ok bld =>
                      .ok { Major := major, Minor := minor, Patch := patch,
                            Pre := pre, Build := bld }
    | _ => .error .noMajorMinorPatch

/-- The leading-zero removal of `semver.ParseTolerant`, applied to one part. -/
def stripLeadingZeros (p : List Char) : List Char :=
  if 1 < byteLen p then
    let q := TrimLeftZero p
    match q with
    | [] => ['0']
    | c :: _ => if c.isDigit then q else '0' :: q
  else p

/-- The fill-up of `semver.ParseTolerant`: appends "0" until there are three parts. -/
def fillParts : List (List Char) → List (List Char)
  | [] => [['0'], ['0'], ['0']]
  | [a] => [a, ['0'], ['0']]
  | [a, b] => [a, b, ['0']]
  | parts => parts

/-- The function `semver.ParseTolerant`. -/
def ParseTolerant (s : String) : Except SemverError Version :=
  let s1 := TrimPrefixV (TrimSpace s.toList)
  let parts := (SplitN '.' 3 s1).map stripLeadingZeros
  if parts.length < 3 then
    if containsPlusMinus (parts.getLastD []) then .error .shortVersionWithMeta
    else Parse (JoinDot (fillParts parts))
  else Parse (JoinDot parts)

/-- The method `PRVersion.Compare`. -/
def PRVersion.Compare (v o : PRVersion) : Int :=
  if v.IsNum && !o.IsNum then -1
  else if !v.IsNum && o.IsNum then 1
  else if v.IsNum && o.IsNum then
    if v.VersionNum = o.VersionNum then 0
    else if v.VersionNum > o.VersionNum then 1
    else -1
  else
    if v.VersionStr = o.VersionStr then 0
    else if o.VersionStr < v.VersionStr then 1
    else -1

/-- The loop of `Version.Compare` over the two pre-release lists, with its tail:
when all compared identifiers are equal the longer list is the greater. -/
def comparePre : List PRVersion → List PRVersion → Int
  | [], [] => 0
  | [], _ :: _ => -1
  | _ :: _, [] => 1
  | a :: as, b :: bs =>
    let comp := a.Compare b
    if comp = 0 then comparePre as bs
    else if comp = 1 then 1
    else -1

/-- The method `Version.Compare` of blang/semver (build metadata is ignored). -/
def Version.Compare (v o : Version) : Int :=
  if v.Major ≠ o.Major then (if v.Major > o.Major then 1 else -1)
  else if v.Minor ≠ o.Minor then (if v.Minor > o.Minor then 1 else -1)
  else if v.Patch ≠ o.Patch then (if v.Patch > o.Patch then 1 else -1)
  else if v.Pre.length = 0 ∧ o.Pre.length = 0 then 0
  else if v.Pre.length = 0 ∧ o.Pre.length > 0 then 1
  else if v.Pre.length > 0 ∧ o.Pre.length = 0 then -1
  else comparePre v.Pre o.Pre

/-! ## sigs.k8s.io/cluster-api/util/version -/

/-- The type `buildIdentifier` of cluster-api `util/version`. -/
structure buildIdentifier where
  IdentifierInt : Nat
  IdentifierStr : List Char
  IsNum : Bool
  deriving DecidableEq, Repr

/-- The function `newBuildIdentifier`: an identifier of digits only is numeric, its value what
`strconv.ParseUint` returns with the error dropped (`2^64 - 1` when the number is out of
range); any other identifier is textual. -/
def newBuildIdentifier (s : List Char) : buildIdentifier :=
  if containsOnly s numbers then
    { IdentifierInt :=
        match ParseUint s with
        | .ok num => num
        | .error .strconvRange => 2 ^ 64 - 1
        | .error _ => 0
      IdentifierStr := []
      IsNum := true }
  else { IdentifierInt := 0, IdentifierStr := s, IsNum := false }

/-- The method `buildIdentifier.compare`: numeric identifiers are ordered, numeric ones
sort below textual ones, and two different textual identifiers give 2 (different, no order). -/
def buildIdentifier.compare (v o : buildIdentifier) : Int :=
  if v.IsNum && !o.IsNum then -1
  else if !v.IsNum && o.IsNum then 1
  else if v.IsNum && o.IsNum then
    if v.IdentifierInt < o.IdentifierInt then -1
    else if v.IdentifierInt = o.IdentifierInt then 0
    else 1
  else
    if v.IdentifierStr = o.IdentifierStr then 0 else 2

/-- The method `buildIdentifiers.compare`: first differing identifier decides; when all
compared identifiers are equal the longer list is the greater. -/
def buildIdentifiersCompare : List buildIdentifier → List buildIdentifier → Int
  | [], [] => 0
  | [], _ :: _ => -1
  | _ :: _, [] => 1
  | a :: as, b :: bs =>
    let comp := a.compare b
    if comp = 0 then buildIdentifiersCompare as bs else comp

/-- The function `version.Compare(a, b, version.WithBuildTags())`, that is
`CompareWithBuildIdentifiers`. -/
def CompareWithBuildTags (a b : Version) : Int :=
  let comp := a.Compare b
  if comp ≠ 0 then comp
  else buildIdentifiersCompare (a.Build.map newBuildIdentifier) (b.Build.map newBuildIdentifier)

/-! ## Unstructured objects -/

/-- A JSON-like value held in an unstructured object (Go `interface{}`). -/
inductive Value
  | null
  | bool (b : Bool)
  | num (n : Int)
  | str (s : String)
  | list (xs : List Value)
  | map (m : List (String × Value))

/-- The type `unstructured.Unstructured`; a nil `Object` is `none`. -/
structure Unstructured where
  Object : Option (List (String × Value))

/-- The method `UnstructuredContent`: a nil `Object` reads as the empty map. -/
def Unstructured.UnstructuredContent (u : Unstructured) : List (String × Value) :=
  match u.Object with
  | none => []
  | some m => m

/-- The loop of `unstructured.NestedFieldNoCopy`; `seen` is the path walked so far. -/
def nestedLoop (seen : List String) : Value → List String → Value × Bool × Option Err
  | val, [] => (val, true, none)
  | val, field :: rest =>
    match val with
    | .null => (.null, false, none)
    | .map m =>
      match m.lookup field with
      | none => (.null, false, none)
      | some v => nestedLoop (seen ++ [field]) v rest
    | _ => (.null, false, some (Err.accessor (seen ++ [field]) "map[string]interface"))

/-- The function `unstructured.NestedFieldNoCopy`. -/
def NestedFieldNoCopy (obj : List (String × Value)) (fields : List String) :
    Value × Bool × Option Err :=
  nestedLoop [] (.map obj) fields

/-- The function `unstructured.NestedString`. -/
def NestedString (obj : List (String × Value)) (fields : List String) :
    String × Bool × Option Err :=
  match NestedFieldNoCopy obj fields with
  | (val, found, err) =>
    if !found || err.isSome then ("", found, err)
    else match val with
      | .str s => (s, true, none)
      | _ => ("", false, some (Err.accessor fields "string"))

/-! ## The machine-pool preflight checks -/

/-- The feature gates of package `feature` that the controllers consult. -/
inductive Feature
  | MachinePoolPreflightChecks
  | other (name : String)
  deriving DecidableEq, Repr

/-- The type `corev1.ObjectReference`, the fields a bootstrap reference uses. -/
structure ObjectReference where
  APIVersion : String
  Kind : String
  deriving DecidableEq, Repr

/-- The type `expclusterv1.MachinePool`: annotations, `spec.template.spec.version` and
`spec.template.spec.bootstrap.configRef`. -/
structure MachinePool where
  Annotations : List (String × String) := []
  Version : Option String := none
  BootstrapConfigRef : Option ObjectReference := none
  deriving DecidableEq, Repr

/-- The type `scope.MachinePoolScope`. -/
structure MachinePoolScope where
  MachinePool : MachinePool := {}
  deriving DecidableEq, Repr

/-- The interface `cloud.ClusterScoper`: what a call of `UnstructuredControlPlane()` returns,
the control plane object (`none` for nil) and the error. -/
structure ClusterScoper where
  UnstructuredControlPlane : Option Unstructured × Option Err

/-- Outcome of one run: the Go result pair and how many times the control plane was fetched. -/
structure Run where
  result : Bool × Option Err
  fetches : Nat

/-- The function `controlPlaneIsUpgrading`. -/
def controlPlaneIsUpgrading (obj : Unstructured) : Bool × Option Err :=
  match NestedString obj.UnstructuredContent ["spec", "version"] with
  | (specVersion, ok, err) =>
    if !ok || err.isSome then (false, Wrap err "failed to get control plane spec version")
    else match ParseTolerant specVersion with
      | .error e => (false, Wrap (some (Err.semver e)) "failed to parse control plane spec version")
      | .ok specV =>
        match NestedString obj.UnstructuredContent ["status", "version"] with
        | (statusVersion, ok, err) =>
          if !ok && err.isNone then (false, err)
          else if !ok || err.isSome then (false, err)
          else match ParseTolerant statusVersion with
            | .error e =>
              (false, Wrap (some (Err.semver e)) "failed to parse control plane status version")
            | .ok statusV => (decide (CompareWithBuildTags specV statusV ≥ 1), none)

/-- The method `controlPlaneStablePreflightChecks`. -/
def controlPlaneStablePreflightChecks (controlPlane : Unstructured) : Bool × Option Err :=
  match NestedString controlPlane.UnstructuredContent ["status", "version"] with
  | (_, ok, err) =>
    if !ok || err.isSome then (false, err)
    else match controlPlaneIsUpgrading controlPlane with
      | (isUpgrading, err) =>
        if err.isSome then (false, err)
        else if isUpgrading then (false, none)
        else (true, none)

/-- The method `runPreflightChecks` of `awsmachinepool_preflight.go`. The machine pool scope
is a parameter of the Go method and is never read by it. -/
def runPreflightChecks (gates : Feature → Bool) (_machinePoolScope : MachinePoolScope)
    (clusterScope : ClusterScoper) : Run :=
  if !gates Feature.MachinePoolPreflightChecks then { result := (true, none), fetches := 0 }
  else match clusterScope.UnstructuredControlPlane with
    | (_, some err) => { result := (false, some err), fetches := 1 }
    | (none, none) => { result := (true, none), fetches := 1 }
    | (some controlPlane, none) =>
      match NestedString controlPlane.UnstructuredContent ["spec", "version"] with
      | (cpVersion, ok, err) =>
        if err.isSome then { result := (false, err), fetches := 1 }
        else if !ok then { result := (true, none), fetches := 1 }
        else match ParseTolerant cpVersion with
          | .error e => { result := (false, some (Err.semver e)), fetches := 1 }
          | .ok _ =>
            match controlPlaneStablePreflightChecks controlPlane with
            | (ok, err) =>
              if !ok || err.isSome then { result := (false, err), fetches := 1 }
              else { result := (true, none), fetches := 1 }

/-! ## Vocabulary of the statements -/

/-- The field `section.version` of an object is absent: the section is missing or null, or it
is a map without the key `version`. -/
def versionAbsent (obj : List (String × Value)) (sect : String) : Bool :=
  match obj.lookup sect with
  | none => true
  | some .null => true
  | some (.map m) => (m.lookup "version").isNone
  | some _ => false

/-- The field `section.version` of an object when it is present and a string. -/
def versionField (obj : List (String × Value)) (sect : String) : Option String :=
  match obj.lookup sect with
  | some (.map m) =>
    match m.lookup "version" with
    | some (.str s) => some s
    | _ => none
  | _ => none

/-- Feature gates with `MachinePoolPreflightChecks` enabled. -/
def gatesEnabled : Feature → Bool := fun _ => true

/-- Feature gates with `MachinePoolPreflightChecks` disabled. -/
def gatesDisabled : Feature → Bool := fun _ => false

/-- The test builder `ControlPlane(ns, name)` followed by optional `WithVersion` and
`WithStatusFields` with `status.version`, then `Build()`. -/
def ControlPlane (ns name : String) (version statusVersion : Option String) : Unstructured :=
  { Object := some (
      [("apiVersion", Value.str "controlplane.cluster.x-k8s.io/v1beta1"),
       ("kind", Value.str "GenericControlPlane"),
       ("metadata", Value.map [("namespace", Value.str ns), ("name", Value.str name)])]
      ++ (match version with
          | none => []
          | some v => [("spec", Value.map [("version", Value.str v)])])
      ++ (match statusVersion with
          | none => []
          | some v => [("status", Value.map [("version", Value.str v)])])) }

/-- Test fixture `controlPlaneWithNoVersion`. -/
def controlPlaneWithNoVersion : Unstructured := ControlPlane "ns1" "cp1" none none

/-- Test fixture `controlPlaneWithInvalidVersion`. -/
def controlPlaneWithInvalidVersion : Unstructured :=
  ControlPlane "ns1" "cp1" (some "v1.25.6.0") none

/-- Test fixture `controlPlaneProvisioning`. -/
def controlPlaneProvisioning : Unstructured := ControlPlane "ns1" "cp1" (some "v1.25.6") none

/-- Test fixture `controlPlaneUpgrading`. -/
def controlPlaneUpgrading : Unstructured :=
  ControlPlane "ns1" "cp1" (some "v1.26.2") (some "v1.25.2")

/-- Test fixture `controlPlaneStable`. -/
def controlPlaneStable : Unstructured :=
  ControlPlane "ns1" "cp1" (some "v1.26.2") (some "v1.26.2")

/-- Test fixture `controlPlaneStable128`. -/
def controlPlaneStable128 : Unstructured :=
  ControlPlane "ns1" "cp1" (some "v1.28.0") (some "v1.28.0")

/-- A cluster scope whose control plane fetch succeeds with the given object. -/
def scopeWith (cp : Unstructured) : ClusterScoper :=
  { UnstructuredControlPlane := (some cp, none) }

/-- A cluster scope for a cluster without control plane reference. -/
def scopeWithoutControlPlane : ClusterScoper :=
  { UnstructuredControlPlane := (none, none) }

/-- A machine pool with the given version and no bootstrap config reference. -/
def poolWithVersion (v : String) : MachinePoolScope :=
  { MachinePool := { Version := some v } }

/-- The value of `bootstrapv1.GroupVersion.String()`. -/
def kubeadmBootstrapGroupVersion : String := "bootstrap.cluster.x-k8s.io/v1beta1"

/-- A machine pool with the given version bootstrapped by a `KubeadmConfigTemplate`. -/
def kubeadmPoolWithVersion (v : String) : MachinePoolScope :=
  { MachinePool := { Version := some v,
                     BootstrapConfigRef := some { APIVersion := kubeadmBootstrapGroupVersion,
                                                  Kind := "KubeadmConfigTemplate" } } }

/-- The pool uses the kubeadm bootstrap provider: its bootstrap config reference is a
`KubeadmConfigTemplate` of the kubeadm bootstrap API group. -/
def usesKubeadmBootstrap (mp : MachinePool) : Bool :=
  match mp.BootstrapConfigRef with
  | none => false
  | some ref => ref.Kind == "KubeadmConfigTemplate" && ref.APIVersion == kubeadmBootstrapGroupVersion

/-- The minor-skew rule in the words of the specification: the pool minor does not exceed the
control-plane minor and trails it by at most 3 below minor 28, by at most 4 from 28 on. -/
def specSkewAcceptable (cpMinor poolMinor : Nat) : Bool :=
  decide (poolMinor ≤ cpMinor) &&
    decide (cpMinor - poolMinor ≤ (if cpMinor < 28 then 3 else 4))

/-- The minor-skew window that the repository tests accept: the pool minor does not exceed the
control-plane minor and trails it by at most 2 below minor 28, by at most 3 from 28 on. -/
def testedSkewWindow (cpMinor poolMinor : Nat) : Bool :=
  decide (poolMinor ≤ cpMinor) &&
    decide (cpMinor - poolMinor ≤ (if cpMinor < 28 then 2 else 3))

/-! ## Lifecycle hooks: errors, formatting and conditions -/

/-- A non-nil Go `error` handed back by the autoscaling service: a plain error with its text,
or an error wrapped by `errors.Wrapf` with the formatted message. -/
inductive GoError
  | New (text : String)
  | Wrapf (cause : GoError) (message : String)
  deriving DecidableEq, Repr

/-- The method `Error()`: the text of the error; a wrapped error reads `message: cause`. -/
def GoError.Error : GoError → String
  | .New text => text
  | .Wrapf cause message => message ++ ": " ++ cause.Error

/-- The loop of `parsenum` of package fmt: reads decimal digits, giving up (and skipping to the
end of the text) once the number exceeds 1e6. -/
def parsenumLoop : Nat → Bool → List Char → Nat × Bool × List Char
  | num, isnum, [] => (num, isnum, [])
  | num, isnum, c :: cs =>
    if c.isDigit then
      if num > 1000000 then (0, false, [])
      else parsenumLoop (num * 10 + (c.toNat - 48)) true cs
    else (num, isnum, c :: cs)

/-- The function `parsenum(s, start, end)` of package fmt on the text between `start` and
`end`: the number, whether one was read, and the text left. -/
def parsenum (s : List Char) : Nat × Bool × List Char :=
  match s with
  | [] => (0, false, [])
  | _ => parsenumLoop 0 false s

/-- The function `parseArgNumber` of package fmt on a text that starts with `[`: the text after
the bracketed index (after the `[` alone when there is no closing bracket) and whether the
index is well formed. -/
def parseArgNumber (format : List Char) : List Char × Bool :=
  match format with
  | [] => ([], false)
  | _ :: tail =>
    if byteLen format < 3 then (tail, false)
    else match cut ']' tail with
      | none => (tail, false)
      | some (inner, after) =>
        match parsenum inner with
        | (_, ok, left) => if !ok || !left.isEmpty then (after, false) else (after, true)

/-- The method `argNumber` of package fmt when no arguments were passed: any explicit index is
out of range, so `goodArgNum` drops to false. Gives the text left, `found` and `goodArgNum`. -/
def argNumber (format : List Char) (goodArgNum : Bool) : List Char × Bool × Bool :=
  match format with
  | '[' :: _ =>
    match parseArgNumber format with
    | (rest, ok) => (rest, ok, false)
  | _ => (format, false, goodArgNum)

/-- The flag characters skipped after a `%`. -/
def isFlag (c : Char) : Bool :=
  c == '#' || c == '0' || c == '+' || c == '-' || c == ' '

/-- The width step of `doPrintf` without arguments: output written, text left, `afterIndex`
and `goodArgNum`. -/
def widthStep (format : List Char) (afterIndex goodArgNum : Bool) :
    List Char × List Char × Bool × Bool :=
  match format with
  | '*' :: rest => ("%!(BADWIDTH)".toList, rest, false, goodArgNum)
  | _ =>
    match parsenum format with
    | (_, widPresent, rest) =>
      ([], rest, afterIndex, if afterIndex && widPresent then false else goodArgNum)

/-- The precision step of `doPrintf` without arguments. -/
def precisionStep (format : List Char) (afterIndex goodArgNum : Bool) :
    List Char × List Char × Bool × Bool :=
  match format with
  | '.' :: rest =>
    match argNumber rest (if afterIndex then false else goodArgNum) with
    | (rest1, afterIndex1, good1) =>
      match rest1 with
      | '*' :: rest2 => ("%!(BADPREC)".toList, rest2, false, good1)
      | _ =>
        match parsenum rest1 with
        | (_, _, rest2) => ([], rest2, afterIndex1, good1)
  | _ => ([], format, afterIndex, goodArgNum)

/-- One verb of `doPrintf` without arguments, on the text that follows a `%`: the output
written for it and the text left. -/
def verbStep (format : List Char) : List Char × List Char :=
  match argNumber (format.dropWhile isFlag) true with
  | (r1, afterIndex1, good1) =>
    match widthStep r1 afterIndex1 good1 with
    | (out1, r2, afterIndex2, good2) =>
      match precisionStep r2 afterIndex2 good2 with
      | (out2, r3, afterIndex3, good3) =>
        match (if !afterIndex3 then argNumber r3 good3 else (r3, afterIndex3, good3)) with
        | (r4, _, good4) =>
          match r4 with
          | [] => (out1 ++ out2 ++ "%!(NOVERB)".toList, [])
          | verb :: rest =>
            if verb = '%' then (out1 ++ out2 ++ ['%'], rest)
            else if !good4 then
              (out1 ++ out2 ++ "%!".toList ++ [verb] ++ "(BADINDEX)".toList, rest)
            else (out1 ++ out2 ++ "%!".toList ++ [verb] ++ "(MISSING)".toList, rest)

/-- The loop of `doPrintf` without arguments: literal text is copied, every `%` starts a
verb. The fuel bounds the number of verbs. -/
def doPrintf : Nat → List Char → List Char
  | 0, _ => []
  | fuel + 1, format =>
    match cut '%' format with
    | none => format
    | some (literal, rest) =>
      match verbStep rest with
      | (out, rest1) => literal ++ out ++ doPrintf fuel rest1

/-- Go `fmt.Sprintf(format)` called without arguments. -/
def Sprintf (format : String) : String :=
  String.mk (doPrintf (format.length + 1) format.toList)

/-- The type `corev1.ConditionStatus`. -/
inductive ConditionStatus
  | True
  | False
  | Unknown
  deriving DecidableEq, Repr

/-- The type `clusterv1.ConditionSeverity`; `None` is the empty severity. -/
inductive ConditionSeverity
  | Error
  | Warning
  | Info
  | None
  deriving DecidableEq, Repr

/-- The condition types: `expinfrav1.LifecycleHookReadyCondition` and any other. -/
inductive ConditionType
  | LifecycleHookReadyCondition
  | other (name : String)
  deriving DecidableEq, Repr

/-- The condition reasons: the three lifecycle hook failure reasons of `expinfrav1`, the
empty reason, and any other. -/
inductive ConditionReason
  | empty
  | LifecycleHookCreationFailedReason
  | LifecycleHookUpdateFailedReason
  | LifecycleHookDeletionFailedReason
  | other (name : String)
  deriving DecidableEq, Repr

/-- The type `clusterv1.Condition` without its transition time; `Type_` is the Go field
`Type`. -/
structure Condition where
  Type_ : ConditionType
  Status : ConditionStatus
  Severity : ConditionSeverity
  Reason : ConditionReason
  Message : String
  deriving DecidableEq, Repr

/-- The function `conditions.TrueCondition`. -/
def TrueCondition (t : ConditionType) : Condition :=
  { Type_ := t, Status := .True, Severity := .None, Reason := .empty, Message := "" }

/-- The function `conditions.FalseCondition` called without message arguments. -/
def FalseCondition (t : ConditionType) (reason : ConditionReason)
    (severity : ConditionSeverity) (messageFormat : String) : Condition :=
  { Type_ := t, Status := .False, Severity := severity, Reason := reason,
    Message := Sprintf messageFormat }

/-- The function `conditions.Set` on the condition list of the object: the condition of the
same type is replaced, a new type is appended. The final sort of the list and the transition
time are left out. -/
def conditionsSet : List Condition → Condition → List Condition
  | [], c => [c]
  | x :: xs, c => if x.Type_ = c.Type_ then c :: xs else x :: conditionsSet xs c

/-- The function `conditions.Get`: the condition of the given type. -/
def conditionsGet (conds : List Condition) (t : ConditionType) : Option Condition :=
  conds.find? (fun c => c.Type_ = t)

/-- The function `conditions.MarkTrue`. -/
def MarkTrue (conds : List Condition) (t : ConditionType) : List Condition :=
  conditionsSet conds (TrueCondition t)

/-- The function `conditions.MarkFalse` called without message arguments. -/
def MarkFalse (conds : List Condition) (t : ConditionType) (reason : ConditionReason)
    (severity : ConditionSeverity) (messageFormat : String) : List Condition :=
  conditionsSet conds (FalseCondition t reason severity messageFormat)

/-! ## Lifecycle hooks: the reconciler of `pkg/cloud/services/autoscaling/lifecyclehook.go` -/

/-- A non-nil Go `*string`: the address it points to and the text stored there. -/
structure StringPtr where
  addr : Nat
  val : String
  deriving DecidableEq, Repr

/-- Go `p != q` on two `*string` values: pointers are compared, not the texts; two nil
pointers are equal. -/
def ptrNe : Option StringPtr → Option StringPtr → Bool
  | none, none => false
  | some p, some q => p.addr != q.addr
  | _, _ => true

/-- The constant `expinfrav1.LifecycleHookDefaultResultAbandon`. -/
def LifecycleHookDefaultResultAbandon : String := "ABANDON"

/-- The constant `expinfrav1.LifecycleHookDefaultResultContinue`. -/
def LifecycleHookDefaultResultContinue : String := "CONTINUE"

/-- The constant `expinfrav1.LifecycleHookTransitionInstanceLaunching`. -/
def LifecycleHookTransitionInstanceLaunching : String := "autoscaling:EC2_INSTANCE_LAUNCHING"

/-- The constant `expinfrav1.LifecycleHookTransitionInstanceTerminating`. -/
def LifecycleHookTransitionInstanceTerminating : String :=
  "autoscaling:EC2_INSTANCE_TERMINATING"

/-- Go `time.Second` in nanoseconds. -/
def Second : Int := 1000000000

/-- The type `expinfrav1.AWSLifecycleHook`. `HeartbeatTimeout` is the `*metav1.Duration` in
nanoseconds, `DefaultResult` and `LifecycleTransition` are string types. -/
structure AWSLifecycleHook where
  Name : String
  NotificationTargetARN : Option StringPtr := none
  RoleARN : Option StringPtr := none
  LifecycleTransition : String
  HeartbeatTimeout : Option Int := none
  DefaultResult : Option String := none
  NotificationMetadata : Option StringPtr := none
  deriving DecidableEq, Repr

/-- Go `ptr.Deref(p, def)`. -/
def Deref {α : Type} (p : Option α) (dflt : α) : α :=
  match p with
  | none => dflt
  | some v => v

/-- The function `lifecycleHookNeedsUpdate`. -/
def lifecycleHookNeedsUpdate (existing expected : AWSLifecycleHook) : Bool :=
  Deref existing.DefaultResult LifecycleHookDefaultResultAbandon
      != Deref expected.DefaultResult LifecycleHookDefaultResultAbandon ||
    Deref existing.HeartbeatTimeout (3600 * Second)
      != Deref expected.HeartbeatTimeout (3600 * Second) ||
    existing.LifecycleTransition != expected.LifecycleTransition ||
    ptrNe existing.NotificationTargetARN expected.NotificationTargetARN ||
    ptrNe existing.NotificationMetadata expected.NotificationMetadata

/-- The lifecycle hook methods of the interface `services.ASGInterface`, over a service state
`σ`: every call returns its Go result and the state it leaves. -/
structure ASGInterface (σ : Type) where
  DescribeLifecycleHooks : String → σ → (List AWSLifecycleHook × Option GoError) × σ
  CreateLifecycleHook : String → AWSLifecycleHook → σ → Option GoError × σ
  UpdateLifecycleHook : String → AWSLifecycleHook → σ → Option GoError × σ
  DeleteLifecycleHook : String → AWSLifecycleHook → σ → Option GoError × σ

/-- A call made on the autoscaling service. -/
inductive Call
  | DescribeLifecycleHooks (asgName : String)
  | CreateLifecycleHook (asgName : String) (hook : AWSLifecycleHook)
  | UpdateLifecycleHook (asgName : String) (hook : AWSLifecycleHook)
  | DeleteLifecycleHook (asgName : String) (hook : AWSLifecycleHook)
  deriving DecidableEq, Repr

/-- What a reconcile works on: the service state, the conditions stored on the owning object
and the record of the service calls made so far, each with the error it returned. -/
structure RunState (σ : Type) where
  svc : σ
  conditions : List Condition
  calls : List (Call × Option GoError)

/-- The function `reconcileLifecycleHook`. -/
def reconcileLifecycleHook {σ : Type} (asgService : ASGInterface σ) (asgName : String)
    (wantedHook : AWSLifecycleHook) (existingHooks : List AWSLifecycleHook)
    (st : RunState σ) : Option GoError × RunState σ :=
  match existingHooks.find? (fun h => h.Name == wantedHook.Name) with
  | none =>
    match asgService.CreateLifecycleHook asgName wantedHook st.svc with
    | (some err, svc1) =>
      (some err,
        { svc := svc1,
          conditions := MarkFalse st.conditions ConditionType.LifecycleHookReadyCondition
            ConditionReason.LifecycleHookCreationFailedReason ConditionSeverity.Error err.Error,
          calls := st.calls ++ [(Call.CreateLifecycleHook asgName wantedHook, some err)] })
    | (none, svc1) =>
      (none,
        { svc := svc1, conditions := st.conditions,
          calls := st.calls ++ [(Call.CreateLifecycleHook asgName wantedHook, none)] })
  | some existingHook =>
    if lifecycleHookNeedsUpdate existingHook wantedHook then
      match asgService.UpdateLifecycleHook asgName wantedHook st.svc with
      | (some err, svc1) =>
        (some err,
          { svc := svc1,
            conditions := MarkFalse st.conditions ConditionType.LifecycleHookReadyCondition
              ConditionReason.LifecycleHookUpdateFailedReason ConditionSeverity.Error err.Error,
            calls := st.calls ++ [(Call.UpdateLifecycleHook asgName wantedHook, some err)] })
      | (none, svc1) =>
        (none,
          { svc := svc1,
            conditions := MarkTrue st.conditions ConditionType.LifecycleHookReadyCondition,
            calls := st.calls ++ [(Call.UpdateLifecycleHook asgName wantedHook, none)] })
    else
      (none,
        { st with
          conditions := MarkTrue st.conditions ConditionType.LifecycleHookReadyCondition })

/-- The first loop of `ReconcileLifecycleHooks`, over the wanted hooks: a hook on the ignore
list is skipped, the first error ends the loop. -/
def reconcileWanted {σ : Type} (asgService : ASGInterface σ) (asgName : String)
    (ignoreLifecycleHooks : String → Bool) (existingHooks : List AWSLifecycleHook) :
    List AWSLifecycleHook → RunState σ → Option GoError × RunState σ
  | [], st => (none, st)
  | wantedHook :: rest, st =>
    if ignoreLifecycleHooks wantedHook.Name then
      reconcileWanted asgService asgName ignoreLifecycleHooks existingHooks rest st
    else
      match reconcileLifecycleHook asgService asgName wantedHook existingHooks st with
      | (some err, st1) => (some err, st1)
      | (none, st1) =>
        reconcileWanted asgService asgName ignoreLifecycleHooks existingHooks rest st1

/-- The second loop of `ReconcileLifecycleHooks`, over the existing hooks: a hook that is not
on the ignore list and whose name no wanted hook carries is deleted, the first error ends the
loop. -/
def deleteExtraneous {σ : Type} (asgService : ASGInterface σ) (asgName : String)
    (ignoreLifecycleHooks : String → Bool) (wantedLifecycleHooks : List AWSLifecycleHook) :
    List AWSLifecycleHook → RunState σ → Option GoError × RunState σ
  | [], st => (none, st)
  | existingHook :: rest, st =>
    if ignoreLifecycleHooks existingHook.Name then
      deleteExtraneous asgService asgName ignoreLifecycleHooks wantedLifecycleHooks rest st
    else if wantedLifecycleHooks.any (fun wantedHook => existingHook.Name == wantedHook.Name) then
      deleteExtraneous asgService asgName ignoreLifecycleHooks wantedLifecycleHooks rest st
    else
      match asgService.DeleteLifecycleHook asgName existingHook st.svc with
      | (some err, svc1) =>
        (some err,
          { svc := svc1,
            conditions := MarkFalse st.conditions ConditionType.LifecycleHookReadyCondition
              ConditionReason.LifecycleHookDeletionFailedReason ConditionSeverity.Error
              err.Error,
            calls := st.calls ++ [(Call.DeleteLifecycleHook asgName existingHook, some err)] })
      | (none, svc1) =>
        deleteExtraneous asgService asgName ignoreLifecycleHooks wantedLifecycleHooks rest
          { svc := svc1, conditions := st.conditions,
            calls := st.calls ++ [(Call.DeleteLifecycleHook asgName existingHook, none)] }

/-- The function `ReconcileLifecycleHooks`. -/
def ReconcileLifecycleHooks {σ : Type} (asgService : ASGInterface σ) (asgName : String)
    (wantedLifecycleHooks : List AWSLifecycleHook) (ignoreLifecycleHooks : String → Bool)
    (st : RunState σ) : Option GoError × RunState σ :=
  match asgService.DescribeLifecycleHooks asgName st.svc with
  | ((existingHooks, err), svc1) =>
    match err with
    | some e =>
      (some e, { svc := svc1, conditions := st.conditions,
                 calls := st.calls ++ [(Call.DescribeLifecycleHooks asgName, some e)] })
    | none =>
      match reconcileWanted asgService asgName ignoreLifecycleHooks existingHooks
          wantedLifecycleHooks
          { svc := svc1, conditions := st.conditions,
            calls := st.calls ++ [(Call.DescribeLifecycleHooks asgName, none)] } with
      | (some e, st1) => (some e, st1)
      | (none, st1) =>
        deleteExtraneous asgService asgName ignoreLifecycleHooks wantedLifecycleHooks
          existingHooks st1

/-! ## Lifecycle hooks: the service methods and the AWS SDK types -/

/-- Go `int64(x)` on an integer: wrap-around into the signed 64-bit range. -/
def wrapInt64 (x : Int) : Int :=
  (x + 2 ^ 63) % 2 ^ 64 - 2 ^ 63

/-- Go `int64(d.Seconds())` for a `time.Duration` of `d` nanoseconds: the whole seconds,
truncated toward zero. `Seconds()` is the float64 sum of the whole seconds and the fraction;
the sum is exact when `d` is a whole number of seconds and stays below the next whole second
when the duration is shorter than 2^22 seconds, which is where this definition is exact. -/
def durationSecondsToInt64 (d : Int) : Int :=
  Int.tdiv d Second

/-- The type `autoscaling.LifecycleHook` of the AWS SDK: every field is a pointer. -/
structure SDKLifecycleHook where
  LifecycleHookName : Option String := none
  LifecycleTransition : Option String := none
  DefaultResult : Option String := none
  HeartbeatTimeout : Option Int := none
  NotificationTargetARN : Option StringPtr := none
  RoleARN : Option StringPtr := none
  NotificationMetadata : Option StringPtr := none
  deriving DecidableEq, Repr

/-- The type `autoscaling.PutLifecycleHookInput` of the AWS SDK. -/
structure PutLifecycleHookInput where
  AutoScalingGroupName : Option String := none
  LifecycleHookName : Option String := none
  LifecycleTransition : Option String := none
  RoleARN : Option StringPtr := none
  NotificationTargetARN : Option StringPtr := none
  NotificationMetadata : Option StringPtr := none
  DefaultResult : Option String := none
  HeartbeatTimeout : Option Int := none
  deriving DecidableEq, Repr

/-- The type `autoscaling.DescribeLifecycleHooksInput` of the AWS SDK. -/
structure DescribeLifecycleHooksInput where
  AutoScalingGroupName : Option String := none
  deriving DecidableEq, Repr

/-- The type `autoscaling.DeleteLifecycleHookInput` of the AWS SDK. -/
structure DeleteLifecycleHookInput where
  AutoScalingGroupName : Option String := none
  LifecycleHookName : Option String := none
  deriving DecidableEq, Repr

/-- The function `getPutLifecycleHookInput`. -/
def getPutLifecycleHookInput (asgName : String) (hook : AWSLifecycleHook) :
    PutLifecycleHookInput :=
  { AutoScalingGroupName := some asgName
    LifecycleHookName := some hook.Name
    LifecycleTransition := some hook.LifecycleTransition
    RoleARN := hook.RoleARN
    NotificationTargetARN := hook.NotificationTargetARN
    NotificationMetadata := hook.NotificationMetadata
    DefaultResult :=
      match hook.DefaultResult with
      | some r => some r
      | none => none
    HeartbeatTimeout :=
      match hook.HeartbeatTimeout with
      | some d => some (durationSecondsToInt64 d)
      | none => none }

/-- The method `SDKToLifecycleHook`; `none` stands for the panic of a nil dereference (name,
transition, default result or heartbeat timeout not set). -/
def SDKToLifecycleHook (hook : SDKLifecycleHook) : Option AWSLifecycleHook :=
  match hook.HeartbeatTimeout, hook.DefaultResult, hook.LifecycleTransition,
      hook.LifecycleHookName with
  | some timeout, some defaultResult, some lifecycleTransition, some name =>
    some { Name := name
           DefaultResult := some defaultResult
           HeartbeatTimeout := some (wrapInt64 (wrapInt64 timeout * Second))
           LifecycleTransition := lifecycleTransition
           NotificationTargetARN := hook.NotificationTargetARN
           RoleARN := hook.RoleARN
           NotificationMetadata := hook.NotificationMetadata }
  | _, _, _, _ => none

/-- The loop of `DescribeLifecycleHooks` that converts every hook of the answer; `none` when
one conversion panics. -/
def convertHooks : List SDKLifecycleHook → Option (List AWSLifecycleHook)
  | [] => some []
  | hook :: rest =>
    match SDKToLifecycleHook hook with
    | none => none
    | some h =>
      match convertHooks rest with
      | none => none
      | some hs => some (h :: hs)

/-- The lifecycle hook calls of the AWS SDK client held in `Service.ASGClient`, over a client
state `σ`. -/
structure ASGClient (σ : Type) where
  DescribeLifecycleHooksWithContext :
    DescribeLifecycleHooksInput → σ → (List SDKLifecycleHook × Option GoError) × σ
  PutLifecycleHookWithContext : PutLifecycleHookInput → σ → Option GoError × σ
  DeleteLifecycleHookWithContext : DeleteLifecycleHookInput → σ → Option GoError × σ

/-- The type `Service` of package asg: its SDK client, and the rendering of the `%q` verb
that the error messages use. -/
structure Service (σ : Type) where
  ASGClient : ASGClient σ
  quote : String → String

/-- The method `DescribeLifecycleHooks`; `none` stands for a panic of the conversion. -/
def Service.DescribeLifecycleHooks {σ : Type} (s : Service σ) (asgName : String) (c : σ) :
    Option ((List AWSLifecycleHook × Option GoError) × σ) :=
  match s.ASGClient.DescribeLifecycleHooksWithContext { AutoScalingGroupName := some asgName }
      c with
  | ((_, some err), c1) =>
    some (([], some (GoError.Wrapf err
      ("failed to describe lifecycle hooks for AutoScalingGroup: " ++ s.quote asgName))), c1)
  | ((out, none), c1) =>
    match convertHooks out with
    | none => none
    | some hooks => some ((hooks, none), c1)

/-- The method `CreateLifecycleHook`. -/
def Service.CreateLifecycleHook {σ : Type} (s : Service σ) (asgName : String)
    (hook : AWSLifecycleHook) (c : σ) : Option GoError × σ :=
  match s.ASGClient.PutLifecycleHookWithContext (getPutLifecycleHookInput asgName hook) c with
  | (some err, c1) =>
    (some (GoError.Wrapf err ("failed to create lifecycle hook " ++ s.quote hook.Name ++
      " for AutoScalingGroup: " ++ s.quote asgName)), c1)
  | (none, c1) => (none, c1)

/-- The method `UpdateLifecycleHook`. -/
def Service.UpdateLifecycleHook {σ : Type} (s : Service σ) (asgName : String)
    (hook : AWSLifecycleHook) (c : σ) : Option GoError × σ :=
  match s.ASGClient.PutLifecycleHookWithContext (getPutLifecycleHookInput asgName hook) c with
  | (some err, c1) =>
    (some (GoError.Wrapf err ("failed to update lifecycle hook " ++ s.quote hook.Name ++
      " for AutoScalingGroup: " ++ s.quote asgName)), c1)
  | (none, c1) => (none, c1)

/-- The method `DeleteLifecycleHook`. -/
def Service.DeleteLifecycleHook {σ : Type} (s : Service σ) (asgName : String)
    (hook : AWSLifecycleHook) (c : σ) : Option GoError × σ :=
  match s.ASGClient.DeleteLifecycleHookWithContext
      { AutoScalingGroupName := some asgName, LifecycleHookName := some hook.Name } c with
  | (some err, c1) =>
    (some (GoError.Wrapf err ("failed to delete lifecycle hook " ++ s.quote hook.Name ++
      " for AutoScalingGroup: " ++ s.quote asgName)), c1)
  | (none, c1) => (none, c1)

/-- The text an optional string field carries, if any. -/
def textOf (p : Option StringPtr) : Option String :=
  p.map (fun q => q.val)

/-! ## The remote hook store -/

/-- Modelled from the spec: a lifecycle hook as the cloud hook store keeps it, by value, with
the default result and the heartbeat timeout (in seconds) always filled in. -/
structure StoredHook where
  name : String
  transition : String
  defaultResult : String
  heartbeat : Int
  target : Option String
  role : Option String
  metadata : Option String
  deriving DecidableEq, Repr

/-- Modelled from the spec: the cloud hook store (`List`, `Put`, `Delete`), the hooks of every
scaling group by name, and the next free address for the strings of its answers. -/
structure RemoteStore where
  groups : String → List StoredHook
  nextAddr : Nat

/-- Modelled from the spec: `Put` on the hooks of one group sets the hook of that name (the
first one of that name is replaced, a new name is appended). -/
def putRecord (r : StoredHook) : List StoredHook → List StoredHook
  | [] => [r]
  | x :: xs => if x.name = r.name then r :: xs else x :: putRecord r xs

/-- Modelled from the spec: `Delete` on the hooks of one group removes the hooks of that
name. -/
def deleteRecord (name : String) (hooks : List StoredHook) : List StoredHook :=
  hooks.filter (fun x => x.name != name)

/-- Modelled from the spec: the record a put request stores, with the store defaults
(`ABANDON`, 3600 seconds) for what the request leaves out. -/
def recordOfInput (name transition : String) (input : PutLifecycleHookInput) : StoredHook :=
  { name := name
    transition := transition
    defaultResult := Deref input.DefaultResult LifecycleHookDefaultResultAbandon
    heartbeat := Deref input.HeartbeatTimeout 3600
    target := textOf input.NotificationTargetARN
    role := textOf input.RoleARN
    metadata := textOf input.NotificationMetadata }

/-- Modelled from the spec: a stored hook as an answer of the store, its strings freshly
allocated at the three addresses from `addr` on. -/
def answerOfRecord (r : StoredHook) (addr : Nat) : SDKLifecycleHook :=
  { LifecycleHookName := some r.name
    LifecycleTransition := some r.transition
    DefaultResult := some r.defaultResult
    HeartbeatTimeout := some r.heartbeat
    NotificationTargetARN := r.target.map (fun t => { addr := addr, val := t })
    RoleARN := r.role.map (fun t => { addr := addr + 1, val := t })
    NotificationMetadata := r.metadata.map (fun t => { addr := addr + 2, val := t }) }

/-- Modelled from the spec: the answers for a list of stored hooks, allocated from `addr`. -/
def answersFrom : Nat → List StoredHook → List SDKLifecycleHook
  | _, [] => []
  | addr, r :: rs => answerOfRecord r addr :: answersFrom (addr + 3) rs

/-- Modelled from the spec: the cloud hook store as an SDK client that never fails on a well
formed request; a request without group, name or transition is refused. -/
def storeClient : ASGClient RemoteStore :=
  { DescribeLifecycleHooksWithContext := fun input s =>
      match input.AutoScalingGroupName with
      | some g =>
        ((answersFrom s.nextAddr (s.groups g), none),
          { groups := s.groups, nextAddr := s.nextAddr + 3 * (s.groups g).length })
      | none => (([], some (GoError.New "ValidationError")), s)
    PutLifecycleHookWithContext := fun input s =>
      match input.AutoScalingGroupName, input.LifecycleHookName, input.LifecycleTransition with
      | some g, some name, some transition =>
        (none,
          { groups := fun g2 =>
              if g2 = g then putRecord (recordOfInput name transition input) (s.groups g)
              else s.groups g2,
            nextAddr := s.nextAddr })
      | _, _, _ => (some (GoError.New "ValidationError"), s)
    DeleteLifecycleHookWithContext := fun input s =>
      match input.AutoScalingGroupName, input.LifecycleHookName with
      | some g, some name =>
        (none,
          { groups := fun g2 => if g2 = g then deleteRecord name (s.groups g) else s.groups g2,
            nextAddr := s.nextAddr })
      | _, _ => (some (GoError.New "ValidationError"), s) }

/-- The service of package asg on top of the store. -/
def storeService : Service RemoteStore :=
  { ASGClient := storeClient, quote := fun s => "\"" ++ s ++ "\"" }

/-- The service of package asg as the interface `services.ASGInterface`. A panic of
`DescribeLifecycleHooks` has no place in the interface; it cannot occur on the answers of the
store, and the run is closed with an error there. -/
def Service.asInterface {σ : Type} (s : Service σ) : ASGInterface σ :=
  { DescribeLifecycleHooks := fun asgName c =>
      match s.DescribeLifecycleHooks asgName c with
      | some r => r
      | none => (([], some (GoError.New "panic: nil pointer dereference")), c)
    CreateLifecycleHook := s.CreateLifecycleHook
    UpdateLifecycleHook := s.UpdateLifecycleHook
    DeleteLifecycleHook := s.DeleteLifecycleHook }

/-- An empty store. -/
def emptyStore : RemoteStore :=
  { groups := fun _ => [], nextAddr := 1000 }

/-! ## Vocabulary of the lifecycle hook statements -/

/-- The drift rule in the words of the specification: after the defaults (Abandon, 3600
seconds) are filled in on both sides, one of default result, heartbeat timeout, transition,
notification target ARN or notification metadata differs, optional strings being compared by
their texts. -/
def specNeedsUpdate (existing desired : AWSLifecycleHook) : Bool :=
  Deref existing.DefaultResult LifecycleHookDefaultResultAbandon
      != Deref desired.DefaultResult LifecycleHookDefaultResultAbandon ||
    Deref existing.HeartbeatTimeout (3600 * Second)
      != Deref desired.HeartbeatTimeout (3600 * Second) ||
    existing.LifecycleTransition != desired.LifecycleTransition ||
    textOf existing.NotificationTargetARN != textOf desired.NotificationTargetARN ||
    textOf existing.NotificationMetadata != textOf desired.NotificationMetadata

/-- The hook name a create, update or delete call targets; a describe call targets none. -/
def Call.target : Call → Option String
  | .DescribeLifecycleHooks _ => none
  | .CreateLifecycleHook _ hook => some hook.Name
  | .UpdateLifecycleHook _ hook => some hook.Name
  | .DeleteLifecycleHook _ hook => some hook.Name

/-- Whether the call is a create, update or delete. -/
def Call.isMutation (c : Call) : Bool :=
  c.target.isSome

/-- The hook names of the remote store after one call: a put (create or update) adds the
name, a delete removes it. -/
def applyCall (names : List String) : Call → List String
  | .DescribeLifecycleHooks _ => names
  | .CreateLifecycleHook _ hook => if hook.Name ∈ names then names else names ++ [hook.Name]
  | .UpdateLifecycleHook _ hook => if hook.Name ∈ names then names else names ++ [hook.Name]
  | .DeleteLifecycleHook _ hook => names.filter (fun n => n != hook.Name)

/-- The hook names of the remote store after a sequence of issued calls. -/
def remoteNames : List String → List (Call × Option GoError) → List String
  | names, [] => names
  | names, c :: cs => remoteNames (applyCall names c.1) cs

/-- A service double without state: a describe call reports the given hooks (or fails with the
given error), every other call returns what the script says for it. -/
def scriptedService (existing : List AWSLifecycleHook) (describeErr : Option GoError)
    (script : Call → Option GoError) : ASGInterface Unit :=
  { DescribeLifecycleHooks := fun _ s =>
      match describeErr with
      | some e => (([], some e), s)
      | none => ((existing, none), s)
    CreateLifecycleHook := fun asgName hook s => (script (Call.CreateLifecycleHook asgName hook), s)
    UpdateLifecycleHook := fun asgName hook s => (script (Call.UpdateLifecycleHook asgName hook), s)
    DeleteLifecycleHook := fun asgName hook s => (script (Call.DeleteLifecycleHook asgName hook), s) }

/-- A script under which every call succeeds. -/
def allSucceed : Call → Option GoError := fun _ => none

/-- A script under which the create of the hook with the given name fails with the given
error and every other call succeeds. -/
def createFails (name : String) (e : GoError) : Call → Option GoError
  | .CreateLifecycleHook _ hook => if hook.Name = name then some e else none
  | _ => none

/-- A start state: service state, no conditions stored, no calls made. -/
def freshRun {σ : Type} (svc : σ) : RunState σ :=
  { svc := svc, conditions := [], calls := [] }

/-- A terminating-transition hook with the given name and nothing else set. -/
def plainHook (name : String) : AWSLifecycleHook :=
  { Name := name, LifecycleTransition := LifecycleHookTransitionInstanceTerminating }

/-- The hook of the admission tests: name, terminating transition, notification target and
role, the two strings stored at the given addresses. -/
def notifyingHook (name : String) (targetAddr roleAddr : Nat) (role : String) :
    AWSLifecycleHook :=
  { Name := name, LifecycleTransition := LifecycleHookTransitionInstanceTerminating,
    NotificationTargetARN := some { addr := targetAddr, val := "notification-target-arn" },
    RoleARN := some { addr := roleAddr, val := role } }

/-- No entry of the list names this ignore set: the empty ignore map. -/
def ignoreNone : String → Bool := fun _ => false

/-- The ignore map holding exactly the given names. -/
def ignoreOnly (names : List String) : String → Bool := fun n => names.contains n

/-- Every recorded call of the list succeeded. -/
def allOk (added : List (Call × Option GoError)) : Bool :=
  added.all (fun entry => entry.2.isNone)

/-- The calls added by a run fail fast with respect to the error it returns: every call but
the last succeeded, and what the last call returned is what the run returns. -/
def failFast : List (Call × Option GoError) → Option GoError → Bool
  | [], ret => ret.isNone
  | entry :: rest, ret =>
    match rest with
    | [] => entry.2 == ret
    | _ :: _ => entry.2.isNone && failFast rest ret

/-- The condition reason that the code records when the call fails: creation failed for a
create, update failed for an update, deletion failed for a delete; a describe has none. -/
def Call.failureReason : Call → Option ConditionReason
  | .DescribeLifecycleHooks _ => none
  | .CreateLifecycleHook _ _ => some ConditionReason.LifecycleHookCreationFailedReason
  | .UpdateLifecycleHook _ _ => some ConditionReason.LifecycleHookUpdateFailedReason
  | .DeleteLifecycleHook _ _ => some ConditionReason.LifecycleHookDeletionFailedReason

/-- The last call of the record is a create, update or delete that failed with `e`, and the
condition `LifecycleHookReady` is false with the reason of that very operation, severity
`Error` and the formatted error text. -/
def failureRecorded (calls : List (Call × Option GoError)) (conds : List Condition)
    (e : GoError) : Prop :=
  ∃ c reason, calls.getLast? = some (c, some e) ∧ c.failureReason = some reason ∧
    conditionsGet conds ConditionType.LifecycleHookReadyCondition
      = some (FalseCondition ConditionType.LifecycleHookReadyCondition reason
          ConditionSeverity.Error e.Error)

/-- The hook that `DescribeLifecycleHooks` reports for a stored hook whose strings are
allocated from `addr`. -/
def hookOfRecord (r : StoredHook) (addr : Nat) : AWSLifecycleHook :=
  { Name := r.name
    DefaultResult := some r.defaultResult
    HeartbeatTimeout := some (wrapInt64 (wrapInt64 r.heartbeat * Second))
    LifecycleTransition := r.transition
    NotificationTargetARN := r.target.map (fun t => { addr := addr, val := t })
    RoleARN := r.role.map (fun t => { addr := addr + 1, val := t })
    NotificationMetadata := r.metadata.map (fun t => { addr := addr + 2, val := t }) }

/-- The hooks that `DescribeLifecycleHooks` reports for a list of stored hooks. -/
def hooksFrom : Nat → List StoredHook → List AWSLifecycleHook
  | _, [] => []
  | addr, r :: rs => hookOfRecord r addr :: hooksFrom (addr + 3) rs

/-- The stored hook of a name: the first of that name. -/
def findRecord (hooks : List StoredHook) (name : String) : Option StoredHook :=
  hooks.find? (fun r => r.name == name)

/-- The stored hook shows no drift against a wanted hook without notification target and
metadata. -/
def recordMatches (r : StoredHook) (d : AWSLifecycleHook) : Bool :=
  r.defaultResult == Deref d.DefaultResult LifecycleHookDefaultResultAbandon &&
    wrapInt64 (wrapInt64 r.heartbeat * Second) == Deref d.HeartbeatTimeout (3600 * Second) &&
    r.transition == d.LifecycleTransition && r.target.isNone && r.metadata.isNone

/-- The heartbeat timeout is unset or a whole number of seconds within the int64 range of a
duration. -/
def wholeSeconds (t : Option Int) : Bool :=
  match t with
  | none => true
  | some d => d % Second == 0 && decide (-(2 ^ 63) ≤ d) && decide (d < 2 ^ 63)

/-- The wanted hooks for which idempotence is stated: no notification target and no
notification metadata, and a heartbeat timeout in whole seconds. -/
def plainWanted (d : AWSLifecycleHook) : Bool :=
  d.NotificationTargetARN.isNone && d.NotificationMetadata.isNone &&
    wholeSeconds d.HeartbeatTimeout

/-- The store after a put of the wanted hook. -/
def storeAfterPut (asgName : String) (hook : AWSLifecycleHook) (s : RemoteStore) :
    RemoteStore :=
  { groups := fun g2 =>
      if g2 = asgName then
        putRecord (recordOfInput hook.Name hook.LifecycleTransition
          (getPutLifecycleHookInput asgName hook)) (s.groups asgName)
      else s.groups g2,
    nextAddr := s.nextAddr }

/-- The store after a delete of the hook. -/
def storeAfterDelete (asgName : String) (hook : AWSLifecycleHook) (s : RemoteStore) :
    RemoteStore :=
  { groups := fun g2 =>
      if g2 = asgName then deleteRecord hook.Name (s.groups asgName) else s.groups g2,
    nextAddr := s.nextAddr }

/-- The calls of a record that create, update or delete a hook. -/
def mutations (calls : List (Call × Option GoError)) : List (Call × Option GoError) :=
  calls.filter (fun entry => entry.1.isMutation)

/-- The second of two consecutive runs of `ReconcileLifecycleHooks` on the store-backed
service, with the same wanted hooks and ignore list: the run that starts in the service state
and with the conditions the first run left, its record of calls empty. -/
def secondRun (asgName : String) (wanted : List AWSLifecycleHook) (ignore : String → Bool)
    (st : RunState RemoteStore) : Option GoError × RunState RemoteStore :=
  ReconcileLifecycleHooks storeService.asInterface asgName wanted ignore
    { svc := (ReconcileLifecycleHooks storeService.asInterface asgName wanted ignore st).2.svc,
      conditions :=
        (ReconcileLifecycleHooks storeService.asInterface asgName wanted ignore st).2.conditions,
      calls := [] }

/-- A store whose group holds a hook `b` that differs from the wanted one and a hook `old`
that is not wanted. -/
def driftedStore : RemoteStore :=
  { groups := fun _ =>
      [StoredHook.mk "b" LifecycleHookTransitionInstanceLaunching "CONTINUE" 60 (some "t")
         (some "r") none,
       StoredHook.mk "old" LifecycleHookTransitionInstanceLaunching "ABANDON" 3600 none none
         none],
    nextAddr := 1000 }

/-- Wanted hooks: `a` plain, `b` with a heartbeat timeout of 30 seconds, `kept` with a
notification target. -/
def sampleWanted : List AWSLifecycleHook :=
  [plainHook "a", { plainHook "b" with HeartbeatTimeout := some 30000000000 },
   notifyingHook "kept" 1 2 "role-arn"]

/-- The hook with its defaults written out: an absent default result becomes an explicit
Abandon, an absent heartbeat timeout an explicit 3600 seconds. -/
def withDefaults (h : AWSLifecycleHook) : AWSLifecycleHook :=
  { h with
    DefaultResult := some (Deref h.DefaultResult LifecycleHookDefaultResultAbandon),
    HeartbeatTimeout := some (Deref h.HeartbeatTimeout (3600 * Second)) }

/-- Test-style fixture: spec v1.26.2 and a status version that does not parse. -/
def controlPlaneWithInvalidStatus : Unstructured :=
  ControlPlane "ns1" "cp1" (some "v1.26.2") (some "v1.26.2.1")

/-- An SDK hook as the AWS API reports it: all four dereferenced fields set, a heartbeat
timeout of 180 seconds, a notification target and a role. -/
def reportedHook : SDKLifecycleHook :=
  { LifecycleHookName := some "the-hook",
    LifecycleTransition := some LifecycleHookTransitionInstanceTerminating,
    DefaultResult := some LifecycleHookDefaultResultContinue,
    HeartbeatTimeout := some 180,
    NotificationTargetARN := some { addr := 7, val := "notification-target-arn" },
    RoleARN := some { addr := 8, val := "role-arn" } }

/-- Whether the call is a create or an update. -/
def Call.isPut : Call → Bool
  | .CreateLifecycleHook _ _ => true
  | .UpdateLifecycleHook _ _ => true
  | _ => false

/-- Whether the call is a delete. -/
def Call.isDelete : Call → Bool
  | .DeleteLifecycleHook _ _ => true
  | _ => false

/-- The call the specification plans for one wanted hook: a create when no fetched hook has
its name, an update when the first fetched hook of its name needs one, no call otherwise. -/
def plannedPut (asgName : String) (existingHooks : List AWSLifecycleHook)
    (wantedHook : AWSLifecycleHook) : Option Call :=
  match existingHooks.find? (fun h => h.Name == wantedHook.Name) with
  | none => some (Call.CreateLifecycleHook asgName wantedHook)
  | some existingHook =>
    if lifecycleHookNeedsUpdate existingHook wantedHook then
      some (Call.UpdateLifecycleHook asgName wantedHook)
    else none

/-- The creates and updates the specification plans, in the order of the wanted list, for the
wanted hooks that are not on the ignore list. -/
def plannedPuts (asgName : String) (existingHooks wanted : List AWSLifecycleHook)
    (ignore : String → Bool) : List Call :=
  (wanted.filter (fun w => !ignore w.Name)).filterMap (plannedPut asgName existingHooks)

/-- The deletes the specification plans, in the order of the fetched list: the fetched hooks
whose name is not on the ignore list and is not the name of a wanted hook. -/
def plannedDeletes (asgName : String) (existingHooks wanted : List AWSLifecycleHook)
    (ignore : String → Bool) : List Call :=
  (existingHooks.filter
    (fun e => !ignore e.Name && !wanted.any (fun w => e.Name == w.Name))).map
    (Call.DeleteLifecycleHook asgName)

/-- A control plane whose status version carries build metadata that the spec version lacks. -/
def controlPlaneWithStatusBuild : Unstructured :=
  ControlPlane "ns1" "cp1" (some "v1.26.2") (some "v1.26.2+abc")

/-- A control plane whose spec and status versions differ in a textual build identifier. -/
def controlPlaneWithOtherBuild : Unstructured :=
  ControlPlane "ns1" "cp1" (some "v1.26.2+b") (some "v1.26.2+a")

/-- A store whose group holds one hook with a notification target and the role `role-a`. -/
def roleChangeStore : RemoteStore :=
  { groups := fun _ =>
      [StoredHook.mk "the-hook" LifecycleHookTransitionInstanceTerminating
         LifecycleHookDefaultResultAbandon 3600 (some "notification-target-arn")
         (some "role-a") none],
    nextAddr := 1000 }

/-! ## Lemmas on the library model -/

theorem NestedString_of_versionAbsent (obj : List (String × Value)) (sect : String)
    (h : versionAbsent obj sect = true) :
    NestedString obj [sect, "version"] = ("", false, none) := by
  unfold versionAbsent at h
  unfold NestedString NestedFieldNoCopy
  simp only [nestedLoop]
  split at h
  · next hl => simp [hl]
  · next hl => simp [hl, nestedLoop]
  · next m hl =>
    have hm : m.lookup "version" = none := by simpa using h
    simp [hl, nestedLoop, hm]
  · exact absurd h (by simp)

theorem NestedString_of_versionField (obj : List (String × Value)) (sect s : String)
    (h : versionField obj sect = some s) :
    NestedString obj [sect, "version"] = (s, true, none) := by
  unfold versionField at h
  unfold NestedString NestedFieldNoCopy
  simp only [nestedLoop]
  split at h
  · next m hl =>
    split at h
    · next t hv =>
      have hs : t = s := by simpa using h
      subst hs
      simp [hl, nestedLoop, hv]
    · exact absurd h (by simp)
  · exact absurd h (by simp)

theorem PRVersion_Compare_self (a : PRVersion) : a.Compare a = 0 := by
  unfold PRVersion.Compare
  cases a.IsNum <;> simp

theorem comparePre_self (l : List PRVersion) : comparePre l l = 0 := by
  induction l with
  | nil => rfl
  | cons a as ih => simp [comparePre, PRVersion_Compare_self, ih]

theorem Version_Compare_self (v : Version) : v.Compare v = 0 := by
  unfold Version.Compare
  simp only [ne_eq, not_true_eq_false, if_false]
  cases hp : v.Pre with
  | nil => simp
  | cons a as => simp [comparePre, PRVersion_Compare_self, comparePre_self]

theorem buildIdentifier_compare_self (b : buildIdentifier) : b.compare b = 0 := by
  unfold buildIdentifier.compare
  cases b.IsNum <;> simp

theorem buildIdentifiersCompare_self (l : List buildIdentifier) :
    buildIdentifiersCompare l l = 0 := by
  induction l with
  | nil => rfl
  | cons a as ih => simp [buildIdentifiersCompare, buildIdentifier_compare_self, ih]

theorem CompareWithBuildTags_self (v : Version) : CompareWithBuildTags v v = 0 := by
  simp [CompareWithBuildTags, Version_Compare_self, buildIdentifiersCompare_self]

theorem CompareWithBuildTags_of_greater (a b : Version) (h : a.Compare b = 1) :
    CompareWithBuildTags a b = 1 := by
  simp [CompareWithBuildTags, h]

/-- With spec and status version present and parsed, the stability check passes exactly when
the comparison with build tags stays below 1. -/
theorem controlPlaneStablePreflightChecks_of_versions (cp : Unstructured) (d o : String)
    (vd vo : Version)
    (hd : versionField cp.UnstructuredContent "spec" = some d)
    (ho : versionField cp.UnstructuredContent "status" = some o)
    (hpd : ParseTolerant d = .ok vd) (hpo : ParseTolerant o = .ok vo) :
    controlPlaneStablePreflightChecks cp
      = (!decide (CompareWithBuildTags vd vo ≥ 1), none) := by
  unfold controlPlaneStablePreflightChecks controlPlaneIsUpgrading
  rw [NestedString_of_versionField _ _ _ hd, NestedString_of_versionField _ _ _ ho]
  simp only [hpd, hpo]
  by_cases hc : CompareWithBuildTags vd vo ≥ 1 <;> simp [hc]

/-- With the gate enabled, a fetched control plane and a parseable spec version, the run
returns what the stability check returns (false on any error of it). -/
theorem runPreflightChecks_of_versions (gates : Feature → Bool) (mps : MachinePoolScope)
    (cs : ClusterScoper) (cp : Unstructured) (d o : String) (vd vo : Version)
    (hgate : gates Feature.MachinePoolPreflightChecks = true)
    (hcs : cs.UnstructuredControlPlane = (some cp, none))
    (hd : versionField cp.UnstructuredContent "spec" = some d)
    (ho : versionField cp.UnstructuredContent "status" = some o)
    (hpd : ParseTolerant d = .ok vd) (hpo : ParseTolerant o = .ok vo) :
    (runPreflightChecks gates mps cs).result
      = (!decide (CompareWithBuildTags vd vo ≥ 1), none) := by
  unfold runPreflightChecks
  rw [hcs]
  simp only [hgate, NestedString_of_versionField _ _ _ hd, hpd,
    controlPlaneStablePreflightChecks_of_versions cp d o vd vo hd ho hpd hpo]
  by_cases hc : CompareWithBuildTags vd vo ≥ 1 <;> simp [hc]

/-! ## Theorems on `runPreflightChecks` -/

/-- C1: with the feature gate enabled and a successful control plane fetch, a cluster without
control plane object, and a control plane object whose `spec.version` is absent, both make
`runPreflightChecks` return `(true, nil)`. -/
theorem runPreflightChecks_passes_without_control_plane_version (gates : Feature → Bool)
    (mps : MachinePoolScope) (cs : ClusterScoper)
    (hgate : gates Feature.MachinePoolPreflightChecks = true)
    (hfetch : cs.UnstructuredControlPlane.2 = none)
    (h : cs.UnstructuredControlPlane.1 = none ∨
      ∃ cp, cs.UnstructuredControlPlane.1 = some cp ∧
        versionAbsent cp.UnstructuredContent "spec" = true) :
    (runPreflightChecks gates mps cs).result = (true, none) := by
  obtain ⟨⟨fetched, ferr⟩⟩ := cs
  simp only at hfetch h
  subst hfetch
  unfold runPreflightChecks
  rcases h with h | ⟨cp, hcp, habs⟩
  · subst h
    simp [hgate]
  · subst hcp
    simp [hgate, NestedString_of_versionAbsent _ _ habs]

/-- Witness for C1: the two test cases, a cluster without control plane and the fixture
`controlPlaneWithNoVersion`. -/
theorem runPreflightChecks_passes_without_control_plane_version_witness :
    (runPreflightChecks gatesEnabled {} scopeWithoutControlPlane).result = (true, none) ∧
    (runPreflightChecks gatesEnabled {} (scopeWith controlPlaneWithNoVersion)).result
      = (true, none) :=
  ⟨runPreflightChecks_passes_without_control_plane_version gatesEnabled {}
      scopeWithoutControlPlane rfl rfl (Or.inl rfl),
   runPreflightChecks_passes_without_control_plane_version gatesEnabled {}
      (scopeWith controlPlaneWithNoVersion) rfl rfl
      (Or.inr ⟨controlPlaneWithNoVersion, rfl, by decide⟩)⟩

/-- C2: with the feature gate enabled, a control plane object whose `spec.version` is present
and parses while `status.version` is absent makes `runPreflightChecks` return `(false, nil)`. -/
theorem runPreflightChecks_fails_while_provisioning (gates : Feature → Bool)
    (mps : MachinePoolScope) (cs : ClusterScoper) (cp : Unstructured) (d : String)
    (vd : Version)
    (hgate : gates Feature.MachinePoolPreflightChecks = true)
    (hcs : cs.UnstructuredControlPlane = (some cp, none))
    (hd : versionField cp.UnstructuredContent "spec" = some d)
    (hpd : ParseTolerant d = .ok vd)
    (hstatus : versionAbsent cp.UnstructuredContent "status" = true) :
    (runPreflightChecks gates mps cs).result = (false, none) := by
  unfold runPreflightChecks
  rw [hcs]
  simp [hgate, NestedString_of_versionField _ _ _ hd, hpd, controlPlaneStablePreflightChecks,
    NestedString_of_versionAbsent _ _ hstatus]

/-- Witness for C2: the fixture `controlPlaneProvisioning` (spec v1.25.6, no status). -/
theorem runPreflightChecks_fails_while_provisioning_witness :
    (runPreflightChecks gatesEnabled {} (scopeWith controlPlaneProvisioning)).result
      = (false, none) :=
  runPreflightChecks_fails_while_provisioning gatesEnabled {} (scopeWith controlPlaneProvisioning)
    controlPlaneProvisioning "v1.25.6" ⟨1, 25, 6, [], []⟩ rfl rfl (by decide) (by rfl)
    (by decide)

/-- C3: with the feature gate enabled, a control plane object whose `spec.version` and
`status.version` both parse and whose spec version is the greater one under semantic-version
comparison makes `runPreflightChecks` return `(false, nil)`. -/
theorem runPreflightChecks_fails_while_upgrading (gates : Feature → Bool)
    (mps : MachinePoolScope) (cs : ClusterScoper) (cp : Unstructured) (d o : String)
    (vd vo : Version)
    (hgate : gates Feature.MachinePoolPreflightChecks = true)
    (hcs : cs.UnstructuredControlPlane = (some cp, none))
    (hd : versionField cp.UnstructuredContent "spec" = some d)
    (ho : versionField cp.UnstructuredContent "status" = some o)
    (hpd : ParseTolerant d = .ok vd) (hpo : ParseTolerant o = .ok vo)
    (hgt : vd.Compare vo = 1) :
    (runPreflightChecks gates mps cs).result = (false, none) := by
  rw [runPreflightChecks_of_versions gates mps cs cp d o vd vo hgate hcs hd ho hpd hpo,
    CompareWithBuildTags_of_greater vd vo hgt]
  simp

/-- Witness for C3: the fixture `controlPlaneUpgrading` (spec v1.26.2, status v1.25.2). -/
theorem runPreflightChecks_fails_while_upgrading_witness :
    (runPreflightChecks gatesEnabled {} (scopeWith controlPlaneUpgrading)).result
      = (false, none) :=
  runPreflightChecks_fails_while_upgrading gatesEnabled {} (scopeWith controlPlaneUpgrading)
    controlPlaneUpgrading "v1.26.2" "v1.25.2" ⟨1, 26, 2, [], []⟩ ⟨1, 25, 2, [], []⟩
    rfl rfl (by decide) (by decide) (by rfl) (by rfl) (by decide)

/-- C4, as stated, fails: spec v1.26.2 and status v1.26.2-rc.0 parse to the same
major.minor.patch triple with the same (empty) build metadata, yet the stability check
returns `(false, nil)`, because the released version is greater than its pre-release. -/
theorem stable_check_rejects_prerelease_status :
    (∃ vd vo, ParseTolerant "v1.26.2" = .ok vd ∧ ParseTolerant "v1.26.2-rc.0" = .ok vo ∧
      vd.Major = vo.Major ∧ vd.Minor = vo.Minor ∧ vd.Patch = vo.Patch ∧ vd.Build = vo.Build) ∧
    controlPlaneStablePreflightChecks
      (ControlPlane "ns1" "cp1" (some "v1.26.2") (some "v1.26.2-rc.0")) = (false, none) ∧
    (runPreflightChecks gatesEnabled {}
      (scopeWith (ControlPlane "ns1" "cp1" (some "v1.26.2") (some "v1.26.2-rc.0")))).result
      = (false, none) := by
  refine ⟨⟨⟨1, 26, 2, [], []⟩, ⟨1, 26, 2, [⟨['r', 'c'], 0, false⟩, ⟨[], 0, true⟩], []⟩,
    by rfl, by rfl, rfl, rfl, rfl, rfl⟩, by rfl, by rfl⟩

/-- C4, amended: for parseable spec and status versions with the same major.minor.patch
triple, the same pre-release identifiers and the same build metadata, the stability check
returns `(true, nil)`, and so does `runPreflightChecks` whatever the gate and the machine pool
(in particular for a machine pool with no version set). -/
theorem stable_check_passes_on_equal_versions (gates : Feature → Bool)
    (mps : MachinePoolScope) (cs : ClusterScoper) (cp : Unstructured) (d o : String)
    (vd vo : Version)
    (hcs : cs.UnstructuredControlPlane = (some cp, none))
    (hd : versionField cp.UnstructuredContent "spec" = some d)
    (ho : versionField cp.UnstructuredContent "status" = some o)
    (hpd : ParseTolerant d = .ok vd) (hpo : ParseTolerant o = .ok vo)
    (hmajor : vd.Major = vo.Major) (hminor : vd.Minor = vo.Minor)
    (hpatch : vd.Patch = vo.Patch) (hpre : vd.Pre = vo.Pre) (hbuild : vd.Build = vo.Build) :
    controlPlaneStablePreflightChecks cp = (true, none) ∧
    (runPreflightChecks gates mps cs).result = (true, none) := by
  have hv : vd = vo := by
    cases vd; cases vo; simp_all
  subst hv
  constructor
  · rw [controlPlaneStablePreflightChecks_of_versions cp d o vd vd hd ho hpd hpo,
      CompareWithBuildTags_self]
    simp
  · cases hgate : gates Feature.MachinePoolPreflightChecks
    · simp [runPreflightChecks, hgate]
    · rw [runPreflightChecks_of_versions gates mps cs cp d o vd vd hgate hcs hd ho hpd hpo,
        CompareWithBuildTags_self]
      simp

/-- Witness for C4 amended: the fixture `controlPlaneStable` (v1.26.2 / v1.26.2) with a
machine pool that has no version. -/
theorem stable_check_passes_on_equal_versions_witness :
    controlPlaneStablePreflightChecks controlPlaneStable = (true, none) ∧
    (runPreflightChecks gatesEnabled {} (scopeWith controlPlaneStable)).result = (true, none) :=
  stable_check_passes_on_equal_versions gatesEnabled {} (scopeWith controlPlaneStable)
    controlPlaneStable "v1.26.2" "v1.26.2" ⟨1, 26, 2, [], []⟩ ⟨1, 26, 2, [], []⟩
    rfl (by decide) (by decide) (by rfl) (by rfl) rfl rfl rfl rfl rfl

/-- C5: with the feature gate enabled, a control plane object whose `spec.version` is present
but does not parse as a tolerant semantic version makes `runPreflightChecks` return false
together with the (non-nil) parse error. -/
theorem runPreflightChecks_errors_on_invalid_spec_version (gates : Feature → Bool)
    (mps : MachinePoolScope) (cs : ClusterScoper) (cp : Unstructured) (d : String)
    (e : SemverError)
    (hgate : gates Feature.MachinePoolPreflightChecks = true)
    (hcs : cs.UnstructuredControlPlane = (some cp, none))
    (hd : versionField cp.UnstructuredContent "spec" = some d)
    (hpd : ParseTolerant d = .error e) :
    (runPreflightChecks gates mps cs).result = (false, some (Err.semver e)) := by
  unfold runPreflightChecks
  rw [hcs]
  simp [hgate, NestedString_of_versionField _ _ _ hd, hpd]

/-- Witness for C5: the fixture `controlPlaneWithInvalidVersion` (spec "v1.25.6.0"). -/
theorem runPreflightChecks_errors_on_invalid_spec_version_witness :
    (runPreflightChecks gatesEnabled {} (scopeWith controlPlaneWithInvalidVersion)).result
      = (false, some (Err.semver SemverError.invalidPatch)) :=
  runPreflightChecks_errors_on_invalid_spec_version gatesEnabled {}
    (scopeWith controlPlaneWithInvalidVersion) controlPlaneWithInvalidVersion "v1.25.6.0"
    SemverError.invalidPatch rfl rfl (by decide) (by rfl)

/-- C6: with the feature gate disabled `runPreflightChecks` returns `(true, nil)` for every
machine pool and every cluster scope, whatever a control plane fetch would return, and it
performs no fetch of the control plane object. -/
theorem runPreflightChecks_gate_disabled (gates : Feature → Bool) (mps : MachinePoolScope)
    (cs : ClusterScoper) (hgate : gates Feature.MachinePoolPreflightChecks = false) :
    (runPreflightChecks gates mps cs).result = (true, none) ∧
    (runPreflightChecks gates mps cs).fetches = 0 := by
  simp [runPreflightChecks, hgate]

/-- Witness for C6: the test case, a control plane that is mid-upgrade and a kubeadm machine
pool at v1.26.0. -/
theorem runPreflightChecks_gate_disabled_witness :
    (runPreflightChecks gatesDisabled (kubeadmPoolWithVersion "v1.26.0")
      (scopeWith controlPlaneUpgrading)).result = (true, none) ∧
    (runPreflightChecks gatesDisabled (kubeadmPoolWithVersion "v1.26.0")
      (scopeWith controlPlaneUpgrading)).fetches = 0 :=
  runPreflightChecks_gate_disabled gatesDisabled (kubeadmPoolWithVersion "v1.26.0")
    (scopeWith controlPlaneUpgrading) rfl

/-- C7: what the code does at machine pools that the skew rule rejects. With the gate enabled
and no bootstrap reference, the stable control plane v1.26.2 with a pool at v1.27.0 (pool minor
above the control-plane minor, the input of the test at lines 243-267), the stable control
plane v1.28.0 with a pool at v1.23.0 (five minors behind) and a stable control plane v1.27.0
with a pool at v1.23.0 (four minors behind) are rejected by the rule in the words of the
specification, and the first two also by the window of the tests; `runPreflightChecks`
returns `(true, nil)` on each of them. -/
theorem runPreflightChecks_ignores_specified_skew :
    usesKubeadmBootstrap (poolWithVersion "v1.27.0").MachinePool = false ∧
    usesKubeadmBootstrap (poolWithVersion "v1.23.0").MachinePool = false ∧
    ParseTolerant "v1.26.2" = .ok ⟨1, 26, 2, [], []⟩ ∧
    ParseTolerant "v1.27.0" = .ok ⟨1, 27, 0, [], []⟩ ∧
    ParseTolerant "v1.28.0" = .ok ⟨1, 28, 0, [], []⟩ ∧
    ParseTolerant "v1.23.0" = .ok ⟨1, 23, 0, [], []⟩ ∧
    specSkewAcceptable 26 27 = false ∧ testedSkewWindow 26 27 = false ∧
    (runPreflightChecks gatesEnabled (poolWithVersion "v1.27.0")
      (scopeWith controlPlaneStable)).result = (true, none) ∧
    specSkewAcceptable 28 23 = false ∧ testedSkewWindow 28 23 = false ∧
    (runPreflightChecks gatesEnabled (poolWithVersion "v1.23.0")
      (scopeWith controlPlaneStable128)).result = (true, none) ∧
    specSkewAcceptable 27 23 = false ∧
    (runPreflightChecks gatesEnabled (poolWithVersion "v1.23.0")
      (scopeWith (ControlPlane "ns1" "cp1" (some "v1.27.0") (some "v1.27.0")))).result
      = (true, none) := by
  refine ⟨by decide, by decide, by rfl, by rfl, by rfl, by rfl, by decide, by decide, by rfl,
    by decide, by decide, by rfl, by decide, by rfl⟩

/-- C8: what the code does at the two inputs the tests expect to be rejected. With the gate
enabled and no bootstrap reference, control plane v1.28.0 with pool v1.24.0 (four minors
behind) and control plane v1.26.2 with pool v1.23.0 (three minors behind) both give
`(true, nil)`; so do the two inputs the tests expect to pass. -/
theorem runPreflightChecks_accepts_pools_beyond_tested_skew :
    (runPreflightChecks gatesEnabled (poolWithVersion "v1.24.0")
      (scopeWith controlPlaneStable128)).result = (true, none) ∧
    (runPreflightChecks gatesEnabled (poolWithVersion "v1.23.0")
      (scopeWith controlPlaneStable)).result = (true, none) ∧
    (runPreflightChecks gatesEnabled (poolWithVersion "v1.25.0")
      (scopeWith controlPlaneStable128)).result = (true, none) ∧
    (runPreflightChecks gatesEnabled (poolWithVersion "v1.24.0")
      (scopeWith controlPlaneStable)).result = (true, none) ∧
    testedSkewWindow 28 24 = false ∧ testedSkewWindow 26 23 = false := by
  refine ⟨by rfl, by rfl, by rfl, by rfl, by decide, by decide⟩

/-- C9: what the code does at the input the kubeadm test expects to be rejected. With the gate
enabled, the stable control plane v1.26.2 and a pool at v1.25.5 bootstrapped by a
`KubeadmConfigTemplate` give `(true, nil)`, the same as the pool without bootstrap
reference. -/
theorem runPreflightChecks_accepts_kubeadm_minor_mismatch :
    usesKubeadmBootstrap (kubeadmPoolWithVersion "v1.25.5").MachinePool = true ∧
    ParseTolerant "v1.25.5" = .ok ⟨1, 25, 5, [], []⟩ ∧
    (runPreflightChecks gatesEnabled (kubeadmPoolWithVersion "v1.25.5")
      (scopeWith controlPlaneStable)).result = (true, none) ∧
    (runPreflightChecks gatesEnabled (poolWithVersion "v1.25.5")
      (scopeWith controlPlaneStable)).result = (true, none) := by
  refine ⟨by decide, by rfl, by rfl, by rfl⟩

/-- C10: what the code does at the input the test expects to fail with an error. With the gate
enabled and the stable control plane v1.26.2, a pool whose version "v1.27.0.0" does not parse
gives `(true, nil)`: no error is returned. -/
theorem runPreflightChecks_accepts_unparseable_pool_version :
    ParseTolerant "v1.27.0.0" = .error SemverError.invalidPatch ∧
    (runPreflightChecks gatesEnabled (poolWithVersion "v1.27.0.0")
      (scopeWith controlPlaneStable)).result = (true, none) := by
  refine ⟨by rfl, by rfl⟩

/-! ## Theorems on the lifecycle hook comparator -/

/-- C11: what the code does on two hooks that carry the same notification target text in two
different string allocations and agree on every other field. The specified rule says no update
is needed; `lifecycleHookNeedsUpdate` compares the two pointers and returns true. -/
theorem lifecycleHookNeedsUpdate_compares_pointers :
    textOf (notifyingHook "the-hook" 1 2 "role-arn").NotificationTargetARN
      = textOf (notifyingHook "the-hook" 101 102 "role-arn").NotificationTargetARN ∧
    specNeedsUpdate (notifyingHook "the-hook" 101 102 "role-arn")
      (notifyingHook "the-hook" 1 2 "role-arn") = false ∧
    lifecycleHookNeedsUpdate (notifyingHook "the-hook" 101 102 "role-arn")
      (notifyingHook "the-hook" 1 2 "role-arn") = true := by
  refine ⟨by rfl, by decide, by decide⟩

/-- C12: what the code does when only the role changes. `lifecycleHookNeedsUpdate` never reads
`RoleARN`: its answer is the same whatever the two roles are. Yet for the hook that the store
holds with role `role-a` and a notification target, and the wanted hook with the same field
values and role `role-b`, the rule in the words of the specification needs no update while
`lifecycleHookNeedsUpdate` returns true on the fetched hook (the two notification target
strings are separate allocations), and `ReconcileLifecycleHooks` issues an update. Without
notification target the same role change needs no update and issues no call. -/
theorem lifecycleHookNeedsUpdate_role_change_with_target :
    (∀ (existing expected : AWSLifecycleHook) (role1 role2 : Option StringPtr),
      lifecycleHookNeedsUpdate { existing with RoleARN := role1 }
          { expected with RoleARN := role2 }
        = lifecycleHookNeedsUpdate existing expected) ∧
    (storeService.asInterface.DescribeLifecycleHooks "asg" roleChangeStore).1
      = ([hookOfRecord (StoredHook.mk "the-hook" LifecycleHookTransitionInstanceTerminating
            LifecycleHookDefaultResultAbandon 3600 (some "notification-target-arn")
            (some "role-a") none) 1000], none) ∧
    specNeedsUpdate
      (hookOfRecord (StoredHook.mk "the-hook" LifecycleHookTransitionInstanceTerminating
        LifecycleHookDefaultResultAbandon 3600 (some "notification-target-arn")
        (some "role-a") none) 1000)
      (notifyingHook "the-hook" 1 2 "role-b") = false ∧
    lifecycleHookNeedsUpdate
      (hookOfRecord (StoredHook.mk "the-hook" LifecycleHookTransitionInstanceTerminating
        LifecycleHookDefaultResultAbandon 3600 (some "notification-target-arn")
        (some "role-a") none) 1000)
      (notifyingHook "the-hook" 1 2 "role-b") = true ∧
    (ReconcileLifecycleHooks storeService.asInterface "asg"
      [notifyingHook "the-hook" 1 2 "role-b"] ignoreNone (freshRun roleChangeStore)).2.calls
      = [(Call.DescribeLifecycleHooks "asg", none),
         (Call.UpdateLifecycleHook "asg" (notifyingHook "the-hook" 1 2 "role-b"), none)] ∧
    lifecycleHookNeedsUpdate
      { plainHook "the-hook" with RoleARN := some { addr := 1001, val := "role-a" } }
      { plainHook "the-hook" with RoleARN := some { addr := 2, val := "role-b" } } = false ∧
    (ReconcileLifecycleHooks
      (scriptedService
        [{ plainHook "the-hook" with RoleARN := some { addr := 1001, val := "role-a" } }]
        none allSucceed) "asg"
      [{ plainHook "the-hook" with RoleARN := some { addr := 2, val := "role-b" } }]
      ignoreNone (freshRun ())).2.calls
      = [(Call.DescribeLifecycleHooks "asg", none)] := by
  refine ⟨fun _ _ _ _ => rfl, by rfl, by decide, by decide, by decide, by decide, by decide⟩

/-! ## Lemmas on the reconcile loops -/

theorem reconcileLifecycleHook_calls_target {σ : Type} (asgService : ASGInterface σ)
    (asgName : String) (wanted : AWSLifecycleHook) (existingHooks : List AWSLifecycleHook)
    (st : RunState σ) :
    ∀ entry ∈ (reconcileLifecycleHook asgService asgName wanted existingHooks st).2.calls,
      entry ∈ st.calls ∨ entry.1.target = some wanted.Name := by
  intro entry h
  unfold reconcileLifecycleHook at h
  split at h
  · split at h <;> simp at h <;> rcases h with h | h <;> simp [h, Call.target]
  · split at h
    · split at h <;> simp at h <;> rcases h with h | h <;> simp [h, Call.target]
    · simp at h
      exact Or.inl h

theorem reconcileWanted_calls_not_ignored {σ : Type} (asgService : ASGInterface σ)
    (asgName : String) (ignore : String → Bool) (existingHooks : List AWSLifecycleHook)
    (wanted : List AWSLifecycleHook) (st : RunState σ) :
    ∀ entry ∈ (reconcileWanted asgService asgName ignore existingHooks wanted st).2.calls,
      entry ∈ st.calls ∨ ∃ n, entry.1.target = some n ∧ ignore n = false := by
  induction wanted generalizing st with
  | nil => intro entry h; exact Or.inl h
  | cons w rest ih =>
    intro entry h
    unfold reconcileWanted at h
    by_cases hi : ignore w.Name = true
    · simp only [hi, if_true] at h
      exact ih st entry h
    · simp only [hi] at h
      have hi2 : ignore w.Name = false := by simpa using hi
      have hstep := reconcileLifecycleHook_calls_target asgService asgName w existingHooks st
      cases hr : reconcileLifecycleHook asgService asgName w existingHooks st with
      | mk r st1 =>
        rw [hr] at h hstep
        cases r with
        | some e =>
          simp only at h
          rcases hstep entry h with h1 | h1
          · exact Or.inl h1
          · exact Or.inr ⟨w.Name, h1, hi2⟩
        | none =>
          simp only at h
          rcases ih st1 entry h with h1 | h1
          · rcases hstep entry h1 with h2 | h2
            · exact Or.inl h2
            · exact Or.inr ⟨w.Name, h2, hi2⟩
          · exact Or.inr h1

theorem deleteExtraneous_calls_not_ignored {σ : Type} (asgService : ASGInterface σ)
    (asgName : String) (ignore : String → Bool) (wanted : List AWSLifecycleHook)
    (existingHooks : List AWSLifecycleHook) (st : RunState σ) :
    ∀ entry ∈ (deleteExtraneous asgService asgName ignore wanted existingHooks st).2.calls,
      entry ∈ st.calls ∨ ∃ n, entry.1.target = some n ∧ ignore n = false := by
  induction existingHooks generalizing st with
  | nil => intro entry h; exact Or.inl h
  | cons x rest ih =>
    intro entry h
    unfold deleteExtraneous at h
    by_cases hi : ignore x.Name = true
    · simp only [hi, if_true] at h
      exact ih st entry h
    · simp only [hi] at h
      have hi2 : ignore x.Name = false := by simpa using hi
      by_cases hany : wanted.any (fun wantedHook => x.Name == wantedHook.Name) = true
      · simp only [hany, if_true, Bool.false_eq_true, if_false] at h
        exact ih st entry h
      · simp only [hany, Bool.false_eq_true, if_false] at h
        cases hdel : asgService.DeleteLifecycleHook asgName x st.svc with
        | mk r svc1 =>
          rw [hdel] at h
          cases r with
          | some e =>
            simp at h
            rcases h with h | h
            · exact Or.inl h
            · exact Or.inr ⟨x.Name, by simp [h, Call.target], hi2⟩
          | none =>
            simp only at h
            rcases ih _ entry h with h1 | h1
            · simp at h1
              rcases h1 with h1 | h1
              · exact Or.inl h1
              · exact Or.inr ⟨x.Name, by simp [h1, Call.target], hi2⟩
            · exact Or.inr h1

theorem reconcileWanted_filter_ignored {σ : Type} (asgService : ASGInterface σ)
    (asgName : String) (ignore : String → Bool) (existingHooks : List AWSLifecycleHook)
    (wanted : List AWSLifecycleHook) (st : RunState σ) :
    reconcileWanted asgService asgName ignore existingHooks
        (wanted.filter (fun h => !ignore h.Name)) st
      = reconcileWanted asgService asgName ignore existingHooks wanted st := by
  induction wanted generalizing st with
  | nil => rfl
  | cons w rest ih =>
    by_cases hi : ignore w.Name = true
    · simp only [List.filter, hi, Bool.not_true]
      rw [ih]
      conv => rhs; unfold reconcileWanted
      simp [hi]
    · have hi2 : ignore w.Name = false := by simpa using hi
      simp only [List.filter, hi2, Bool.not_false]
      unfold reconcileWanted
      simp only [hi2]
      cases hr : reconcileLifecycleHook asgService asgName w existingHooks st with
      | mk r st1 =>
        cases r with
        | some e => rfl
        | none => simp only [Bool.false_eq_true, if_false]; exact ih st1

theorem deleteExtraneous_filter_ignored {σ : Type} (asgService : ASGInterface σ)
    (asgName : String) (ignore : String → Bool) (wanted : List AWSLifecycleHook)
    (existingHooks : List AWSLifecycleHook) (st : RunState σ) :
    deleteExtraneous asgService asgName ignore (wanted.filter (fun h => !ignore h.Name))
        existingHooks st
      = deleteExtraneous asgService asgName ignore wanted existingHooks st := by
  induction existingHooks generalizing st with
  | nil => rfl
  | cons x rest ih =>
    unfold deleteExtraneous
    by_cases hi : ignore x.Name = true
    · simp only [hi, if_true]
      exact ih st
    · have hi2 : ignore x.Name = false := by simpa using hi
      have hany : (wanted.filter (fun h => !ignore h.Name)).any
            (fun wantedHook => x.Name == wantedHook.Name)
          = wanted.any (fun wantedHook => x.Name == wantedHook.Name) := by
        rw [Bool.eq_iff_iff]
        simp only [List.any_eq_true, List.mem_filter, beq_iff_eq]
        constructor
        · rintro ⟨w, ⟨hw, _⟩, hn⟩
          exact ⟨w, hw, hn⟩
        · rintro ⟨w, hw, hn⟩
          refine ⟨w, ⟨hw, ?_⟩, hn⟩
          rw [← hn, hi2]
          rfl
      simp only [hi2, hany, Bool.false_eq_true, if_false]
      by_cases hw : wanted.any (fun wantedHook => x.Name == wantedHook.Name) = true
      · simp only [hw, if_true]
        exact ih st
      · simp only [hw, Bool.false_eq_true, if_false]
        cases hdel : asgService.DeleteLifecycleHook asgName x st.svc with
        | mk r svc1 =>
          cases r with
          | some e => rfl
          | none => exact ih _

/-! ## Theorems on `ReconcileLifecycleHooks` -/

/-- C13: whatever the service calls return, every call that `ReconcileLifecycleHooks` adds to
the record and that targets a hook (create, update or delete) targets a hook whose name is not
on the ignore list; and the whole run (error, conditions, calls and service state) is the same
as the run with the ignored hooks taken out of the wanted list, so a wanted hook on the ignore
list is never looked at, drifted or not. -/
theorem ReconcileLifecycleHooks_skips_ignored {σ : Type} (asgService : ASGInterface σ)
    (asgName : String) (wanted : List AWSLifecycleHook) (ignore : String → Bool)
    (st : RunState σ) :
    (∀ entry ∈ (ReconcileLifecycleHooks asgService asgName wanted ignore st).2.calls,
      entry ∈ st.calls ∨ entry.1.target = none ∨
        ∃ n, entry.1.target = some n ∧ ignore n = false) ∧
    ReconcileLifecycleHooks asgService asgName (wanted.filter (fun h => !ignore h.Name))
      ignore st = ReconcileLifecycleHooks asgService asgName wanted ignore st := by
  constructor
  · intro entry h
    unfold ReconcileLifecycleHooks at h
    cases hd : asgService.DescribeLifecycleHooks asgName st.svc with
    | mk res svc1 =>
      obtain ⟨existingHooks, err⟩ := res
      rw [hd] at h
      cases err with
      | some e =>
        simp at h
        rcases h with h | h
        · exact Or.inl h
        · exact Or.inr (Or.inl (by simp [h, Call.target]))
      | none =>
        simp only at h
        have hbase : ∀ x ∈ st.calls ++ [(Call.DescribeLifecycleHooks asgName, none)],
            x ∈ st.calls ∨ x.1.target = none := by
          intro x hx
          simp at hx
          rcases hx with hx | hx
          · exact Or.inl hx
          · exact Or.inr (by simp [hx, Call.target])
        have hw := reconcileWanted_calls_not_ignored asgService asgName ignore existingHooks
          wanted { svc := svc1, conditions := st.conditions,
                   calls := st.calls ++ [(Call.DescribeLifecycleHooks asgName, none)] }
        cases hr : reconcileWanted asgService asgName ignore existingHooks wanted
            { svc := svc1, conditions := st.conditions,
              calls := st.calls ++ [(Call.DescribeLifecycleHooks asgName, none)] } with
        | mk r st1 =>
          rw [hr] at h hw
          cases r with
          | some e =>
            simp only at h
            rcases hw entry h with h1 | h1
            · rcases hbase entry h1 with h2 | h2
              · exact Or.inl h2
              · exact Or.inr (Or.inl h2)
            · exact Or.inr (Or.inr h1)
          | none =>
            simp only at h
            rcases deleteExtraneous_calls_not_ignored asgService asgName ignore wanted
              existingHooks st1 entry h with h1 | h1
            · rcases hw entry h1 with h2 | h2
              · rcases hbase entry h2 with h3 | h3
                · exact Or.inl h3
                · exact Or.inr (Or.inl h3)
              · exact Or.inr (Or.inr h2)
            · exact Or.inr (Or.inr h1)
  · unfold ReconcileLifecycleHooks
    simp only [reconcileWanted_filter_ignored, deleteExtraneous_filter_ignored]

/-! ## Fail-fast -/

theorem failFast_nil (ret : Option GoError) : failFast [] ret = ret.isNone := rfl

theorem failFast_single (x : Call × Option GoError) (ret : Option GoError) :
    failFast [x] ret = (x.2 == ret) := rfl

theorem failFast_cons_cons (x y : Call × Option GoError) (ys : List (Call × Option GoError))
    (ret : Option GoError) :
    failFast (x :: y :: ys) ret = (x.2.isNone && failFast (y :: ys) ret) := rfl

theorem allOk_cons (x : Call × Option GoError) (rest : List (Call × Option GoError)) :
    allOk (x :: rest) = (x.2.isNone && allOk rest) := rfl

theorem failFast_none_iff (added : List (Call × Option GoError)) :
    failFast added none = true ↔ allOk added = true := by
  induction added with
  | nil => simp [failFast_nil, allOk]
  | cons x rest ih =>
    cases rest with
    | nil =>
      rw [failFast_single, allOk_cons]
      cases hx : x.2 <;> simp [allOk]
    | cons y ys =>
      rw [failFast_cons_cons, allOk_cons, Bool.and_eq_true, Bool.and_eq_true, ih]

theorem failFast_append (a b : List (Call × Option GoError)) (ret : Option GoError)
    (ha : allOk a = true) (hb : failFast b ret = true) : failFast (a ++ b) ret = true := by
  induction a with
  | nil => simpa using hb
  | cons x rest ih =>
    rw [allOk_cons, Bool.and_eq_true] at ha
    have ih2 := ih ha.2
    cases hrb : rest ++ b with
    | nil =>
      have hr : rest = [] := (List.append_eq_nil.mp hrb).1
      have hbn : b = [] := (List.append_eq_nil.mp hrb).2
      subst hr; subst hbn
      rw [failFast_nil] at hb
      rw [List.append_nil, failFast_single]
      cases ret with
      | none =>
        have hx := ha.1
        cases hx2 : x.2 with
        | none => rfl
        | some e => rw [hx2] at hx; simp at hx
      | some e => simp at hb
    | cons y ys =>
      rw [hrb] at ih2
      rw [List.cons_append, hrb, failFast_cons_cons, Bool.and_eq_true]
      exact ⟨ha.1, ih2⟩

theorem failFast_split (pre post : List (Call × Option GoError)) (c : Call) (e : GoError)
    (ret : Option GoError) (h : failFast (pre ++ (c, some e) :: post) ret = true) :
    post = [] ∧ ret = some e := by
  induction pre with
  | nil =>
    cases post with
    | nil =>
      rw [List.nil_append, failFast_single, beq_iff_eq] at h
      exact ⟨rfl, h.symm⟩
    | cons y ys =>
      rw [List.nil_append, failFast_cons_cons] at h
      simp at h
  | cons x rest ih =>
    cases hrb : rest ++ (c, some e) :: post with
    | nil => simp at hrb
    | cons y ys =>
      rw [List.cons_append, hrb, failFast_cons_cons, Bool.and_eq_true] at h
      rw [hrb] at ih
      exact ih h.2

theorem reconcileLifecycleHook_failFast {σ : Type} (asgService : ASGInterface σ)
    (asgName : String) (wanted : AWSLifecycleHook) (existingHooks : List AWSLifecycleHook)
    (st : RunState σ) :
    ∃ added, (reconcileLifecycleHook asgService asgName wanted existingHooks st).2.calls
        = st.calls ++ added ∧
      failFast added (reconcileLifecycleHook asgService asgName wanted existingHooks st).1
        = true := by
  unfold reconcileLifecycleHook
  cases existingHooks.find? (fun h => h.Name == wanted.Name) with
  | none =>
    cases hc : asgService.CreateLifecycleHook asgName wanted st.svc with
    | mk r svc1 =>
      cases r with
      | some e => exact ⟨[(Call.CreateLifecycleHook asgName wanted, some e)], rfl, by simp [failFast]⟩
      | none => exact ⟨[(Call.CreateLifecycleHook asgName wanted, none)], rfl, by simp [failFast]⟩
  | some ex =>
    by_cases hn : lifecycleHookNeedsUpdate ex wanted = true
    · simp only [hn, if_true]
      cases hc : asgService.UpdateLifecycleHook asgName wanted st.svc with
      | mk r svc1 =>
        cases r with
        | some e =>
          exact ⟨[(Call.UpdateLifecycleHook asgName wanted, some e)], rfl, by simp [failFast]⟩
        | none =>
          exact ⟨[(Call.UpdateLifecycleHook asgName wanted, none)], rfl, by simp [failFast]⟩
    · simp only [hn, Bool.false_eq_true, if_false]
      exact ⟨[], by simp, by simp [failFast]⟩

theorem reconcileWanted_failFast {σ : Type} (asgService : ASGInterface σ)
    (asgName : String) (ignore : String → Bool) (existingHooks : List AWSLifecycleHook)
    (wanted : List AWSLifecycleHook) (st : RunState σ) :
    ∃ added, (reconcileWanted asgService asgName ignore existingHooks wanted st).2.calls
        = st.calls ++ added ∧
      failFast added (reconcileWanted asgService asgName ignore existingHooks wanted st).1
        = true := by
  induction wanted generalizing st with
  | nil => exact ⟨[], by simp [reconcileWanted], by simp [reconcileWanted, failFast]⟩
  | cons w rest ih =>
    unfold reconcileWanted
    by_cases hi : ignore w.Name = true
    · simp only [hi, if_true]
      exact ih st
    · simp only [hi, Bool.false_eq_true, if_false]
      obtain ⟨a1, hc1, hf1⟩ := reconcileLifecycleHook_failFast asgService asgName w
        existingHooks st
      cases hr : reconcileLifecycleHook asgService asgName w existingHooks st with
      | mk r st1 =>
        rw [hr] at hc1 hf1
        cases r with
        | some e => exact ⟨a1, hc1, hf1⟩
        | none =>
          simp only at hc1 hf1 ⊢
          obtain ⟨a2, hc2, hf2⟩ := ih st1
          refine ⟨a1 ++ a2, ?_, ?_⟩
          · rw [hc2, hc1, List.append_assoc]
          · exact failFast_append a1 a2 _ ((failFast_none_iff a1).mp hf1) hf2

theorem deleteExtraneous_failFast {σ : Type} (asgService : ASGInterface σ)
    (asgName : String) (ignore : String → Bool) (wanted : List AWSLifecycleHook)
    (existingHooks : List AWSLifecycleHook) (st : RunState σ) :
    ∃ added, (deleteExtraneous asgService asgName ignore wanted existingHooks st).2.calls
        = st.calls ++ added ∧
      failFast added (deleteExtraneous asgService asgName ignore wanted existingHooks st).1
        = true := by
  induction existingHooks generalizing st with
  | nil => exact ⟨[], by simp [deleteExtraneous], by simp [deleteExtraneous, failFast]⟩
  | cons x rest ih =>
    unfold deleteExtraneous
    by_cases hi : ignore x.Name = true
    · simp only [hi, if_true]
      exact ih st
    · simp only [hi, Bool.false_eq_true, if_false]
      by_cases hw : wanted.any (fun wantedHook => x.Name == wantedHook.Name) = true
      · simp only [hw, if_true]
        exact ih st
      · simp only [hw, Bool.false_eq_true, if_false]
        cases hdel : asgService.DeleteLifecycleHook asgName x st.svc with
        | mk r svc1 =>
          cases r with
          | some e =>
            exact ⟨[(Call.DeleteLifecycleHook asgName x, some e)], rfl, by simp [failFast]⟩
          | none =>
            simp only
            obtain ⟨a2, hc2, hf2⟩ := ih
              { svc := svc1, conditions := st.conditions,
                calls := st.calls ++ [(Call.DeleteLifecycleHook asgName x, none)] }
            refine ⟨[(Call.DeleteLifecycleHook asgName x, none)] ++ a2, ?_, ?_⟩
            · rw [hc2, List.append_assoc]
            · exact failFast_append _ a2 _ (by simp [allOk]) hf2

theorem ReconcileLifecycleHooks_failFast {σ : Type} (asgService : ASGInterface σ)
    (asgName : String) (wanted : List AWSLifecycleHook) (ignore : String → Bool)
    (st : RunState σ) :
    ∃ added, (ReconcileLifecycleHooks asgService asgName wanted ignore st).2.calls
        = st.calls ++ added ∧
      failFast added (ReconcileLifecycleHooks asgService asgName wanted ignore st).1
        = true := by
  unfold ReconcileLifecycleHooks
  cases hd : asgService.DescribeLifecycleHooks asgName st.svc with
  | mk res svc1 =>
    obtain ⟨existingHooks, err⟩ := res
    cases err with
    | some e =>
      exact ⟨[(Call.DescribeLifecycleHooks asgName, some e)], rfl, by simp [failFast]⟩
    | none =>
      simp only
      obtain ⟨a1, hc1, hf1⟩ := reconcileWanted_failFast asgService asgName ignore
        existingHooks wanted
        { svc := svc1, conditions := st.conditions,
          calls := st.calls ++ [(Call.DescribeLifecycleHooks asgName, none)] }
      cases hr : reconcileWanted asgService asgName ignore existingHooks wanted
          { svc := svc1, conditions := st.conditions,
            calls := st.calls ++ [(Call.DescribeLifecycleHooks asgName, none)] } with
      | mk r st1 =>
        rw [hr] at hc1 hf1
        cases r with
        | some e =>
          refine ⟨[(Call.DescribeLifecycleHooks asgName, none)] ++ a1, ?_, ?_⟩
          · simp only at hc1 ⊢
            rw [hc1, List.append_assoc]
          · exact failFast_append _ a1 _ (by simp [allOk]) hf1
        | none =>
          simp only at hc1 hf1 ⊢
          obtain ⟨a2, hc2, hf2⟩ := deleteExtraneous_failFast asgService asgName ignore wanted
            existingHooks st1
          refine ⟨[(Call.DescribeLifecycleHooks asgName, none)] ++ (a1 ++ a2), ?_, ?_⟩
          · rw [hc2, hc1]
            simp [List.append_assoc]
          · exact failFast_append _ _ _ (by simp [allOk])
              (failFast_append a1 a2 _ ((failFast_none_iff a1).mp hf1) hf2)

/-- C16: fail-fast. Whenever a call recorded by `ReconcileLifecycleHooks` returned an error,
no call was recorded after it and the run returns that error. -/
theorem ReconcileLifecycleHooks_fail_fast {σ : Type} (asgService : ASGInterface σ)
    (asgName : String) (wanted : List AWSLifecycleHook) (ignore : String → Bool)
    (st : RunState σ) (pre post : List (Call × Option GoError)) (c : Call) (e : GoError)
    (h : (ReconcileLifecycleHooks asgService asgName wanted ignore st).2.calls
      = st.calls ++ (pre ++ (c, some e) :: post)) :
    post = [] ∧ (ReconcileLifecycleHooks asgService asgName wanted ignore st).1 = some e := by
  obtain ⟨added, hc, hf⟩ := ReconcileLifecycleHooks_failFast asgService asgName wanted ignore st
  rw [hc] at h
  have hadd : added = pre ++ (c, some e) :: post := List.append_cancel_left h
  rw [hadd] at hf
  exact failFast_split pre post c e _ hf

/-- Witness for C16: three wanted hooks, none stored, the create of the second fails. The
record of calls is the describe, the create of the first and the failed create of the second:
the third create is never attempted and no delete is issued. -/
theorem ReconcileLifecycleHooks_fail_fast_witness :
    ([] : List (Call × Option GoError)) = [] ∧
    (ReconcileLifecycleHooks
      (scriptedService [plainHook "old"] none (createFails "second" (GoError.New "boom")))
      "asg" [plainHook "first", plainHook "second", plainHook "third"] ignoreNone
      (freshRun ())).1 = some (GoError.New "boom") :=
  ReconcileLifecycleHooks_fail_fast
    (scriptedService [plainHook "old"] none (createFails "second" (GoError.New "boom")))
    "asg" [plainHook "first", plainHook "second", plainHook "third"] ignoreNone (freshRun ())
    [(Call.DescribeLifecycleHooks "asg", none),
     (Call.CreateLifecycleHook "asg" (plainHook "first"), none)]
    [] (Call.CreateLifecycleHook "asg" (plainHook "second")) (GoError.New "boom") (by decide)

/-! ## Conditions -/

theorem conditionsGet_conditionsSet (conds : List Condition) (c : Condition) :
    conditionsGet (conditionsSet conds c) c.Type_ = some c := by
  induction conds with
  | nil => simp [conditionsSet, conditionsGet]
  | cons x xs ih =>
    unfold conditionsSet
    by_cases hx : x.Type_ = c.Type_
    · simp [hx, conditionsGet]
    · simp only [hx, if_false]
      unfold conditionsGet at ih ⊢
      simp [List.find?, hx, ih]

theorem conditionsGet_MarkFalse (conds : List Condition) (t : ConditionType)
    (reason : ConditionReason) (severity : ConditionSeverity) (messageFormat : String) :
    conditionsGet (MarkFalse conds t reason severity messageFormat) t
      = some (FalseCondition t reason severity messageFormat) :=
  conditionsGet_conditionsSet conds (FalseCondition t reason severity messageFormat)

theorem conditionsGet_MarkTrue (conds : List Condition) (t : ConditionType) :
    conditionsGet (MarkTrue conds t) t = some (TrueCondition t) :=
  conditionsGet_conditionsSet conds (TrueCondition t)

/-- The formatted text of a format string without `%` is the string itself. -/
theorem doPrintf_of_no_percent (fuel : Nat) (format : List Char)
    (h : cut '%' format = none) : doPrintf (fuel + 1) format = format := by
  simp [doPrintf, h]

theorem reconcileLifecycleHook_failureRecorded {σ : Type} (asgService : ASGInterface σ)
    (asgName : String) (wanted : AWSLifecycleHook) (existingHooks : List AWSLifecycleHook)
    (st : RunState σ) (e : GoError)
    (h : (reconcileLifecycleHook asgService asgName wanted existingHooks st).1 = some e) :
    failureRecorded (reconcileLifecycleHook asgService asgName wanted existingHooks st).2.calls
      (reconcileLifecycleHook asgService asgName wanted existingHooks st).2.conditions e := by
  unfold reconcileLifecycleHook at h ⊢
  cases hf : existingHooks.find? (fun h => h.Name == wanted.Name) with
  | none =>
    rw [hf] at h
    simp only at h ⊢
    cases hc : asgService.CreateLifecycleHook asgName wanted st.svc with
    | mk r svc1 =>
      rw [hc] at h
      cases r with
      | some e2 =>
        simp only [Option.some.injEq] at h
        subst h
        exact ⟨_, _, List.getLast?_concat _, rfl, conditionsGet_MarkFalse _ _ _ _ _⟩
      | none => simp at h
  | some ex =>
    rw [hf] at h
    simp only at h ⊢
    by_cases hn : lifecycleHookNeedsUpdate ex wanted = true
    · simp only [hn, if_true] at h ⊢
      cases hc : asgService.UpdateLifecycleHook asgName wanted st.svc with
      | mk r svc1 =>
        rw [hc] at h
        cases r with
        | some e2 =>
          simp only [Option.some.injEq] at h
          subst h
          exact ⟨_, _, List.getLast?_concat _, rfl, conditionsGet_MarkFalse _ _ _ _ _⟩
        | none => simp at h
    · simp [hn] at h

theorem reconcileWanted_failureRecorded {σ : Type} (asgService : ASGInterface σ)
    (asgName : String) (ignore : String → Bool) (existingHooks : List AWSLifecycleHook)
    (wanted : List AWSLifecycleHook) (st : RunState σ) (e : GoError)
    (h : (reconcileWanted asgService asgName ignore existingHooks wanted st).1 = some e) :
    failureRecorded (reconcileWanted asgService asgName ignore existingHooks wanted st).2.calls
      (reconcileWanted asgService asgName ignore existingHooks wanted st).2.conditions e := by
  induction wanted generalizing st with
  | nil => simp [reconcileWanted] at h
  | cons w rest ih =>
    unfold reconcileWanted at h ⊢
    by_cases hi : ignore w.Name = true
    · simp only [hi, if_true] at h ⊢
      exact ih st h
    · simp only [hi, Bool.false_eq_true, if_false] at h ⊢
      have hstep := reconcileLifecycleHook_failureRecorded asgService asgName w existingHooks st
      cases hr : reconcileLifecycleHook asgService asgName w existingHooks st with
      | mk r st1 =>
        rw [hr] at h hstep
        cases r with
        | some e2 =>
          simp only [Option.some.injEq] at h
          subst h
          exact hstep e2 rfl
        | none =>
          simp only at h ⊢
          exact ih st1 h

theorem deleteExtraneous_failureRecorded {σ : Type} (asgService : ASGInterface σ)
    (asgName : String) (ignore : String → Bool) (wanted : List AWSLifecycleHook)
    (existingHooks : List AWSLifecycleHook) (st : RunState σ) (e : GoError)
    (h : (deleteExtraneous asgService asgName ignore wanted existingHooks st).1 = some e) :
    failureRecorded (deleteExtraneous asgService asgName ignore wanted existingHooks st).2.calls
      (deleteExtraneous asgService asgName ignore wanted existingHooks st).2.conditions e := by
  induction existingHooks generalizing st with
  | nil => simp [deleteExtraneous] at h
  | cons x rest ih =>
    unfold deleteExtraneous at h ⊢
    by_cases hi : ignore x.Name = true
    · simp only [hi, if_true] at h ⊢
      exact ih st h
    · simp only [hi, Bool.false_eq_true, if_false] at h ⊢
      by_cases hw : wanted.any (fun wantedHook => x.Name == wantedHook.Name) = true
      · simp only [hw, if_true] at h ⊢
        exact ih st h
      · simp only [hw, Bool.false_eq_true, if_false] at h ⊢
        cases hdel : asgService.DeleteLifecycleHook asgName x st.svc with
        | mk r svc1 =>
          rw [hdel] at h
          cases r with
          | some e2 =>
            simp only [Option.some.injEq] at h
            subst h
            exact ⟨_, _, List.getLast?_concat _, rfl, conditionsGet_MarkFalse _ _ _ _ _⟩
          | none =>
            simp only at h ⊢
            exact ih _ h

/-- C17, as stated, fails: the stored hook `first` needs no update, so processing it marks
`LifecycleHookReady` true; then the create of `second` fails, and when
`ReconcileLifecycleHooks` returns the condition is false with reason creation failed. -/
theorem ReconcileLifecycleHooks_failure_overwrites_success :
    conditionsGet
      (reconcileLifecycleHook
        (scriptedService [plainHook "first"] none (createFails "second" (GoError.New "boom")))
        "asg" (plainHook "first") [plainHook "first"] (freshRun ())).2.conditions
      ConditionType.LifecycleHookReadyCondition
      = some (TrueCondition ConditionType.LifecycleHookReadyCondition) ∧
    (ReconcileLifecycleHooks
      (scriptedService [plainHook "first"] none (createFails "second" (GoError.New "boom")))
      "asg" [plainHook "first", plainHook "second", plainHook "third"] ignoreNone
      (freshRun ())).1 = some (GoError.New "boom") ∧
    (conditionsGet
      (ReconcileLifecycleHooks
        (scriptedService [plainHook "first"] none (createFails "second" (GoError.New "boom")))
        "asg" [plainHook "first", plainHook "second", plainHook "third"] ignoreNone
        (freshRun ())).2.conditions
      ConditionType.LifecycleHookReadyCondition).map (fun c => c.Status)
      = some ConditionStatus.False := by
  refine ⟨by decide, by decide, by decide⟩

/-- C17, amended: for three wanted hooks, the first two not ignored, when the first hook is
processed without error and the create call for the second hook fails with error `e`, then
`ReconcileLifecycleHooks` returns `e` and the condition `LifecycleHookReady` of the owning
object is false, with reason creation failed and severity `Error`: the object carries one such
condition and the failure replaces what the first hook recorded. -/
theorem ReconcileLifecycleHooks_second_create_fails {σ : Type} (asgService : ASGInterface σ)
    (asgName : String) (d1 d2 d3 : AWSLifecycleHook) (ignore : String → Bool)
    (st st2 : RunState σ) (existingHooks : List AWSLifecycleHook) (svc1 svc3 : σ)
    (e : GoError)
    (hdescribe : asgService.DescribeLifecycleHooks asgName st.svc
      = ((existingHooks, none), svc1))
    (hi1 : ignore d1.Name = false) (hi2 : ignore d2.Name = false)
    (hfirst : reconcileLifecycleHook asgService asgName d1 existingHooks
      { svc := svc1, conditions := st.conditions,
        calls := st.calls ++ [(Call.DescribeLifecycleHooks asgName, none)] } = (none, st2))
    (hmissing : existingHooks.find? (fun h => h.Name == d2.Name) = none)
    (hcreate : asgService.CreateLifecycleHook asgName d2 st2.svc = (some e, svc3)) :
    (ReconcileLifecycleHooks asgService asgName [d1, d2, d3] ignore st).1 = some e ∧
    conditionsGet (ReconcileLifecycleHooks asgService asgName [d1, d2, d3] ignore st).2.conditions
      ConditionType.LifecycleHookReadyCondition
      = some (FalseCondition ConditionType.LifecycleHookReadyCondition
          ConditionReason.LifecycleHookCreationFailedReason ConditionSeverity.Error
          e.Error) := by
  have hrun : ReconcileLifecycleHooks asgService asgName [d1, d2, d3] ignore st
      = (some e,
          { svc := svc3,
            conditions := MarkFalse st2.conditions ConditionType.LifecycleHookReadyCondition
              ConditionReason.LifecycleHookCreationFailedReason ConditionSeverity.Error e.Error,
            calls := st2.calls ++ [(Call.CreateLifecycleHook asgName d2, some e)] }) := by
    unfold ReconcileLifecycleHooks
    rw [hdescribe]
    simp only [reconcileWanted, hi1, hi2, Bool.false_eq_true, if_false, hfirst]
    simp only [reconcileLifecycleHook, hmissing, hcreate]
  rw [hrun]
  exact ⟨rfl, conditionsGet_MarkFalse _ _ _ _ _⟩

/-- Witness for C17 amended: the stored hook `first` needs no update and the create of
`second` fails with the error `boom`. -/
theorem ReconcileLifecycleHooks_second_create_fails_witness :
    (ReconcileLifecycleHooks
      (scriptedService [plainHook "first"] none (createFails "second" (GoError.New "boom")))
      "asg" [plainHook "first", plainHook "second", plainHook "third"] ignoreNone
      (freshRun ())).1 = some (GoError.New "boom") ∧
    conditionsGet
      (ReconcileLifecycleHooks
        (scriptedService [plainHook "first"] none (createFails "second" (GoError.New "boom")))
        "asg" [plainHook "first", plainHook "second", plainHook "third"] ignoreNone
        (freshRun ())).2.conditions
      ConditionType.LifecycleHookReadyCondition
      = some (FalseCondition ConditionType.LifecycleHookReadyCondition
          ConditionReason.LifecycleHookCreationFailedReason ConditionSeverity.Error
          (GoError.New "boom").Error) :=
  ReconcileLifecycleHooks_second_create_fails
    (scriptedService [plainHook "first"] none (createFails "second" (GoError.New "boom")))
    "asg" (plainHook "first") (plainHook "second") (plainHook "third") ignoreNone
    (freshRun ())
    { svc := (), conditions := [TrueCondition ConditionType.LifecycleHookReadyCondition],
      calls := [(Call.DescribeLifecycleHooks "asg", none)] }
    [plainHook "first"] () () (GoError.New "boom") rfl rfl rfl (by rfl) (by decide) rfl

/-- C18: what the code does when a create fails with an error whose text holds a percent
sign. The error text is handed to `conditions.MarkFalse` as the format string, so the stored
message is the formatted text `quota at 100%!(NOVERB)` and not the error text `quota at 100%`;
the error returned is the call's error. -/
theorem ReconcileLifecycleHooks_formats_error_text :
    (ReconcileLifecycleHooks
      (scriptedService [] none (createFails "the-hook" (GoError.New "quota at 100%")))
      "asg" [plainHook "the-hook"] ignoreNone (freshRun ())).1
      = some (GoError.New "quota at 100%") ∧
    (GoError.New "quota at 100%").Error = "quota at 100%" ∧
    conditionsGet
      (ReconcileLifecycleHooks
        (scriptedService [] none (createFails "the-hook" (GoError.New "quota at 100%")))
        "asg" [plainHook "the-hook"] ignoreNone (freshRun ())).2.conditions
      ConditionType.LifecycleHookReadyCondition
      = some { Type_ := ConditionType.LifecycleHookReadyCondition,
               Status := ConditionStatus.False, Severity := ConditionSeverity.Error,
               Reason := ConditionReason.LifecycleHookCreationFailedReason,
               Message := "quota at 100%!(NOVERB)" } := by
  refine ⟨by decide, by decide, by decide⟩

/-- C19: what the code does when a wanted hook is created. The create succeeds and no error
is returned, yet `reconcileLifecycleHook` returns before `conditions.MarkTrue`: an object
without the condition still has none, and a condition left false by an earlier failure stays
false. -/
theorem ReconcileLifecycleHooks_create_leaves_condition :
    (ReconcileLifecycleHooks (scriptedService [] none allSucceed) "asg"
      [plainHook "the-hook"] ignoreNone (freshRun ())).1 = none ∧
    (ReconcileLifecycleHooks (scriptedService [] none allSucceed) "asg"
      [plainHook "the-hook"] ignoreNone (freshRun ())).2.calls
      = [(Call.DescribeLifecycleHooks "asg", none),
         (Call.CreateLifecycleHook "asg" (plainHook "the-hook"), none)] ∧
    conditionsGet
      (ReconcileLifecycleHooks (scriptedService [] none allSucceed) "asg"
        [plainHook "the-hook"] ignoreNone (freshRun ())).2.conditions
      ConditionType.LifecycleHookReadyCondition = none ∧
    conditionsGet
      (ReconcileLifecycleHooks (scriptedService [] none allSucceed) "asg"
        [plainHook "the-hook"] ignoreNone
        { svc := (),
          conditions := [FalseCondition ConditionType.LifecycleHookReadyCondition
            ConditionReason.LifecycleHookCreationFailedReason ConditionSeverity.Error "boom"],
          calls := [] }).2.conditions
      ConditionType.LifecycleHookReadyCondition
      = some (FalseCondition ConditionType.LifecycleHookReadyCondition
          ConditionReason.LifecycleHookCreationFailedReason ConditionSeverity.Error "boom") := by
  refine ⟨by decide, by decide, by decide, by decide⟩

/-- C20, as stated, fails: when the fetch of the existing hooks fails, the error is returned
and the conditions of the owning object are left as they were; here none is stored, so no
`LifecycleHookReady` condition exists when the run returns. -/
theorem ReconcileLifecycleHooks_fetch_failure_sets_no_condition :
    (ReconcileLifecycleHooks
      (scriptedService [] (some (GoError.New "describe failed")) allSucceed) "asg"
      [plainHook "the-hook"] ignoreNone (freshRun ())).1
      = some (GoError.New "describe failed") ∧
    (ReconcileLifecycleHooks
      (scriptedService [] (some (GoError.New "describe failed")) allSucceed) "asg"
      [plainHook "the-hook"] ignoreNone (freshRun ())).2.conditions = [] ∧
    conditionsGet
      (ReconcileLifecycleHooks
        (scriptedService [] (some (GoError.New "describe failed")) allSucceed) "asg"
        [plainHook "the-hook"] ignoreNone (freshRun ())).2.conditions
      ConditionType.LifecycleHookReadyCondition = none := by
  refine ⟨by decide, by decide, by decide⟩

/-- C20, amended: for every invocation of `ReconcileLifecycleHooks` in which the fetch of the
existing hooks succeeds and which returns a non-nil error `e`, the last call of the record is a
create, update or delete that failed with `e`, and the condition `LifecycleHookReady` of the
owning object is false when the run returns, with the reason of that very operation (creation
failed for a create, update failed for an update, deletion failed for a delete), severity
`Error` and the formatted text of `e`. -/
theorem ReconcileLifecycleHooks_failure_sets_condition {σ : Type}
    (asgService : ASGInterface σ) (asgName : String) (wanted : List AWSLifecycleHook)
    (ignore : String → Bool) (st : RunState σ) (e : GoError)
    (hfetch : (asgService.DescribeLifecycleHooks asgName st.svc).1.2 = none)
    (herr : (ReconcileLifecycleHooks asgService asgName wanted ignore st).1 = some e) :
    ∃ c reason,
      (ReconcileLifecycleHooks asgService asgName wanted ignore st).2.calls.getLast?
        = some (c, some e) ∧
      c.failureReason = some reason ∧
      conditionsGet (ReconcileLifecycleHooks asgService asgName wanted ignore st).2.conditions
          ConditionType.LifecycleHookReadyCondition
        = some (FalseCondition ConditionType.LifecycleHookReadyCondition reason
            ConditionSeverity.Error e.Error) := by
  show failureRecorded (ReconcileLifecycleHooks asgService asgName wanted ignore st).2.calls
    (ReconcileLifecycleHooks asgService asgName wanted ignore st).2.conditions e
  unfold ReconcileLifecycleHooks at herr ⊢
  cases hd : asgService.DescribeLifecycleHooks asgName st.svc with
  | mk res svc1 =>
    obtain ⟨existingHooks, err⟩ := res
    rw [hd] at hfetch herr
    simp only at hfetch
    subst hfetch
    simp only at herr ⊢
    have hw := reconcileWanted_failureRecorded asgService asgName ignore existingHooks wanted
      { svc := svc1, conditions := st.conditions,
        calls := st.calls ++ [(Call.DescribeLifecycleHooks asgName, none)] }
    cases hr : reconcileWanted asgService asgName ignore existingHooks wanted
        { svc := svc1, conditions := st.conditions,
          calls := st.calls ++ [(Call.DescribeLifecycleHooks asgName, none)] } with
    | mk r st1 =>
      rw [hr] at herr hw
      cases r with
      | some e2 =>
        simp only [Option.some.injEq] at herr
        subst herr
        exact hw e2 rfl
      | none =>
        simp only at herr ⊢
        exact deleteExtraneous_failureRecorded asgService asgName ignore wanted existingHooks
          st1 e herr

/-- Witness for C20 amended: the delete of the extraneous hook `old` fails; the failed delete
is the last call and the reason stored is deletion failed. -/
theorem ReconcileLifecycleHooks_failure_sets_condition_witness :
    (∃ c reason,
      (ReconcileLifecycleHooks
        (scriptedService [plainHook "old"] none
          (fun c => if c = Call.DeleteLifecycleHook "asg" (plainHook "old")
            then some (GoError.New "boom") else none))
        "asg" [] ignoreNone (freshRun ())).2.calls.getLast?
        = some (c, some (GoError.New "boom")) ∧
      c.failureReason = some reason ∧
      conditionsGet
          (ReconcileLifecycleHooks
            (scriptedService [plainHook "old"] none
              (fun c => if c = Call.DeleteLifecycleHook "asg" (plainHook "old")
                then some (GoError.New "boom") else none))
            "asg" [] ignoreNone (freshRun ())).2.conditions
          ConditionType.LifecycleHookReadyCondition
        = some (FalseCondition ConditionType.LifecycleHookReadyCondition reason
            ConditionSeverity.Error (GoError.New "boom").Error)) ∧
    (ReconcileLifecycleHooks
      (scriptedService [plainHook "old"] none
        (fun c => if c = Call.DeleteLifecycleHook "asg" (plainHook "old")
          then some (GoError.New "boom") else none))
      "asg" [] ignoreNone (freshRun ())).2.calls.getLast?
      = some (Call.DeleteLifecycleHook "asg" (plainHook "old"), some (GoError.New "boom")) ∧
    conditionsGet
        (ReconcileLifecycleHooks
          (scriptedService [plainHook "old"] none
            (fun c => if c = Call.DeleteLifecycleHook "asg" (plainHook "old")
              then some (GoError.New "boom") else none))
          "asg" [] ignoreNone (freshRun ())).2.conditions
        ConditionType.LifecycleHookReadyCondition
      = some (FalseCondition ConditionType.LifecycleHookReadyCondition
          ConditionReason.LifecycleHookDeletionFailedReason ConditionSeverity.Error "boom") :=
  ⟨ReconcileLifecycleHooks_failure_sets_condition
    (scriptedService [plainHook "old"] none
      (fun c => if c = Call.DeleteLifecycleHook "asg" (plainHook "old")
        then some (GoError.New "boom") else none))
    "asg" [] ignoreNone (freshRun ()) (GoError.New "boom") rfl (by decide),
    by decide, by decide⟩

/-! ## Convergence of the hook names -/

theorem remoteNames_append (base : List String) (a b : List (Call × Option GoError)) :
    remoteNames base (a ++ b) = remoteNames (remoteNames base a) b := by
  induction a generalizing base with
  | nil => rfl
  | cons x rest ih => simp [remoteNames, ih]

theorem mem_put (names : List String) (name n : String) :
    n ∈ (if name ∈ names then names else names ++ [name]) ↔ n ∈ names ∨ n = name := by
  by_cases h : name ∈ names
  · simp only [h, if_true]
    constructor
    · exact Or.inl
    · rintro (h1 | h1)
      · exact h1
      · rw [h1]; exact h
  · simp [h]

theorem reconcileLifecycleHook_names {σ : Type} (asgService : ASGInterface σ)
    (asgName : String) (w : AWSLifecycleHook) (existingHooks : List AWSLifecycleHook)
    (st : RunState σ)
    (hc : ∀ h s, (asgService.CreateLifecycleHook asgName h s).1 = none)
    (hu : ∀ h s, (asgService.UpdateLifecycleHook asgName h s).1 = none) :
    ∃ added, (reconcileLifecycleHook asgService asgName w existingHooks st).2.calls
        = st.calls ++ added ∧
      (reconcileLifecycleHook asgService asgName w existingHooks st).1 = none ∧
      ∀ base : List String, (∀ x ∈ existingHooks, x.Name ∈ base) →
        ∀ n, n ∈ remoteNames base added ↔ n ∈ base ∨ n = w.Name := by
  unfold reconcileLifecycleHook
  cases hf : existingHooks.find? (fun h => h.Name == w.Name) with
  | none =>
    have hc1 := hc w st.svc
    cases hcr : asgService.CreateLifecycleHook asgName w st.svc with
    | mk r svc1 =>
      rw [hcr] at hc1
      simp only at hc1
      subst hc1
      refine ⟨[(Call.CreateLifecycleHook asgName w, none)], rfl, rfl, ?_⟩
      intro base _ n
      simp only [remoteNames, applyCall]
      exact mem_put base w.Name n
  | some ex =>
    have hex : ex ∈ existingHooks := List.mem_of_find?_eq_some hf
    have hname : ex.Name = w.Name := by
      have := List.find?_some hf
      simpa using this
    by_cases hn : lifecycleHookNeedsUpdate ex w = true
    · simp only [hn, if_true]
      have hu1 := hu w st.svc
      cases hur : asgService.UpdateLifecycleHook asgName w st.svc with
      | mk r svc1 =>
        rw [hur] at hu1
        simp only at hu1
        subst hu1
        refine ⟨[(Call.UpdateLifecycleHook asgName w, none)], rfl, rfl, ?_⟩
        intro base _ n
        simp only [remoteNames, applyCall]
        exact mem_put base w.Name n
    · simp only [hn, Bool.false_eq_true, if_false]
      refine ⟨[], by simp, by simp, ?_⟩
      intro base hbase n
      simp only [remoteNames]
      constructor
      · exact Or.inl
      · rintro (h1 | h1)
        · exact h1
        · rw [h1, ← hname]; exact hbase ex hex

theorem reconcileWanted_names {σ : Type} (asgService : ASGInterface σ)
    (asgName : String) (ignore : String → Bool) (existingHooks : List AWSLifecycleHook)
    (wanted : List AWSLifecycleHook) (st : RunState σ)
    (hc : ∀ h s, (asgService.CreateLifecycleHook asgName h s).1 = none)
    (hu : ∀ h s, (asgService.UpdateLifecycleHook asgName h s).1 = none) :
    ∃ added, (reconcileWanted asgService asgName ignore existingHooks wanted st).2.calls
        = st.calls ++ added ∧
      (reconcileWanted asgService asgName ignore existingHooks wanted st).1 = none ∧
      ∀ base : List String, (∀ x ∈ existingHooks, x.Name ∈ base) →
        ∀ n, n ∈ remoteNames base added ↔
          n ∈ base ∨ ∃ w ∈ wanted, ignore w.Name = false ∧ w.Name = n := by
  induction wanted generalizing st with
  | nil =>
    refine ⟨[], by simp [reconcileWanted], by simp [reconcileWanted], ?_⟩
    intro base _ n
    simp [remoteNames]
  | cons w rest ih =>
    unfold reconcileWanted
    by_cases hi : ignore w.Name = true
    · simp only [hi, if_true]
      obtain ⟨added, h1, h2, h3⟩ := ih st
      refine ⟨added, h1, h2, ?_⟩
      intro base hbase n
      rw [h3 base hbase n]
      constructor
      · rintro (h | ⟨v, hv, hvi, hvn⟩)
        · exact Or.inl h
        · exact Or.inr ⟨v, List.mem_cons_of_mem _ hv, hvi, hvn⟩
      · rintro (h | ⟨v, hv, hvi, hvn⟩)
        · exact Or.inl h
        · rcases List.mem_cons.mp hv with hv | hv
          · subst hv; rw [hi] at hvi; simp at hvi
          · exact Or.inr ⟨v, hv, hvi, hvn⟩
    · have hi2 : ignore w.Name = false := by simpa using hi
      simp only [hi, Bool.false_eq_true, if_false]
      obtain ⟨a1, hc1, hr1, hn1⟩ := reconcileLifecycleHook_names asgService asgName w
        existingHooks st hc hu
      cases hr : reconcileLifecycleHook asgService asgName w existingHooks st with
      | mk r st1 =>
        rw [hr] at hc1 hr1
        simp only at hc1 hr1
        subst hr1
        simp only
        obtain ⟨a2, hc2, hr2, hn2⟩ := ih st1
        refine ⟨a1 ++ a2, ?_, hr2, ?_⟩
        · rw [hc2, hc1, List.append_assoc]
        · intro base hbase n
          have hbase2 : ∀ x ∈ existingHooks, x.Name ∈ remoteNames base a1 := by
            intro x hx
            exact (hn1 base hbase x.Name).mpr (Or.inl (hbase x hx))
          rw [remoteNames_append, hn2 (remoteNames base a1) hbase2 n, hn1 base hbase n]
          constructor
          · rintro ((h | h) | ⟨v, hv, hvi, hvn⟩)
            · exact Or.inl h
            · exact Or.inr ⟨w, List.mem_cons_self _ _, hi2, h.symm⟩
            · exact Or.inr ⟨v, List.mem_cons_of_mem _ hv, hvi, hvn⟩
          · rintro (h | ⟨v, hv, hvi, hvn⟩)
            · exact Or.inl (Or.inl h)
            · rcases List.mem_cons.mp hv with hv | hv
              · subst hv; exact Or.inl (Or.inr hvn.symm)
              · exact Or.inr ⟨v, hv, hvi, hvn⟩

theorem deleteExtraneous_names {σ : Type} (asgService : ASGInterface σ)
    (asgName : String) (ignore : String → Bool) (wanted : List AWSLifecycleHook)
    (existingHooks : List AWSLifecycleHook) (st : RunState σ)
    (hdel : ∀ h s, (asgService.DeleteLifecycleHook asgName h s).1 = none) :
    ∃ added, (deleteExtraneous asgService asgName ignore wanted existingHooks st).2.calls
        = st.calls ++ added ∧
      (deleteExtraneous asgService asgName ignore wanted existingHooks st).1 = none ∧
      ∀ (base : List String) (n : String), n ∈ remoteNames base added ↔
          n ∈ base ∧ ¬ ∃ x ∈ existingHooks, ignore x.Name = false ∧
            wanted.any (fun wantedHook => x.Name == wantedHook.Name) = false ∧ x.Name = n := by
  induction existingHooks generalizing st with
  | nil =>
    refine ⟨[], by simp [deleteExtraneous], by simp [deleteExtraneous], ?_⟩
    intro base n
    simp [remoteNames]
  | cons x rest ih =>
    unfold deleteExtraneous
    by_cases hi : ignore x.Name = true
    · simp only [hi, if_true]
      obtain ⟨added, h1, h2, h3⟩ := ih st
      refine ⟨added, h1, h2, ?_⟩
      intro base n
      rw [h3 base n]
      constructor
      · rintro ⟨hb, hno⟩
        refine ⟨hb, ?_⟩
        rintro ⟨y, hy, hyi, hyw, hyn⟩
        rcases List.mem_cons.mp hy with hy | hy
        · subst hy; rw [hi] at hyi; simp at hyi
        · exact hno ⟨y, hy, hyi, hyw, hyn⟩
      · rintro ⟨hb, hno⟩
        refine ⟨hb, ?_⟩
        rintro ⟨y, hy, hyi, hyw, hyn⟩
        exact hno ⟨y, List.mem_cons_of_mem _ hy, hyi, hyw, hyn⟩
    · have hi2 : ignore x.Name = false := by simpa using hi
      simp only [hi, Bool.false_eq_true, if_false]
      by_cases hw : wanted.any (fun wantedHook => x.Name == wantedHook.Name) = true
      · simp only [hw, if_true]
        obtain ⟨added, h1, h2, h3⟩ := ih st
        refine ⟨added, h1, h2, ?_⟩
        intro base n
        rw [h3 base n]
        constructor
        · rintro ⟨hb, hno⟩
          refine ⟨hb, ?_⟩
          rintro ⟨y, hy, hyi, hyw, hyn⟩
          rcases List.mem_cons.mp hy with hy | hy
          · subst hy; rw [hw] at hyw; simp at hyw
          · exact hno ⟨y, hy, hyi, hyw, hyn⟩
        · rintro ⟨hb, hno⟩
          refine ⟨hb, ?_⟩
          rintro ⟨y, hy, hyi, hyw, hyn⟩
          exact hno ⟨y, List.mem_cons_of_mem _ hy, hyi, hyw, hyn⟩
      · have hw2 : wanted.any (fun wantedHook => x.Name == wantedHook.Name) = false := by
          simpa using hw
        simp only [hw, Bool.false_eq_true, if_false]
        have hd1 := hdel x st.svc
        cases hdr : asgService.DeleteLifecycleHook asgName x st.svc with
        | mk r svc1 =>
          rw [hdr] at hd1
          simp only at hd1
          subst hd1
          simp only
          obtain ⟨a2, hc2, hr2, hn2⟩ := ih
            { svc := svc1, conditions := st.conditions,
              calls := st.calls ++ [(Call.DeleteLifecycleHook asgName x, none)] }
          refine ⟨[(Call.DeleteLifecycleHook asgName x, none)] ++ a2, ?_, hr2, ?_⟩
          · rw [hc2, List.append_assoc]
          · intro base n
            rw [remoteNames_append, hn2]
            simp only [remoteNames, applyCall, List.mem_filter, bne_iff_ne, ne_eq,
              List.mem_cons, exists_eq_or_imp, hi2, hw2, true_and]
            constructor
            · rintro ⟨⟨hb, hne⟩, hrest⟩
              refine ⟨hb, ?_⟩
              rintro (h | h)
              · exact hne h.symm
              · exact hrest h
            · rintro ⟨hb, hno⟩
              refine ⟨⟨hb, fun h => hno (Or.inl h.symm)⟩, fun h => hno (Or.inr h)⟩

/-- C14, as stated, fails: with the wanted hook `a` on the ignore list and no hook stored,
every call succeeds and no hook is created, so the remote store holds no name although `a` is a
name of the wanted list. -/
theorem ReconcileLifecycleHooks_ignored_wanted_not_created :
    (ReconcileLifecycleHooks (scriptedService [] none allSucceed) "asg" [plainHook "a"]
      (ignoreOnly ["a"]) (freshRun ())).1 = none ∧
    remoteNames (([] : List AWSLifecycleHook).map (fun h => h.Name))
      (ReconcileLifecycleHooks (scriptedService [] none allSucceed) "asg" [plainHook "a"]
        (ignoreOnly ["a"]) (freshRun ())).2.calls = [] ∧
    "a" ∈ [plainHook "a"].map (fun h => h.Name) := by
  refine ⟨by decide, by decide, by decide⟩

/-- C14, amended: when the fetch and every create, update and delete call succeed,
`ReconcileLifecycleHooks` returns nil and a name is in the remote store afterwards (the
existing names with every issued put added and every issued delete removed) exactly when it
is the name of a wanted hook and not on the ignore list, or the name of an existing hook and
on the ignore list. -/
theorem ReconcileLifecycleHooks_converges {σ : Type} (asgService : ASGInterface σ)
    (asgName : String) (wanted : List AWSLifecycleHook) (ignore : String → Bool)
    (st : RunState σ) (existingHooks : List AWSLifecycleHook) (svc1 : σ) (n : String)
    (hdescribe : asgService.DescribeLifecycleHooks asgName st.svc
      = ((existingHooks, none), svc1))
    (hc : ∀ h s, (asgService.CreateLifecycleHook asgName h s).1 = none)
    (hu : ∀ h s, (asgService.UpdateLifecycleHook asgName h s).1 = none)
    (hdel : ∀ h s, (asgService.DeleteLifecycleHook asgName h s).1 = none) :
    (ReconcileLifecycleHooks asgService asgName wanted ignore st).1 = none ∧
    (n ∈ remoteNames (existingHooks.map (fun h => h.Name))
        ((ReconcileLifecycleHooks asgService asgName wanted ignore st).2.calls.drop
          st.calls.length) ↔
      (n ∈ wanted.map (fun h => h.Name) ∧ ignore n = false) ∨
      (n ∈ existingHooks.map (fun h => h.Name) ∧ ignore n = true)) := by
  unfold ReconcileLifecycleHooks
  rw [hdescribe]
  simp only
  obtain ⟨a1, hc1, hr1, hn1⟩ := reconcileWanted_names asgService asgName ignore existingHooks
    wanted { svc := svc1, conditions := st.conditions,
             calls := st.calls ++ [(Call.DescribeLifecycleHooks asgName, none)] } hc hu
  cases hr : reconcileWanted asgService asgName ignore existingHooks wanted
      { svc := svc1, conditions := st.conditions,
        calls := st.calls ++ [(Call.DescribeLifecycleHooks asgName, none)] } with
  | mk r st1 =>
    rw [hr] at hc1 hr1
    simp only at hc1 hr1
    subst hr1
    simp only
    obtain ⟨a2, hc2, hr2, hn2⟩ := deleteExtraneous_names asgService asgName ignore wanted
      existingHooks st1 hdel
    refine ⟨hr2, ?_⟩
    have hcalls : (deleteExtraneous asgService asgName ignore wanted existingHooks st1).2.calls
        = st.calls ++ ((Call.DescribeLifecycleHooks asgName, none) :: (a1 ++ a2)) := by
      rw [hc2, hc1]
      simp [List.append_assoc]
    rw [hcalls, List.drop_left]
    have hbase : ∀ x ∈ existingHooks, x.Name ∈ existingHooks.map (fun h => h.Name) := by
      intro x hx
      exact List.mem_map.mpr ⟨x, hx, rfl⟩
    simp only [remoteNames, applyCall]
    rw [remoteNames_append, hn2, hn1 _ hbase]
    simp only [List.mem_map, List.any_eq_false, beq_iff_eq]
    constructor
    · rintro ⟨h | ⟨w, hw, hwi, hwn⟩, hno⟩
      · obtain ⟨x, hx, hxn⟩ := h
        cases hig : ignore n with
        | true => exact Or.inr ⟨⟨x, hx, hxn⟩, rfl⟩
        | false =>
          by_cases hwant : ∃ v ∈ wanted, v.Name = n
          · obtain ⟨v, hv, hvn⟩ := hwant
            exact Or.inl ⟨⟨v, hv, hvn⟩, rfl⟩
          · exfalso
            apply hno
            refine ⟨x, hx, by rw [hxn]; exact hig, ?_, hxn⟩
            intro v hv hxv
            exact hwant ⟨v, hv, by rw [← hxv]; exact hxn⟩
      · exact Or.inl ⟨⟨w, hw, hwn⟩, by rw [← hwn]; exact hwi⟩
    · rintro (⟨⟨w, hw, hwn⟩, hig⟩ | ⟨⟨x, hx, hxn⟩, hig⟩)
      · refine ⟨Or.inr ⟨w, hw, by rw [hwn]; exact hig, hwn⟩, ?_⟩
        rintro ⟨x, _, _, hnone, hxn⟩
        exact hnone w hw (by rw [hxn, hwn])
      · refine ⟨Or.inl ⟨x, hx, hxn⟩, ?_⟩
        rintro ⟨y, _, hyi, _, hyn⟩
        rw [hyn, hig] at hyi
        simp at hyi

/-- Witness for C14 amended: stored hooks `keep` (ignored) and `old`, wanted hooks `new` and
`skipped` (ignored); afterwards `new` is in the store. -/
theorem ReconcileLifecycleHooks_converges_witness :
    (ReconcileLifecycleHooks (scriptedService [plainHook "keep", plainHook "old"] none allSucceed)
      "asg" [plainHook "new", plainHook "skipped"] (ignoreOnly ["keep", "skipped"])
      (freshRun ())).1 = none ∧
    ("new" ∈ remoteNames ([plainHook "keep", plainHook "old"].map (fun h => h.Name))
        ((ReconcileLifecycleHooks
          (scriptedService [plainHook "keep", plainHook "old"] none allSucceed)
          "asg" [plainHook "new", plainHook "skipped"] (ignoreOnly ["keep", "skipped"])
          (freshRun ())).2.calls.drop (freshRun ()).calls.length) ↔
      ("new" ∈ [plainHook "new", plainHook "skipped"].map (fun h => h.Name) ∧
        ignoreOnly ["keep", "skipped"] "new" = false) ∨
      ("new" ∈ [plainHook "keep", plainHook "old"].map (fun h => h.Name) ∧
        ignoreOnly ["keep", "skipped"] "new" = true)) :=
  ReconcileLifecycleHooks_converges
    (scriptedService [plainHook "keep", plainHook "old"] none allSucceed)
    "asg" [plainHook "new", plainHook "skipped"] (ignoreOnly ["keep", "skipped"])
    (freshRun ()) [plainHook "keep", plainHook "old"] () "new" rfl
    (fun _ _ => rfl) (fun _ _ => rfl) (fun _ _ => rfl)

/-! ## Lemmas on the store-backed service -/

theorem convertHooks_answersFrom (addr : Nat) (hooks : List StoredHook) :
    convertHooks (answersFrom addr hooks) = some (hooksFrom addr hooks) := by
  induction hooks generalizing addr with
  | nil => rfl
  | cons r rs ih =>
    simp only [answersFrom, convertHooks, hooksFrom, ih]
    rfl

theorem store_describe (asgName : String) (s : RemoteStore) :
    storeService.asInterface.DescribeLifecycleHooks asgName s
      = ((hooksFrom s.nextAddr (s.groups asgName), none),
          { groups := s.groups, nextAddr := s.nextAddr + 3 * (s.groups asgName).length }) := by
  simp [Service.asInterface, Service.DescribeLifecycleHooks, storeService, storeClient,
    convertHooks_answersFrom]

theorem store_create (asgName : String) (hook : AWSLifecycleHook) (s : RemoteStore) :
    storeService.asInterface.CreateLifecycleHook asgName hook s
      = (none, storeAfterPut asgName hook s) := by
  simp [Service.asInterface, Service.CreateLifecycleHook, storeService, storeClient,
    getPutLifecycleHookInput, storeAfterPut]

theorem store_update (asgName : String) (hook : AWSLifecycleHook) (s : RemoteStore) :
    storeService.asInterface.UpdateLifecycleHook asgName hook s
      = (none, storeAfterPut asgName hook s) := by
  simp [Service.asInterface, Service.UpdateLifecycleHook, storeService, storeClient,
    getPutLifecycleHookInput, storeAfterPut]

theorem store_delete (asgName : String) (hook : AWSLifecycleHook) (s : RemoteStore) :
    storeService.asInterface.DeleteLifecycleHook asgName hook s
      = (none, storeAfterDelete asgName hook s) := by
  simp [Service.asInterface, Service.DeleteLifecycleHook, storeService, storeClient,
    storeAfterDelete]

theorem find_hooksFrom (addr : Nat) (hooks : List StoredHook) (name : String) :
    ∃ b, (hooksFrom addr hooks).find? (fun h => h.Name == name)
      = (findRecord hooks name).map (fun r => hookOfRecord r b) := by
  induction hooks generalizing addr with
  | nil => exact ⟨0, rfl⟩
  | cons r rs ih =>
    by_cases hr : r.name = name
    · refine ⟨addr, ?_⟩
      simp [hooksFrom, findRecord, hookOfRecord, hr]
    · obtain ⟨b, hb⟩ := ih (addr + 3)
      refine ⟨b, ?_⟩
      have h1 : ((hookOfRecord r addr).Name == name) = false := by
        simp [hookOfRecord, hr]
      have h2 : (r.name == name) = false := by simp [hr]
      simp only [hooksFrom, findRecord, List.find?_cons, h1, h2]
      simpa [findRecord] using hb

theorem mem_hooksFrom (addr : Nat) (hooks : List StoredHook) (e : AWSLifecycleHook)
    (h : e ∈ hooksFrom addr hooks) : ∃ r ∈ hooks, r.name = e.Name := by
  induction hooks generalizing addr with
  | nil => simp [hooksFrom] at h
  | cons r rs ih =>
    simp only [hooksFrom, List.mem_cons] at h
    rcases h with h | h
    · exact ⟨r, List.mem_cons_self _ _, by rw [h]; rfl⟩
    · obtain ⟨x, hx, hxn⟩ := ih (addr + 3) h
      exact ⟨x, List.mem_cons_of_mem _ hx, hxn⟩

theorem needsUpdate_hookOfRecord (r : StoredHook) (b : Nat) (d : AWSLifecycleHook)
    (ht : d.NotificationTargetARN = none) (hm : d.NotificationMetadata = none) :
    lifecycleHookNeedsUpdate (hookOfRecord r b) d = !recordMatches r d := by
  have hp : ∀ (p : Option String) (a : Nat),
      ptrNe (p.map (fun t => ({ addr := a, val := t } : StringPtr))) none = !p.isNone := by
    intro p a
    cases p <;> rfl
  simp only [lifecycleHookNeedsUpdate, hookOfRecord, recordMatches, ht, hm, hp, Deref]
  cases r.target.isNone <;> cases r.metadata.isNone <;> simp [bne]

theorem wrapInt64_of_range (x : Int) (h1 : -(2 ^ 63) ≤ x) (h2 : x < 2 ^ 63) :
    wrapInt64 x = x := by
  unfold wrapInt64
  have h3 : (x + 2 ^ 63) % 2 ^ 64 = x + 2 ^ 63 := by
    apply Int.emod_eq_of_lt <;> omega
  omega

theorem findRecord_putRecord (r : StoredHook) (hooks : List StoredHook) (name : String) :
    findRecord (putRecord r hooks) name
      = if name = r.name then some r else findRecord hooks name := by
  induction hooks with
  | nil =>
    by_cases h : name = r.name
    · simp [putRecord, findRecord, h]
    · have h2 : ¬ r.name = name := fun e => h e.symm
      simp [putRecord, findRecord, h, h2]
  | cons x xs ih =>
    unfold putRecord
    by_cases hx : x.name = r.name
    · by_cases h : name = r.name
      · simp [findRecord, hx, h]
      · have h2 : ¬ r.name = name := fun e => h e.symm
        simp [findRecord, hx, h, h2]
    · simp only [hx, if_false]
      by_cases hxn : x.name = name
      · have h : ¬ name = r.name := fun e => hx (hxn.trans e)
        simp [findRecord, hxn, h]
      · have h2 : (x.name == name) = false := by simp [hxn]
        have := ih
        simp only [findRecord] at this ⊢
        simp only [List.find?_cons, h2, this]

theorem mem_putRecord (r : StoredHook) (hooks : List StoredHook) (x : StoredHook)
    (h : x ∈ putRecord r hooks) : x = r ∨ x ∈ hooks := by
  induction hooks with
  | nil => simp [putRecord] at h; exact Or.inl h
  | cons y ys ih =>
    unfold putRecord at h
    by_cases hy : y.name = r.name
    · simp only [hy, if_true, List.mem_cons] at h
      rcases h with h | h
      · exact Or.inl h
      · exact Or.inr (List.mem_cons_of_mem _ h)
    · simp only [hy, if_false, List.mem_cons] at h
      rcases h with h | h
      · exact Or.inr (by rw [h]; exact List.mem_cons_self _ _)
      · rcases ih h with h1 | h1
        · exact Or.inl h1
        · exact Or.inr (List.mem_cons_of_mem _ h1)

theorem findRecord_deleteRecord (name : String) (hooks : List StoredHook) (n : String)
    (hn : n ≠ name) : findRecord (deleteRecord name hooks) n = findRecord hooks n := by
  induction hooks with
  | nil => rfl
  | cons x xs ih =>
    simp only [deleteRecord, findRecord] at ih ⊢
    by_cases hx : x.name = name
    · have h1 : (x.name != name) = false := by simp [hx]
      have h2 : (x.name == n) = false := by
        simp only [beq_eq_false_iff_ne, ne_eq]
        exact fun e => hn (e.symm.trans hx)
      simp only [List.filter_cons, h1, List.find?_cons, h2, ih, Bool.false_eq_true, if_false]
    · have h1 : (x.name != name) = true := by simp [hx]
      simp only [List.filter_cons, h1, if_true, List.find?_cons, ih]

theorem mem_deleteRecord (name : String) (hooks : List StoredHook) (x : StoredHook) :
    x ∈ deleteRecord name hooks ↔ x ∈ hooks ∧ x.name ≠ name := by
  simp [deleteRecord]

theorem recordMatches_put (asgName : String) (d : AWSLifecycleHook)
    (hd : plainWanted d = true) :
    recordMatches (recordOfInput d.Name d.LifecycleTransition
      (getPutLifecycleHookInput asgName d)) d = true := by
  simp only [plainWanted, Bool.and_eq_true, Option.isNone_iff_eq_none] at hd
  obtain ⟨⟨ht, hm⟩, hw⟩ := hd
  have hdr : Deref (getPutLifecycleHookInput asgName d).DefaultResult
      LifecycleHookDefaultResultAbandon = Deref d.DefaultResult LifecycleHookDefaultResultAbandon := by
    simp only [getPutLifecycleHookInput]
    cases d.DefaultResult <;> rfl
  have hhb : wrapInt64 (wrapInt64 (Deref (getPutLifecycleHookInput asgName d).HeartbeatTimeout
      3600) * Second) = Deref d.HeartbeatTimeout (3600 * Second) := by
    simp only [getPutLifecycleHookInput]
    cases hh : d.HeartbeatTimeout with
    | none => decide
    | some t =>
      rw [hh] at hw
      simp only [wholeSeconds, Bool.and_eq_true, beq_iff_eq, decide_eq_true_eq] at hw
      obtain ⟨⟨h0, h1⟩, h2⟩ := hw
      simp only [Deref, durationSecondsToInt64, Second] at h0 ⊢
      have hk : Int.tdiv t 1000000000 * 1000000000 = t := by
        have := Int.tdiv_add_tmod t 1000000000
        have hm2 : Int.tmod t 1000000000 = 0 := by
          have hdvd : (1000000000 : Int) ∣ t := Int.dvd_of_emod_eq_zero h0
          exact Int.tmod_eq_zero_of_dvd hdvd
        rw [hm2] at this
        linarith
      have hr1 : wrapInt64 (Int.tdiv t 1000000000) = Int.tdiv t 1000000000 := by
        apply wrapInt64_of_range <;> omega
      rw [hr1, hk]
      exact wrapInt64_of_range t h1 h2
  simp only [recordMatches, recordOfInput]
  rw [hdr, hhb]
  simp [getPutLifecycleHookInput, ht, hm, textOf]

theorem storeAfterPut_groups (asgName : String) (hook : AWSLifecycleHook) (s : RemoteStore) :
    (storeAfterPut asgName hook s).groups asgName
      = putRecord (recordOfInput hook.Name hook.LifecycleTransition
          (getPutLifecycleHookInput asgName hook)) (s.groups asgName) := by
  simp [storeAfterPut]

theorem storeAfterDelete_groups (asgName : String) (hook : AWSLifecycleHook)
    (s : RemoteStore) :
    (storeAfterDelete asgName hook s).groups asgName
      = deleteRecord hook.Name (s.groups asgName) := by
  simp [storeAfterDelete]

theorem recordOfInput_name (asgName : String) (w : AWSLifecycleHook) :
    (recordOfInput w.Name w.LifecycleTransition (getPutLifecycleHookInput asgName w)).name
      = w.Name := rfl

/-- One wanted hook on the store: no error, the wanted hook is stored without drift
afterwards, the other names keep their stored hook, and no other name appears. -/
theorem reconcileLifecycleHook_store (asgName : String) (w : AWSLifecycleHook)
    (existingHooks : List AWSLifecycleHook) (known : List StoredHook)
    (st : RunState RemoteStore)
    (hE : ∀ n, ∃ b, existingHooks.find? (fun h => h.Name == n)
      = (findRecord known n).map (fun r => hookOfRecord r b))
    (hcur : findRecord (st.svc.groups asgName) w.Name = findRecord known w.Name)
    (hplain : plainWanted w = true) :
    (reconcileLifecycleHook storeService.asInterface asgName w existingHooks st).1 = none ∧
    (∃ r, findRecord ((reconcileLifecycleHook storeService.asInterface asgName w existingHooks
        st).2.svc.groups asgName) w.Name = some r ∧ recordMatches r w = true) ∧
    (∀ n, n ≠ w.Name →
      findRecord ((reconcileLifecycleHook storeService.asInterface asgName w existingHooks
        st).2.svc.groups asgName) n = findRecord (st.svc.groups asgName) n) ∧
    (∀ x ∈ (reconcileLifecycleHook storeService.asInterface asgName w existingHooks
        st).2.svc.groups asgName,
      (∃ y ∈ st.svc.groups asgName, y.name = x.name) ∨ w.Name = x.name) := by
  have hput : (∃ r, findRecord ((storeAfterPut asgName w st.svc).groups asgName) w.Name
        = some r ∧ recordMatches r w = true) ∧
      (∀ n, n ≠ w.Name → findRecord ((storeAfterPut asgName w st.svc).groups asgName) n
        = findRecord (st.svc.groups asgName) n) ∧
      (∀ x ∈ (storeAfterPut asgName w st.svc).groups asgName,
        (∃ y ∈ st.svc.groups asgName, y.name = x.name) ∨ w.Name = x.name) := by
    rw [storeAfterPut_groups]
    refine ⟨⟨_, ?_, recordMatches_put asgName w hplain⟩, ?_, ?_⟩
    · rw [findRecord_putRecord, recordOfInput_name]
      simp
    · intro n hn
      rw [findRecord_putRecord, recordOfInput_name]
      simp [hn]
    · intro x hx
      rcases mem_putRecord _ _ _ hx with h | h
      · exact Or.inr (by rw [h, recordOfInput_name])
      · exact Or.inl ⟨x, h, rfl⟩
  have ht : w.NotificationTargetARN = none := by
    simp only [plainWanted, Bool.and_eq_true, Option.isNone_iff_eq_none] at hplain
    exact hplain.1.1
  have hm : w.NotificationMetadata = none := by
    simp only [plainWanted, Bool.and_eq_true, Option.isNone_iff_eq_none] at hplain
    exact hplain.1.2
  obtain ⟨b, hb⟩ := hE w.Name
  unfold reconcileLifecycleHook
  cases hf : existingHooks.find? (fun h => h.Name == w.Name) with
  | none =>
    simp only [store_create]
    exact ⟨trivial, hput⟩
  | some ex =>
    simp only
    by_cases hn : lifecycleHookNeedsUpdate ex w = true
    · simp only [hn, if_true, store_update]
      exact ⟨trivial, hput⟩
    · simp only [hn, Bool.false_eq_true, if_false]
      refine ⟨trivial, ?_, fun n _ => trivial, fun x hx => Or.inl ⟨x, hx, rfl⟩⟩
      rw [hf] at hb
      cases hk : findRecord known w.Name with
      | none => rw [hk] at hb; simp at hb
      | some r =>
        rw [hk] at hb
        simp only [Option.map_some', Option.some.injEq] at hb
        refine ⟨r, by rw [hcur, hk], ?_⟩
        rw [hb, needsUpdate_hookOfRecord r b w ht hm] at hn
        simpa using hn

/-- The first loop on the store: no error, every wanted hook that is not ignored is stored
without drift afterwards, the names that are not wanted keep their stored hook, and no other
name appears. -/
theorem reconcileWanted_store (asgName : String) (ignore : String → Bool)
    (existingHooks : List AWSLifecycleHook) (known : List StoredHook)
    (hE : ∀ n, ∃ b, existingHooks.find? (fun h => h.Name == n)
      = (findRecord known n).map (fun r => hookOfRecord r b))
    (wanted : List AWSLifecycleHook) (st : RunState RemoteStore)
    (hcur : ∀ w ∈ wanted, ignore w.Name = false →
      findRecord (st.svc.groups asgName) w.Name = findRecord known w.Name)
    (hnodup : ((wanted.filter (fun h => !ignore h.Name)).map (fun h => h.Name)).Nodup)
    (hplain : ∀ w ∈ wanted, ignore w.Name = false → plainWanted w = true) :
    (reconcileWanted storeService.asInterface asgName ignore existingHooks wanted st).1
      = none ∧
    (∀ w ∈ wanted, ignore w.Name = false →
      ∃ r, findRecord ((reconcileWanted storeService.asInterface asgName ignore existingHooks
        wanted st).2.svc.groups asgName) w.Name = some r ∧ recordMatches r w = true) ∧
    (∀ n, (∀ w ∈ wanted, ignore w.Name = false → w.Name ≠ n) →
      findRecord ((reconcileWanted storeService.asInterface asgName ignore existingHooks
        wanted st).2.svc.groups asgName) n = findRecord (st.svc.groups asgName) n) ∧
    (∀ x ∈ (reconcileWanted storeService.asInterface asgName ignore existingHooks
        wanted st).2.svc.groups asgName,
      (∃ y ∈ st.svc.groups asgName, y.name = x.name) ∨
        ∃ w ∈ wanted, ignore w.Name = false ∧ w.Name = x.name) := by
  induction wanted generalizing st with
  | nil =>
    refine ⟨rfl, ?_, fun n _ => rfl, fun x hx => Or.inl ⟨x, hx, rfl⟩⟩
    intro w hw
    simp at hw
  | cons w rest ih =>
    unfold reconcileWanted
    by_cases hi : ignore w.Name = true
    · simp only [hi, if_true]
      have hnodup2 : ((rest.filter (fun h => !ignore h.Name)).map (fun h => h.Name)).Nodup := by
        simpa [List.filter_cons, hi] using hnodup
      obtain ⟨h1, h2, h3, h4⟩ := ih st
        (fun v hv hvi => hcur v (List.mem_cons_of_mem _ hv) hvi) hnodup2
        (fun v hv hvi => hplain v (List.mem_cons_of_mem _ hv) hvi)
      refine ⟨h1, ?_, ?_, ?_⟩
      · intro v hv hvi
        rcases List.mem_cons.mp hv with hv | hv
        · subst hv; rw [hi] at hvi; simp at hvi
        · exact h2 v hv hvi
      · intro n hn
        exact h3 n (fun v hv hvi => hn v (List.mem_cons_of_mem _ hv) hvi)
      · intro x hx
        rcases h4 x hx with h | ⟨v, hv, hvi, hvn⟩
        · exact Or.inl h
        · exact Or.inr ⟨v, List.mem_cons_of_mem _ hv, hvi, hvn⟩
    · have hi2 : ignore w.Name = false := by simpa using hi
      simp only [hi, Bool.false_eq_true, if_false]
      have hnd : w.Name ∉ (rest.filter (fun h => !ignore h.Name)).map (fun h => h.Name) ∧
          ((rest.filter (fun h => !ignore h.Name)).map (fun h => h.Name)).Nodup := by
        simpa [List.filter_cons, hi2] using hnodup
      have hfresh : ∀ v ∈ rest, ignore v.Name = false → v.Name ≠ w.Name := by
        intro v hv hvi hvn
        apply hnd.1
        exact List.mem_map.mpr ⟨v, List.mem_filter.mpr ⟨hv, by simp [hvi]⟩, hvn⟩
      obtain ⟨s1, s2, s3, s4⟩ := reconcileLifecycleHook_store asgName w existingHooks known st
        hE (hcur w (List.mem_cons_self _ _) hi2) (hplain w (List.mem_cons_self _ _) hi2)
      cases hr : reconcileLifecycleHook storeService.asInterface asgName w existingHooks st with
      | mk r st1 =>
        rw [hr] at s1 s2 s3 s4
        simp only at s1 s2 s3 s4
        subst s1
        simp only
        obtain ⟨h1, h2, h3, h4⟩ := ih st1
          (fun v hv hvi => by
            rw [s3 v.Name (hfresh v hv hvi)]
            exact hcur v (List.mem_cons_of_mem _ hv) hvi)
          hnd.2
          (fun v hv hvi => hplain v (List.mem_cons_of_mem _ hv) hvi)
        refine ⟨h1, ?_, ?_, ?_⟩
        · intro v hv hvi
          rcases List.mem_cons.mp hv with hv | hv
          · subst hv
            rw [h3 v.Name (fun u hu hui => hfresh u hu hui)]
            exact s2
          · exact h2 v hv hvi
        · intro n hn
          rw [h3 n (fun v hv hvi => hn v (List.mem_cons_of_mem _ hv) hvi)]
          exact s3 n (fun e => hn w (List.mem_cons_self _ _) hi2 e.symm)
        · intro x hx
          rcases h4 x hx with ⟨y, hy, hyn⟩ | ⟨v, hv, hvi, hvn⟩
          · rcases s4 y hy with ⟨z, hz, hzn⟩ | hwy
            · exact Or.inl ⟨z, hz, hzn.trans hyn⟩
            · exact Or.inr ⟨w, List.mem_cons_self _ _, hi2, hwy.trans hyn⟩
          · exact Or.inr ⟨v, List.mem_cons_of_mem _ hv, hvi, hvn⟩

theorem hooksFrom_covers (addr : Nat) (hooks : List StoredHook) (r : StoredHook)
    (h : r ∈ hooks) : ∃ e ∈ hooksFrom addr hooks, e.Name = r.name := by
  induction hooks generalizing addr with
  | nil => simp at h
  | cons x xs ih =>
    rcases List.mem_cons.mp h with h | h
    · exact ⟨hookOfRecord x addr, by simp [hooksFrom], by rw [h]; rfl⟩
    · obtain ⟨e, he, hen⟩ := ih (addr + 3) h
      exact ⟨e, by simp [hooksFrom, he], hen⟩

/-- The second loop on the store: no error, the ignored and the wanted names keep their
stored hook, and what is left was stored before and was not extraneous. -/
theorem deleteExtraneous_store (asgName : String) (ignore : String → Bool)
    (wanted : List AWSLifecycleHook) (existingHooks : List AWSLifecycleHook)
    (st : RunState RemoteStore) :
    (deleteExtraneous storeService.asInterface asgName ignore wanted existingHooks st).1
      = none ∧
    (∀ n, (ignore n = true ∨ wanted.any (fun w => n == w.Name) = true) →
      findRecord ((deleteExtraneous storeService.asInterface asgName ignore wanted
        existingHooks st).2.svc.groups asgName) n = findRecord (st.svc.groups asgName) n) ∧
    (∀ x ∈ (deleteExtraneous storeService.asInterface asgName ignore wanted
        existingHooks st).2.svc.groups asgName,
      x ∈ st.svc.groups asgName ∧
        ¬ ∃ e ∈ existingHooks, ignore e.Name = false ∧
          wanted.any (fun w => e.Name == w.Name) = false ∧ e.Name = x.name) := by
  induction existingHooks generalizing st with
  | nil =>
    refine ⟨rfl, fun n _ => rfl, fun x hx => ⟨hx, ?_⟩⟩
    simp
  | cons e rest ih =>
    unfold deleteExtraneous
    by_cases hi : ignore e.Name = true
    · simp only [hi, if_true]
      obtain ⟨h1, h2, h3⟩ := ih st
      refine ⟨h1, h2, ?_⟩
      intro x hx
      refine ⟨(h3 x hx).1, ?_⟩
      rintro ⟨y, hy, hyi, hyw, hyn⟩
      rcases List.mem_cons.mp hy with hy | hy
      · subst hy; rw [hi] at hyi; simp at hyi
      · exact (h3 x hx).2 ⟨y, hy, hyi, hyw, hyn⟩
    · have hi2 : ignore e.Name = false := by simpa using hi
      simp only [hi, Bool.false_eq_true, if_false]
      by_cases hw : wanted.any (fun wantedHook => e.Name == wantedHook.Name) = true
      · simp only [hw, if_true]
        obtain ⟨h1, h2, h3⟩ := ih st
        refine ⟨h1, h2, ?_⟩
        intro x hx
        refine ⟨(h3 x hx).1, ?_⟩
        rintro ⟨y, hy, hyi, hyw, hyn⟩
        rcases List.mem_cons.mp hy with hy | hy
        · subst hy; rw [hw] at hyw; simp at hyw
        · exact (h3 x hx).2 ⟨y, hy, hyi, hyw, hyn⟩
      · have hw2 : wanted.any (fun wantedHook => e.Name == wantedHook.Name) = false := by
          simpa using hw
        simp only [hw, Bool.false_eq_true, if_false, store_delete]
        obtain ⟨h1, h2, h3⟩ := ih
          { svc := storeAfterDelete asgName e st.svc, conditions := st.conditions,
            calls := st.calls ++ [(Call.DeleteLifecycleHook asgName e, none)] }
        simp only [storeAfterDelete_groups] at h2 h3
        refine ⟨h1, ?_, ?_⟩
        · intro n hn
          rw [h2 n hn]
          apply findRecord_deleteRecord
          intro hne
          subst hne
          rcases hn with hn | hn
          · rw [hi2] at hn; simp at hn
          · rw [hw2] at hn; simp at hn
        · intro x hx
          obtain ⟨hx1, hx2⟩ := h3 x hx
          rw [mem_deleteRecord] at hx1
          refine ⟨hx1.1, ?_⟩
          rintro ⟨y, hy, hyi, hyw, hyn⟩
          rcases List.mem_cons.mp hy with hy | hy
          · subst hy; exact hx1.2 hyn.symm
          · exact hx2 ⟨y, hy, hyi, hyw, hyn⟩

/-- Without drift on any wanted hook that is not ignored, the first loop makes no call. -/
theorem reconcileWanted_no_drift {σ : Type} (asgService : ASGInterface σ)
    (asgName : String) (ignore : String → Bool) (existingHooks : List AWSLifecycleHook)
    (wanted : List AWSLifecycleHook) (st : RunState σ)
    (h : ∀ w ∈ wanted, ignore w.Name = false →
      ∃ e, existingHooks.find? (fun x => x.Name == w.Name) = some e ∧
        lifecycleHookNeedsUpdate e w = false) :
    (reconcileWanted asgService asgName ignore existingHooks wanted st).1 = none ∧
    (reconcileWanted asgService asgName ignore existingHooks wanted st).2.calls = st.calls ∧
    (reconcileWanted asgService asgName ignore existingHooks wanted st).2.svc = st.svc := by
  induction wanted generalizing st with
  | nil => exact ⟨rfl, rfl, rfl⟩
  | cons w rest ih =>
    unfold reconcileWanted
    by_cases hi : ignore w.Name = true
    · simp only [hi, if_true]
      exact ih st (fun v hv hvi => h v (List.mem_cons_of_mem _ hv) hvi)
    · have hi2 : ignore w.Name = false := by simpa using hi
      obtain ⟨e, he, hne⟩ := h w (List.mem_cons_self _ _) hi2
      simp only [hi, Bool.false_eq_true, if_false, reconcileLifecycleHook, he, hne]
      exact ih _ (fun v hv hvi => h v (List.mem_cons_of_mem _ hv) hvi)

/-- With every existing hook ignored or wanted, the second loop makes no call. -/
theorem deleteExtraneous_nothing {σ : Type} (asgService : ASGInterface σ)
    (asgName : String) (ignore : String → Bool) (wanted : List AWSLifecycleHook)
    (existingHooks : List AWSLifecycleHook) (st : RunState σ)
    (h : ∀ e ∈ existingHooks, ignore e.Name = true ∨
      wanted.any (fun w => e.Name == w.Name) = true) :
    deleteExtraneous asgService asgName ignore wanted existingHooks st = (none, st) := by
  induction existingHooks generalizing st with
  | nil => rfl
  | cons e rest ih =>
    unfold deleteExtraneous
    rcases h e (List.mem_cons_self _ _) with hi | hw
    · simp only [hi, if_true]
      exact ih st (fun v hv => h v (List.mem_cons_of_mem _ hv))
    · by_cases hi : ignore e.Name = true
      · simp only [hi, if_true]
        exact ih st (fun v hv => h v (List.mem_cons_of_mem _ hv))
      · simp only [hi, Bool.false_eq_true, if_false, hw, if_true]
        exact ih st (fun v hv => h v (List.mem_cons_of_mem _ hv))

/-! ## Idempotence -/

/-- What one run of `ReconcileLifecycleHooks` leaves in the store: no error; every wanted hook
that is not ignored is stored without drift; every stored name is ignored or wanted. -/
theorem ReconcileLifecycleHooks_store (asgName : String) (wanted : List AWSLifecycleHook)
    (ignore : String → Bool) (st : RunState RemoteStore)
    (hnodup : ((wanted.filter (fun h => !ignore h.Name)).map (fun h => h.Name)).Nodup)
    (hplain : ∀ w ∈ wanted, ignore w.Name = false → plainWanted w = true) :
    (ReconcileLifecycleHooks storeService.asInterface asgName wanted ignore st).1 = none ∧
    (∀ w ∈ wanted, ignore w.Name = false →
      ∃ r, findRecord ((ReconcileLifecycleHooks storeService.asInterface asgName wanted ignore
        st).2.svc.groups asgName) w.Name = some r ∧ recordMatches r w = true) ∧
    (∀ x ∈ (ReconcileLifecycleHooks storeService.asInterface asgName wanted ignore
        st).2.svc.groups asgName,
      ignore x.name = true ∨ wanted.any (fun w => x.name == w.Name) = true) := by
  unfold ReconcileLifecycleHooks
  rw [store_describe]
  simp only
  obtain ⟨w1, w2, _, w4⟩ := reconcileWanted_store asgName ignore
    (hooksFrom st.svc.nextAddr (st.svc.groups asgName)) (st.svc.groups asgName)
    (fun n => find_hooksFrom st.svc.nextAddr (st.svc.groups asgName) n) wanted
    { svc := { groups := st.svc.groups,
               nextAddr := st.svc.nextAddr + 3 * (st.svc.groups asgName).length },
      conditions := st.conditions,
      calls := st.calls ++ [(Call.DescribeLifecycleHooks asgName, none)] }
    (fun _ _ _ => rfl) hnodup hplain
  cases hr : reconcileWanted storeService.asInterface asgName ignore
      (hooksFrom st.svc.nextAddr (st.svc.groups asgName)) wanted
      { svc := { groups := st.svc.groups,
                 nextAddr := st.svc.nextAddr + 3 * (st.svc.groups asgName).length },
        conditions := st.conditions,
        calls := st.calls ++ [(Call.DescribeLifecycleHooks asgName, none)] } with
  | mk r st1 =>
    rw [hr] at w1 w2 w4
    simp only at w1 w2 w4
    subst w1
    simp only
    obtain ⟨d1, d2, d3⟩ := deleteExtraneous_store asgName ignore wanted
      (hooksFrom st.svc.nextAddr (st.svc.groups asgName)) st1
    refine ⟨d1, ?_, ?_⟩
    · intro w hw hwi
      rw [d2 w.Name (Or.inr (List.any_eq_true.mpr ⟨w, hw, by simp⟩))]
      exact w2 w hw hwi
    · intro x hx
      obtain ⟨hx1, hx2⟩ := d3 x hx
      rcases w4 x hx1 with ⟨y, hy, hyn⟩ | ⟨w, hw, _, hwn⟩
      · obtain ⟨e, he, hen⟩ := hooksFrom_covers st.svc.nextAddr (st.svc.groups asgName) y hy
        cases hig : ignore x.name with
        | true => exact Or.inl rfl
        | false =>
          right
          by_contra hany
          apply hx2
          have hex : e.Name = x.name := hen.trans hyn
          refine ⟨e, he, by rw [hex]; exact hig, ?_, hex⟩
          rw [hex]
          simpa using hany
      · exact Or.inr (List.any_eq_true.mpr ⟨w, hw, by simp [hwn]⟩)

/-- A run on a store that is in sync with the wanted list makes the describe call and no
other call. -/
theorem ReconcileLifecycleHooks_in_sync (asgName : String) (wanted : List AWSLifecycleHook)
    (ignore : String → Bool) (store : RemoteStore) (conds : List Condition)
    (hplain : ∀ w ∈ wanted, ignore w.Name = false → plainWanted w = true)
    (hstored : ∀ w ∈ wanted, ignore w.Name = false →
      ∃ r, findRecord (store.groups asgName) w.Name = some r ∧ recordMatches r w = true)
    (hnames : ∀ x ∈ store.groups asgName,
      ignore x.name = true ∨ wanted.any (fun w => x.name == w.Name) = true) :
    (ReconcileLifecycleHooks storeService.asInterface asgName wanted ignore
      { svc := store, conditions := conds, calls := [] }).1 = none ∧
    (ReconcileLifecycleHooks storeService.asInterface asgName wanted ignore
      { svc := store, conditions := conds, calls := [] }).2.calls
      = [(Call.DescribeLifecycleHooks asgName, none)] := by
  have hq1 := reconcileWanted_no_drift storeService.asInterface asgName ignore
    (hooksFrom store.nextAddr (store.groups asgName)) wanted
    { svc := { groups := store.groups,
               nextAddr := store.nextAddr + 3 * (store.groups asgName).length },
      conditions := conds,
      calls := [] ++ [(Call.DescribeLifecycleHooks asgName, none)] }
    (by
      intro w hw hwi
      obtain ⟨r, hr, hrm⟩ := hstored w hw hwi
      obtain ⟨b, hb⟩ := find_hooksFrom store.nextAddr (store.groups asgName) w.Name
      have hp := hplain w hw hwi
      simp only [plainWanted, Bool.and_eq_true, Option.isNone_iff_eq_none] at hp
      refine ⟨hookOfRecord r b, by rw [hb, hr]; rfl, ?_⟩
      rw [needsUpdate_hookOfRecord r b w hp.1.1 hp.1.2, hrm]
      rfl)
  have hq2 := deleteExtraneous_nothing storeService.asInterface asgName ignore wanted
    (hooksFrom store.nextAddr (store.groups asgName))
    (reconcileWanted storeService.asInterface asgName ignore
      (hooksFrom store.nextAddr (store.groups asgName)) wanted
      { svc := { groups := store.groups,
                 nextAddr := store.nextAddr + 3 * (store.groups asgName).length },
        conditions := conds,
        calls := [] ++ [(Call.DescribeLifecycleHooks asgName, none)] }).2
    (by
      intro e he
      obtain ⟨x, hx, hxn⟩ := mem_hooksFrom _ _ e he
      rw [← hxn]
      exact hnames x hx)
  unfold ReconcileLifecycleHooks
  rw [store_describe]
  simp only
  obtain ⟨q1, q2, _⟩ := hq1
  cases hr : reconcileWanted storeService.asInterface asgName ignore
      (hooksFrom store.nextAddr (store.groups asgName)) wanted
      { svc := { groups := store.groups,
                 nextAddr := store.nextAddr + 3 * (store.groups asgName).length },
        conditions := conds,
        calls := [] ++ [(Call.DescribeLifecycleHooks asgName, none)] } with
  | mk r stw =>
    rw [hr] at q1 q2 hq2
    simp only at q1 q2 hq2
    subst q1
    simp only
    rw [hq2]
    exact ⟨rfl, q2⟩

/-- C15, as stated, fails: on the store, after a first run that succeeds, the second run with
the same wanted list issues an update when two wanted hooks carry the same name with
different content, and when a wanted heartbeat timeout is not a whole number of seconds
(30.5 s is stored as 30 s). -/
theorem ReconcileLifecycleHooks_second_run_updates :
    (ReconcileLifecycleHooks storeService.asInterface "asg"
      [{ plainHook "a" with DefaultResult := some LifecycleHookDefaultResultContinue },
       plainHook "a"] ignoreNone (freshRun emptyStore)).1 = none ∧
    mutations (secondRun "asg"
      [{ plainHook "a" with DefaultResult := some LifecycleHookDefaultResultContinue },
       plainHook "a"] ignoreNone (freshRun emptyStore)).2.calls
      = [(Call.UpdateLifecycleHook "asg"
          { plainHook "a" with DefaultResult := some LifecycleHookDefaultResultContinue },
          none)] ∧
    (ReconcileLifecycleHooks storeService.asInterface "asg"
      [{ plainHook "a" with HeartbeatTimeout := some 30500000000 }] ignoreNone
      (freshRun emptyStore)).1 = none ∧
    mutations (secondRun "asg"
      [{ plainHook "a" with HeartbeatTimeout := some 30500000000 }] ignoreNone
      (freshRun emptyStore)).2.calls
      = [(Call.UpdateLifecycleHook "asg"
          { plainHook "a" with HeartbeatTimeout := some 30500000000 }, none)] := by
  refine ⟨by decide, by decide, by decide, by decide⟩

/-- C15, amended: on the store, for every wanted list whose hooks off the ignore list carry
pairwise different names, no notification target, no notification metadata and a heartbeat
timeout in whole seconds, a run of `ReconcileLifecycleHooks` succeeds and a second run with
the same wanted list and ignore list, on the store state the first run left, succeeds and
issues no create, update or delete call: its only call is the describe. -/
theorem ReconcileLifecycleHooks_idempotent (asgName : String)
    (wanted : List AWSLifecycleHook) (ignore : String → Bool) (st : RunState RemoteStore)
    (hnodup : ((wanted.filter (fun h => !ignore h.Name)).map (fun h => h.Name)).Nodup)
    (hplain : ∀ w ∈ wanted, ignore w.Name = false → plainWanted w = true) :
    (ReconcileLifecycleHooks storeService.asInterface asgName wanted ignore st).1 = none ∧
    (secondRun asgName wanted ignore st).1 = none ∧
    (secondRun asgName wanted ignore st).2.calls
      = [(Call.DescribeLifecycleHooks asgName, none)] ∧
    mutations (secondRun asgName wanted ignore st).2.calls = [] := by
  obtain ⟨r1, r2, r3⟩ := ReconcileLifecycleHooks_store asgName wanted ignore st hnodup hplain
  obtain ⟨s1, s2⟩ := ReconcileLifecycleHooks_in_sync asgName wanted ignore
    (ReconcileLifecycleHooks storeService.asInterface asgName wanted ignore st).2.svc
    (ReconcileLifecycleHooks storeService.asInterface asgName wanted ignore st).2.conditions
    hplain r2 r3
  have hs : secondRun asgName wanted ignore st
      = ReconcileLifecycleHooks storeService.asInterface asgName wanted ignore
          { svc := (ReconcileLifecycleHooks storeService.asInterface asgName wanted ignore
              st).2.svc,
            conditions := (ReconcileLifecycleHooks storeService.asInterface asgName wanted
              ignore st).2.conditions,
            calls := [] } := rfl
  rw [hs, s2]
  exact ⟨r1, s1, rfl, rfl⟩

/-- Witness for C15 amended: two plain wanted hooks, one with a heartbeat timeout of 30
seconds, and an ignored hook, on a store that holds a drifted hook and an extraneous hook. -/
theorem ReconcileLifecycleHooks_idempotent_witness :
    (ReconcileLifecycleHooks storeService.asInterface "asg" sampleWanted (ignoreOnly ["kept"])
      (freshRun driftedStore)).1 = none ∧
    (secondRun "asg" sampleWanted (ignoreOnly ["kept"]) (freshRun driftedStore)).1 = none ∧
    (secondRun "asg" sampleWanted (ignoreOnly ["kept"]) (freshRun driftedStore)).2.calls
      = [(Call.DescribeLifecycleHooks "asg", none)] ∧
    mutations (secondRun "asg" sampleWanted (ignoreOnly ["kept"])
      (freshRun driftedStore)).2.calls = [] :=
  ReconcileLifecycleHooks_idempotent "asg" sampleWanted (ignoreOnly ["kept"])
    (freshRun driftedStore) (by decide) (by decide)

/-! ## Further theorems on the reconciler, the comparator and the preflight checks -/

/-- C21: when `DescribeLifecycleHooks` fails with error `e`, `ReconcileLifecycleHooks`
returns `e` itself, records the failed describe and no other call, and leaves the conditions
as they were. -/
theorem ReconcileLifecycleHooks_fetch_failure_aborts {σ : Type} (asgService : ASGInterface σ)
    (asgName : String) (wanted : List AWSLifecycleHook) (ignore : String → Bool)
    (st : RunState σ) (e : GoError)
    (hfetch : (asgService.DescribeLifecycleHooks asgName st.svc).1.2 = some e) :
    (ReconcileLifecycleHooks asgService asgName wanted ignore st).1 = some e ∧
    (ReconcileLifecycleHooks asgService asgName wanted ignore st).2.calls
      = st.calls ++ [(Call.DescribeLifecycleHooks asgName, some e)] ∧
    mutations ((ReconcileLifecycleHooks asgService asgName wanted ignore st).2.calls.drop
      st.calls.length) = [] ∧
    (ReconcileLifecycleHooks asgService asgName wanted ignore st).2.conditions
      = st.conditions := by
  unfold ReconcileLifecycleHooks
  cases hd : asgService.DescribeLifecycleHooks asgName st.svc with
  | mk res svc1 =>
    obtain ⟨existingHooks, err⟩ := res
    rw [hd] at hfetch
    simp only at hfetch
    subst hfetch
    simp only [List.drop_left]
    exact ⟨trivial, trivial, rfl, trivial⟩

/-- Witness for C21: the describe call fails while a hook is wanted and another one would be
extraneous. -/
theorem ReconcileLifecycleHooks_fetch_failure_aborts_witness :
    (ReconcileLifecycleHooks
      (scriptedService [plainHook "old"] (some (GoError.New "describe failed")) allSucceed)
      "asg" [plainHook "new"] ignoreNone (freshRun ())).1
      = some (GoError.New "describe failed") ∧
    (ReconcileLifecycleHooks
      (scriptedService [plainHook "old"] (some (GoError.New "describe failed")) allSucceed)
      "asg" [plainHook "new"] ignoreNone (freshRun ())).2.calls
      = (freshRun ()).calls
        ++ [(Call.DescribeLifecycleHooks "asg", some (GoError.New "describe failed"))] ∧
    mutations ((ReconcileLifecycleHooks
      (scriptedService [plainHook "old"] (some (GoError.New "describe failed")) allSucceed)
      "asg" [plainHook "new"] ignoreNone (freshRun ())).2.calls.drop
      (freshRun ()).calls.length) = [] ∧
    (ReconcileLifecycleHooks
      (scriptedService [plainHook "old"] (some (GoError.New "describe failed")) allSucceed)
      "asg" [plainHook "new"] ignoreNone (freshRun ())).2.conditions
      = (freshRun ()).conditions :=
  ReconcileLifecycleHooks_fetch_failure_aborts
    (scriptedService [plainHook "old"] (some (GoError.New "describe failed")) allSucceed)
    "asg" [plainHook "new"] ignoreNone (freshRun ()) (GoError.New "describe failed") rfl

/-- C23: with the feature gate enabled, a control plane object whose `spec.version` parses
and whose `status.version` is present but does not parse makes `runPreflightChecks` return
false together with the parse error, wrapped with the text that names the status version. -/
theorem runPreflightChecks_errors_on_invalid_status_version (gates : Feature → Bool)
    (mps : MachinePoolScope) (cs : ClusterScoper) (cp : Unstructured) (d o : String)
    (vd : Version) (e : SemverError)
    (hgate : gates Feature.MachinePoolPreflightChecks = true)
    (hcs : cs.UnstructuredControlPlane = (some cp, none))
    (hd : versionField cp.UnstructuredContent "spec" = some d)
    (ho : versionField cp.UnstructuredContent "status" = some o)
    (hpd : ParseTolerant d = .ok vd) (hpo : ParseTolerant o = .error e) :
    (runPreflightChecks gates mps cs).result
      = (false, some (Err.wrap (Err.semver e)
          "failed to parse control plane status version")) := by
  unfold runPreflightChecks
  rw [hcs]
  simp [hgate, NestedString_of_versionField _ _ _ hd, hpd, controlPlaneStablePreflightChecks,
    controlPlaneIsUpgrading, NestedString_of_versionField _ _ _ ho, hpo, Wrap]

/-- Witness for C23: spec v1.26.2 with status "v1.26.2.1". -/
theorem runPreflightChecks_errors_on_invalid_status_version_witness :
    (runPreflightChecks gatesEnabled {} (scopeWith controlPlaneWithInvalidStatus)).result
      = (false, some (Err.wrap (Err.semver SemverError.invalidPatch)
          "failed to parse control plane status version")) :=
  runPreflightChecks_errors_on_invalid_status_version gatesEnabled {}
    (scopeWith controlPlaneWithInvalidStatus) controlPlaneWithInvalidStatus "v1.26.2"
    "v1.26.2.1" ⟨1, 26, 2, [], []⟩ SemverError.invalidPatch rfl rfl (by decide) (by decide)
    (by rfl) (by rfl)

/-- C26: default normalization. `lifecycleHookNeedsUpdate` gives the same answer when the
defaults (explicit Abandon, explicit 3600 seconds) are written out on the existing hook, on
the expected hook, or on both; and an existing hook with explicit Abandon and 3600 seconds
needs no update against an expected hook that leaves both unset, the transition being the same
and notification target and metadata absent on both. -/
theorem lifecycleHookNeedsUpdate_default_normalization (existing expected : AWSLifecycleHook)
    (name1 name2 transition : String) (role1 role2 : Option StringPtr) :
    lifecycleHookNeedsUpdate (withDefaults existing) expected
      = lifecycleHookNeedsUpdate existing expected ∧
    lifecycleHookNeedsUpdate existing (withDefaults expected)
      = lifecycleHookNeedsUpdate existing expected ∧
    lifecycleHookNeedsUpdate (withDefaults existing) (withDefaults expected)
      = lifecycleHookNeedsUpdate existing expected ∧
    lifecycleHookNeedsUpdate
      { Name := name1, LifecycleTransition := transition, RoleARN := role1,
        DefaultResult := some LifecycleHookDefaultResultAbandon,
        HeartbeatTimeout := some (3600 * Second) }
      { Name := name2, LifecycleTransition := transition, RoleARN := role2 } = false := by
  refine ⟨?_, ?_, ?_, ?_⟩
  · simp only [lifecycleHookNeedsUpdate, withDefaults]
    cases existing.DefaultResult <;> cases existing.HeartbeatTimeout <;> rfl
  · simp only [lifecycleHookNeedsUpdate, withDefaults]
    cases expected.DefaultResult <;> cases expected.HeartbeatTimeout <;> rfl
  · simp only [lifecycleHookNeedsUpdate, withDefaults]
    cases existing.DefaultResult <;> cases existing.HeartbeatTimeout <;>
      cases expected.DefaultResult <;> cases expected.HeartbeatTimeout <;> rfl
  · simp [lifecycleHookNeedsUpdate, Deref, ptrNe]

/-- C27: for every feature gate setting, machine pool and cluster scope (whatever the fetch
returns), `runPreflightChecks` returns false or a nil error: never true together with an
error. -/
theorem runPreflightChecks_never_true_with_error (gates : Feature → Bool)
    (mps : MachinePoolScope) (cs : ClusterScoper) :
    (runPreflightChecks gates mps cs).result.1 = false ∨
    (runPreflightChecks gates mps cs).result.2 = none := by
  unfold runPreflightChecks
  cases hg : gates Feature.MachinePoolPreflightChecks
  · simp
  · simp only [Bool.not_true, Bool.false_eq_true, if_false]
    obtain ⟨⟨fetched, ferr⟩⟩ := cs
    cases ferr with
    | some e => simp
    | none =>
      cases fetched with
      | none => simp
      | some cp =>
        simp only
        cases hn : NestedString cp.UnstructuredContent ["spec", "version"] with
        | mk v rest =>
          obtain ⟨ok, err⟩ := rest
          simp only
          cases err with
          | some e => simp
          | none =>
            cases ok with
            | false => simp
            | true =>
              simp only [Option.isSome_none, Bool.false_eq_true, if_false, Bool.not_true]
              cases ParseTolerant v with
              | error e => simp
              | ok sv =>
                simp only
                cases hs : controlPlaneStablePreflightChecks cp with
                | mk ok2 err2 =>
                  cases ok2 <;> cases err2 <;> simp

/-- C28: the whole outcome of `runPreflightChecks` (the result pair and the fetch it makes) is
the same for any two machine pool scopes, under the same feature gates and cluster scope. -/
theorem runPreflightChecks_ignores_machine_pool (gates : Feature → Bool)
    (mps1 mps2 : MachinePoolScope) (cs : ClusterScoper) :
    (runPreflightChecks gates mps1 cs).result = (runPreflightChecks gates mps2 cs).result ∧
    (runPreflightChecks gates mps1 cs).fetches = (runPreflightChecks gates mps2 cs).fetches :=
  ⟨rfl, rfl⟩

/-- C30: round trip. For an SDK hook whose name, transition, default result and heartbeat
timeout are set, the timeout being `n` seconds with `0 ≤ n` and `n * 10^9` within the signed
64-bit range, `SDKToLifecycleHook` does not panic and `getPutLifecycleHookInput` on its result
carries the given group name, the same hook name, transition, default result, the timeout `n`,
and the same role, notification target and notification metadata pointers. -/
theorem getPutLifecycleHookInput_SDKToLifecycleHook (asgName : String) (h : SDKLifecycleHook)
    (name transition defaultResult : String) (n : Int)
    (hname : h.LifecycleHookName = some name)
    (htransition : h.LifecycleTransition = some transition)
    (hdefault : h.DefaultResult = some defaultResult)
    (htimeout : h.HeartbeatTimeout = some n)
    (hn0 : 0 ≤ n) (hn1 : n * 1000000000 < 2 ^ 63) :
    ∃ hook, SDKToLifecycleHook h = some hook ∧
      getPutLifecycleHookInput asgName hook
        = { AutoScalingGroupName := some asgName,
            LifecycleHookName := some name,
            LifecycleTransition := some transition,
            RoleARN := h.RoleARN,
            NotificationTargetARN := h.NotificationTargetARN,
            NotificationMetadata := h.NotificationMetadata,
            DefaultResult := some defaultResult,
            HeartbeatTimeout := some n } := by
  have h1 : wrapInt64 n = n := by
    apply wrapInt64_of_range <;> omega
  have h2 : wrapInt64 (n * Second) = n * Second := by
    apply wrapInt64_of_range <;> simp only [Second] <;> omega
  have h3 : durationSecondsToInt64 (n * Second) = n := by
    simp only [durationSecondsToInt64, Second]
    exact Int.mul_tdiv_cancel n (by decide)
  refine ⟨_, by simp only [SDKToLifecycleHook, hname, htransition, hdefault, htimeout]; rfl, ?_⟩
  simp only [getPutLifecycleHookInput, h1, h2, h3]

/-- Witness for C30: the reported hook with a timeout of 180 seconds. -/
theorem getPutLifecycleHookInput_SDKToLifecycleHook_witness :
    ∃ hook, SDKToLifecycleHook reportedHook = some hook ∧
      getPutLifecycleHookInput "asg" hook
        = { AutoScalingGroupName := some "asg",
            LifecycleHookName := some "the-hook",
            LifecycleTransition := some LifecycleHookTransitionInstanceTerminating,
            RoleARN := reportedHook.RoleARN,
            NotificationTargetARN := reportedHook.NotificationTargetARN,
            NotificationMetadata := reportedHook.NotificationMetadata,
            DefaultResult := some LifecycleHookDefaultResultContinue,
            HeartbeatTimeout := some 180 } :=
  getPutLifecycleHookInput_SDKToLifecycleHook "asg" reportedHook "the-hook"
    LifecycleHookTransitionInstanceTerminating LifecycleHookDefaultResultContinue 180
    rfl rfl rfl rfl (by decide) (by decide)

/-! ## The calls issued against the calls planned -/

theorem failFast_some_mem (added : List (Call × Option GoError)) (e : GoError)
    (h : failFast added (some e) = true) : ∃ c, (c, some e) ∈ added := by
  induction added with
  | nil => simp [failFast_nil] at h
  | cons x rest ih =>
    cases rest with
    | nil =>
      rw [failFast_single, beq_iff_eq] at h
      exact ⟨x.1, by simp [← h]⟩
    | cons y ys =>
      rw [failFast_cons_cons, Bool.and_eq_true] at h
      obtain ⟨c, hc⟩ := ih h.2
      exact ⟨c, List.mem_cons_of_mem _ hc⟩

theorem reconcileLifecycleHook_planned {σ : Type} (asgService : ASGInterface σ)
    (asgName : String) (w : AWSLifecycleHook) (existingHooks : List AWSLifecycleHook)
    (st : RunState σ) :
    ∃ added, (reconcileLifecycleHook asgService asgName w existingHooks st).2.calls
        = st.calls ++ added ∧
      added.map (fun entry => entry.1) = (plannedPut asgName existingHooks w).toList := by
  unfold reconcileLifecycleHook plannedPut
  cases existingHooks.find? (fun h => h.Name == w.Name) with
  | none =>
    cases asgService.CreateLifecycleHook asgName w st.svc with
    | mk r svc1 =>
      cases r with
      | some e => exact ⟨[(Call.CreateLifecycleHook asgName w, some e)], rfl, rfl⟩
      | none => exact ⟨[(Call.CreateLifecycleHook asgName w, none)], rfl, rfl⟩
  | some ex =>
    by_cases hn : lifecycleHookNeedsUpdate ex w = true
    · simp only [hn, if_true]
      cases asgService.UpdateLifecycleHook asgName w st.svc with
      | mk r svc1 =>
        cases r with
        | some e => exact ⟨[(Call.UpdateLifecycleHook asgName w, some e)], rfl, rfl⟩
        | none => exact ⟨[(Call.UpdateLifecycleHook asgName w, none)], rfl, rfl⟩
    · simp only [hn, Bool.false_eq_true, if_false]
      exact ⟨[], by simp, rfl⟩

theorem reconcileWanted_planned {σ : Type} (asgService : ASGInterface σ)
    (asgName : String) (ignore : String → Bool) (existingHooks : List AWSLifecycleHook)
    (wanted : List AWSLifecycleHook) (st : RunState σ) :
    ∃ added, (reconcileWanted asgService asgName ignore existingHooks wanted st).2.calls
        = st.calls ++ added ∧
      added.map (fun entry => entry.1) <+: plannedPuts asgName existingHooks wanted ignore ∧
      ((reconcileWanted asgService asgName ignore existingHooks wanted st).1 = none →
        added.map (fun entry => entry.1)
          = plannedPuts asgName existingHooks wanted ignore) := by
  induction wanted generalizing st with
  | nil =>
    exact ⟨[], by simp [reconcileWanted], by simp [plannedPuts], fun _ => by simp [plannedPuts]⟩
  | cons w rest ih =>
    unfold reconcileWanted
    by_cases hi : ignore w.Name = true
    · simp only [hi, if_true]
      have hp : plannedPuts asgName existingHooks (w :: rest) ignore
          = plannedPuts asgName existingHooks rest ignore := by
        simp [plannedPuts, List.filter_cons, hi]
      rw [hp]
      exact ih st
    · have hi2 : ignore w.Name = false := by simpa using hi
      simp only [hi, Bool.false_eq_true, if_false]
      have hp : plannedPuts asgName existingHooks (w :: rest) ignore
          = (plannedPut asgName existingHooks w).toList
            ++ plannedPuts asgName existingHooks rest ignore := by
        simp only [plannedPuts, List.filter_cons, hi2, Bool.not_false, if_true,
          List.filterMap_cons]
        cases plannedPut asgName existingHooks w <;> rfl
      rw [hp]
      obtain ⟨a1, hc1, hm1⟩ := reconcileLifecycleHook_planned asgService asgName w
        existingHooks st
      cases hr : reconcileLifecycleHook asgService asgName w existingHooks st with
      | mk r st1 =>
        rw [hr] at hc1
        cases r with
        | some e =>
          simp only at hc1 ⊢
          refine ⟨a1, hc1, ?_, fun h => by simp at h⟩
          rw [hm1]
          exact List.prefix_append _ _
        | none =>
          simp only at hc1 ⊢
          obtain ⟨a2, hc2, hp2, he2⟩ := ih st1
          refine ⟨a1 ++ a2, by rw [hc2, hc1, List.append_assoc], ?_, ?_⟩
          · rw [List.map_append, hm1]
            exact (List.prefix_append_right_inj _).mpr hp2
          · intro h
            rw [List.map_append, hm1, he2 h]

theorem deleteExtraneous_planned {σ : Type} (asgService : ASGInterface σ)
    (asgName : String) (ignore : String → Bool) (wanted : List AWSLifecycleHook)
    (existingHooks : List AWSLifecycleHook) (st : RunState σ) :
    ∃ added, (deleteExtraneous asgService asgName ignore wanted existingHooks st).2.calls
        = st.calls ++ added ∧
      added.map (fun entry => entry.1) <+: plannedDeletes asgName existingHooks wanted ignore ∧
      ((deleteExtraneous asgService asgName ignore wanted existingHooks st).1 = none →
        added.map (fun entry => entry.1)
          = plannedDeletes asgName existingHooks wanted ignore) := by
  induction existingHooks generalizing st with
  | nil =>
    exact ⟨[], by simp [deleteExtraneous], by simp [plannedDeletes],
      fun _ => by simp [plannedDeletes]⟩
  | cons x rest ih =>
    unfold deleteExtraneous
    by_cases hi : ignore x.Name = true
    · simp only [hi, if_true]
      have hp : plannedDeletes asgName (x :: rest) wanted ignore
          = plannedDeletes asgName rest wanted ignore := by
        simp [plannedDeletes, List.filter_cons, hi]
      rw [hp]
      exact ih st
    · have hi2 : ignore x.Name = false := by simpa using hi
      simp only [hi, Bool.false_eq_true, if_false]
      by_cases hw : wanted.any (fun wantedHook => x.Name == wantedHook.Name) = true
      · simp only [hw, if_true]
        have hp : plannedDeletes asgName (x :: rest) wanted ignore
            = plannedDeletes asgName rest wanted ignore := by
          simp only [plannedDeletes, List.filter_cons, hw, Bool.not_true, Bool.and_false,
            Bool.false_eq_true, if_false]
        rw [hp]
        exact ih st
      · have hw2 : wanted.any (fun wantedHook => x.Name == wantedHook.Name) = false := by
          simpa using hw
        simp only [hw, Bool.false_eq_true, if_false]
        have hp : plannedDeletes asgName (x :: rest) wanted ignore
            = Call.DeleteLifecycleHook asgName x
              :: plannedDeletes asgName rest wanted ignore := by
          simp only [plannedDeletes, List.filter_cons, hi2, hw2, Bool.not_false,
            Bool.and_self, if_true, List.map_cons]
        rw [hp]
        cases hdel : asgService.DeleteLifecycleHook asgName x st.svc with
        | mk r svc1 =>
          cases r with
          | some e =>
            refine ⟨[(Call.DeleteLifecycleHook asgName x, some e)], rfl, ?_,
              fun h => by simp at h⟩
            exact List.prefix_iff_eq_append.mpr (by simp)
          | none =>
            simp only
            obtain ⟨a2, hc2, hp2, he2⟩ := ih
              { svc := svc1, conditions := st.conditions,
                calls := st.calls ++ [(Call.DeleteLifecycleHook asgName x, none)] }
            refine ⟨(Call.DeleteLifecycleHook asgName x, none) :: a2, ?_, ?_, ?_⟩
            · rw [hc2]; simp
            · simp only [List.map_cons]
              exact (List.prefix_cons_inj _).mpr hp2
            · intro h
              simp only [List.map_cons, he2 h]

theorem plannedPuts_isPut (asgName : String) (existingHooks wanted : List AWSLifecycleHook)
    (ignore : String → Bool) :
    ∀ c ∈ plannedPuts asgName existingHooks wanted ignore,
      c.isPut = true ∧ c.isDelete = false := by
  intro c hc
  simp only [plannedPuts, List.mem_filterMap, List.mem_filter] at hc
  obtain ⟨w, _, hw⟩ := hc
  unfold plannedPut at hw
  split at hw
  · simp only [Option.some.injEq] at hw
    subst hw
    exact ⟨rfl, rfl⟩
  · split at hw
    · simp only [Option.some.injEq] at hw
      subst hw
      exact ⟨rfl, rfl⟩
    · simp at hw

theorem plannedDeletes_isDelete (asgName : String)
    (existingHooks wanted : List AWSLifecycleHook) (ignore : String → Bool) :
    ∀ c ∈ plannedDeletes asgName existingHooks wanted ignore,
      c.isDelete = true ∧ c.isPut = false := by
  intro c hc
  simp only [plannedDeletes, List.mem_map] at hc
  obtain ⟨x, _, hx⟩ := hc
  subst hx
  exact ⟨rfl, rfl⟩

theorem filter_eq_self_of_all {α : Type} (p : α → Bool) (l : List α)
    (h : ∀ x ∈ l, p x = true) : l.filter p = l := by
  induction l with
  | nil => rfl
  | cons x xs ih =>
    have hx := h x (List.mem_cons_self _ _)
    simp only [List.filter_cons, hx, if_true]
    rw [ih (fun y hy => h y (List.mem_cons_of_mem _ hy))]

theorem filter_eq_nil_of_none {α : Type} (p : α → Bool) (l : List α)
    (h : ∀ x ∈ l, p x = false) : l.filter p = [] := by
  induction l with
  | nil => rfl
  | cons x xs ih =>
    have hx := h x (List.mem_cons_self _ _)
    simp only [List.filter_cons, hx, Bool.false_eq_true, if_false]
    exact ih (fun y hy => h y (List.mem_cons_of_mem _ hy))

/-- The record of a run whose describe call succeeds: the describe, then creates and updates
that are a prefix of the planned ones, then deletes that are a prefix of the planned ones;
the puts are all issued unless one of them failed, and then no delete follows. -/
theorem ReconcileLifecycleHooks_planned {σ : Type} (asgService : ASGInterface σ)
    (asgName : String) (wanted : List AWSLifecycleHook) (ignore : String → Bool)
    (st : RunState σ) (existingHooks : List AWSLifecycleHook) (svc1 : σ)
    (hdescribe : asgService.DescribeLifecycleHooks asgName st.svc
      = ((existingHooks, none), svc1)) :
    ∃ P D, (ReconcileLifecycleHooks asgService asgName wanted ignore st).2.calls
        = st.calls ++ (Call.DescribeLifecycleHooks asgName, none) :: (P ++ D) ∧
      P.map (fun entry => entry.1) <+: plannedPuts asgName existingHooks wanted ignore ∧
      D.map (fun entry => entry.1) <+: plannedDeletes asgName existingHooks wanted ignore ∧
      (P.map (fun entry => entry.1) = plannedPuts asgName existingHooks wanted ignore ∨
        (D = [] ∧ ∃ c e, (c, some e) ∈ P)) ∧
      ((ReconcileLifecycleHooks asgService asgName wanted ignore st).1 = none →
        P.map (fun entry => entry.1) = plannedPuts asgName existingHooks wanted ignore ∧
        D.map (fun entry => entry.1)
          = plannedDeletes asgName existingHooks wanted ignore) := by
  unfold ReconcileLifecycleHooks
  rw [hdescribe]
  simp only
  obtain ⟨P, hcP, hpP, heP⟩ := reconcileWanted_planned asgService asgName ignore existingHooks
    wanted { svc := svc1, conditions := st.conditions,
             calls := st.calls ++ [(Call.DescribeLifecycleHooks asgName, none)] }
  obtain ⟨P2, hcP2, hfP⟩ := reconcileWanted_failFast asgService asgName ignore existingHooks
    wanted { svc := svc1, conditions := st.conditions,
             calls := st.calls ++ [(Call.DescribeLifecycleHooks asgName, none)] }
  have hPP : P2 = P := by
    rw [hcP] at hcP2
    exact (List.append_cancel_left hcP2).symm
  subst hPP
  cases hr : reconcileWanted asgService asgName ignore existingHooks wanted
      { svc := svc1, conditions := st.conditions,
        calls := st.calls ++ [(Call.DescribeLifecycleHooks asgName, none)] } with
  | mk r st1 =>
    rw [hr] at hcP heP hfP
    simp only at hcP heP hfP
    cases r with
    | some e =>
      simp only
      refine ⟨P2, [], by rw [hcP]; simp, hpP, List.nil_prefix, ?_, fun h => by simp at h⟩
      obtain ⟨c, hc⟩ := failFast_some_mem P2 e hfP
      exact Or.inr ⟨rfl, c, e, hc⟩
    | none =>
      simp only
      obtain ⟨D, hcD, hpD, heD⟩ := deleteExtraneous_planned asgService asgName ignore wanted
        existingHooks st1
      refine ⟨P2, D, by rw [hcD, hcP]; simp, hpP, hpD, Or.inl (heP rfl), ?_⟩
      intro h
      exact ⟨heP rfl, heD h⟩

/-- C24: after a successful fetch, the creates and updates that `ReconcileLifecycleHooks`
issues are, in the order of the wanted list, the planned ones for the wanted hooks off the
ignore list (create when no fetched hook has the name, update when the first fetched hook of
that name satisfies `lifecycleHookNeedsUpdate`, nothing otherwise): always a prefix of the
plan, and the whole plan while no create or update has failed. -/
theorem ReconcileLifecycleHooks_puts_as_planned {σ : Type} (asgService : ASGInterface σ)
    (asgName : String) (wanted : List AWSLifecycleHook) (ignore : String → Bool)
    (st : RunState σ) (existingHooks : List AWSLifecycleHook) (svc1 : σ)
    (hdescribe : asgService.DescribeLifecycleHooks asgName st.svc
      = ((existingHooks, none), svc1)) :
    (((ReconcileLifecycleHooks asgService asgName wanted ignore st).2.calls.drop
        st.calls.length).map (fun entry => entry.1)).filter Call.isPut
      <+: plannedPuts asgName existingHooks wanted ignore ∧
    ((∀ entry ∈ (ReconcileLifecycleHooks asgService asgName wanted ignore st).2.calls.drop
        st.calls.length, entry.1.isPut = true → entry.2 = none) →
      (((ReconcileLifecycleHooks asgService asgName wanted ignore st).2.calls.drop
        st.calls.length).map (fun entry => entry.1)).filter Call.isPut
        = plannedPuts asgName existingHooks wanted ignore) := by
  obtain ⟨P, D, hc, hP, hD, hor, _⟩ := ReconcileLifecycleHooks_planned asgService asgName
    wanted ignore st existingHooks svc1 hdescribe
  have hPput : ∀ c ∈ P.map (fun entry => entry.1), c.isPut = true := fun c hc2 =>
    (plannedPuts_isPut asgName existingHooks wanted ignore c (hP.subset hc2)).1
  have hDput : ∀ c ∈ D.map (fun entry => entry.1), c.isPut = false := fun c hc2 =>
    (plannedDeletes_isDelete asgName existingHooks wanted ignore c (hD.subset hc2)).2
  have hfilter : (((ReconcileLifecycleHooks asgService asgName wanted ignore st).2.calls.drop
      st.calls.length).map (fun entry => entry.1)).filter Call.isPut
      = P.map (fun entry => entry.1) := by
    rw [hc, List.drop_left]
    simp only [List.map_cons, List.map_append, List.filter_cons, Call.isPut,
      Bool.false_eq_true, if_false, List.filter_append]
    rw [filter_eq_self_of_all _ _ hPput, filter_eq_nil_of_none _ _ hDput, List.append_nil]
  rw [hfilter]
  refine ⟨hP, ?_⟩
  intro hok
  rcases hor with h | ⟨_, c, e, hce⟩
  · exact h
  · exfalso
    have hmem : (c, some e) ∈ (ReconcileLifecycleHooks asgService asgName wanted ignore
        st).2.calls.drop st.calls.length := by
      rw [hc, List.drop_left]
      exact List.mem_cons_of_mem _ (List.mem_append_left _ hce)
    have hput : c.isPut = true := hPput c (List.mem_map.mpr ⟨(c, some e), hce, rfl⟩)
    have := hok (c, some e) hmem hput
    simp at this

/-- Witness for C24: fetched hooks `same` and `drifted`; wanted `same` (no drift), `drifted`
(other default result), `new` and the ignored `skipped`. The update of `drifted` and the
create of `new` are issued, in that order. -/
theorem ReconcileLifecycleHooks_puts_as_planned_witness :
    (((ReconcileLifecycleHooks
        (scriptedService [plainHook "same", plainHook "drifted"] none allSucceed) "asg"
        [plainHook "same",
         { plainHook "drifted" with DefaultResult := some LifecycleHookDefaultResultContinue },
         plainHook "new", plainHook "skipped"] (ignoreOnly ["skipped"])
        (freshRun ())).2.calls.drop (freshRun ()).calls.length).map
          (fun entry => entry.1)).filter Call.isPut
      <+: plannedPuts "asg" [plainHook "same", plainHook "drifted"]
        [plainHook "same",
         { plainHook "drifted" with DefaultResult := some LifecycleHookDefaultResultContinue },
         plainHook "new", plainHook "skipped"] (ignoreOnly ["skipped"]) ∧
    ((∀ entry ∈ (ReconcileLifecycleHooks
        (scriptedService [plainHook "same", plainHook "drifted"] none allSucceed) "asg"
        [plainHook "same",
         { plainHook "drifted" with DefaultResult := some LifecycleHookDefaultResultContinue },
         plainHook "new", plainHook "skipped"] (ignoreOnly ["skipped"])
        (freshRun ())).2.calls.drop (freshRun ()).calls.length,
        entry.1.isPut = true → entry.2 = none) →
      (((ReconcileLifecycleHooks
        (scriptedService [plainHook "same", plainHook "drifted"] none allSucceed) "asg"
        [plainHook "same",
         { plainHook "drifted" with DefaultResult := some LifecycleHookDefaultResultContinue },
         plainHook "new", plainHook "skipped"] (ignoreOnly ["skipped"])
        (freshRun ())).2.calls.drop (freshRun ()).calls.length).map
          (fun entry => entry.1)).filter Call.isPut
        = plannedPuts "asg" [plainHook "same", plainHook "drifted"]
          [plainHook "same",
           { plainHook "drifted" with DefaultResult := some LifecycleHookDefaultResultContinue },
           plainHook "new", plainHook "skipped"] (ignoreOnly ["skipped"])) :=
  ReconcileLifecycleHooks_puts_as_planned
    (scriptedService [plainHook "same", plainHook "drifted"] none allSucceed) "asg"
    [plainHook "same",
     { plainHook "drifted" with DefaultResult := some LifecycleHookDefaultResultContinue },
     plainHook "new", plainHook "skipped"] (ignoreOnly ["skipped"]) (freshRun ())
    [plainHook "same", plainHook "drifted"] () rfl

/-- C25: when the fetch and every create and update call succeed, the record of
`ReconcileLifecycleHooks` is the describe, then all planned creates and updates, then the
deletes; the deletes issued are, in the order of the fetched list, a prefix of the planned
ones (the fetched hooks whose name is neither ignored nor wanted), and all of them when the run
returns nil. -/
theorem ReconcileLifecycleHooks_deletes_as_planned {σ : Type} (asgService : ASGInterface σ)
    (asgName : String) (wanted : List AWSLifecycleHook) (ignore : String → Bool)
    (st : RunState σ) (existingHooks : List AWSLifecycleHook) (svc1 : σ)
    (hdescribe : asgService.DescribeLifecycleHooks asgName st.svc
      = ((existingHooks, none), svc1))
    (hc : ∀ h s, (asgService.CreateLifecycleHook asgName h s).1 = none)
    (hu : ∀ h s, (asgService.UpdateLifecycleHook asgName h s).1 = none) :
    ((ReconcileLifecycleHooks asgService asgName wanted ignore st).2.calls.drop
        st.calls.length).map (fun entry => entry.1)
      = Call.DescribeLifecycleHooks asgName
        :: (plannedPuts asgName existingHooks wanted ignore
          ++ (((ReconcileLifecycleHooks asgService asgName wanted ignore st).2.calls.drop
            st.calls.length).map (fun entry => entry.1)).filter Call.isDelete) ∧
    (((ReconcileLifecycleHooks asgService asgName wanted ignore st).2.calls.drop
        st.calls.length).map (fun entry => entry.1)).filter Call.isDelete
      <+: plannedDeletes asgName existingHooks wanted ignore ∧
    ((ReconcileLifecycleHooks asgService asgName wanted ignore st).1 = none →
      (((ReconcileLifecycleHooks asgService asgName wanted ignore st).2.calls.drop
        st.calls.length).map (fun entry => entry.1)).filter Call.isDelete
        = plannedDeletes asgName existingHooks wanted ignore) := by
  obtain ⟨P, D, hcalls, hP, hD, hor, hnone⟩ := ReconcileLifecycleHooks_planned asgService
    asgName wanted ignore st existingHooks svc1 hdescribe
  have hPput : ∀ c ∈ P.map (fun entry => entry.1), c.isDelete = false := fun c hc2 =>
    (plannedPuts_isPut asgName existingHooks wanted ignore c (hP.subset hc2)).2
  have hDdel : ∀ c ∈ D.map (fun entry => entry.1), c.isDelete = true := fun c hc2 =>
    (plannedDeletes_isDelete asgName existingHooks wanted ignore c (hD.subset hc2)).1
  have hfilter : (((ReconcileLifecycleHooks asgService asgName wanted ignore st).2.calls.drop
      st.calls.length).map (fun entry => entry.1)).filter Call.isDelete
      = D.map (fun entry => entry.1) := by
    rw [hcalls, List.drop_left]
    simp only [List.map_cons, List.map_append, List.filter_cons, Call.isDelete,
      Bool.false_eq_true, if_false, List.filter_append]
    rw [filter_eq_nil_of_none _ _ hPput, filter_eq_self_of_all _ _ hDdel, List.nil_append]
  have hall : P.map (fun entry => entry.1) = plannedPuts asgName existingHooks wanted ignore := by
    rcases hor with h | ⟨_, c, e, hce⟩
    · exact h
    · exfalso
      -- every recorded put succeeded, as every create and update call succeeds
      obtain ⟨a, hca, _, _⟩ := reconcileWanted_names asgService asgName ignore existingHooks
        wanted { svc := svc1, conditions := st.conditions,
                 calls := st.calls ++ [(Call.DescribeLifecycleHooks asgName, none)] } hc hu
      obtain ⟨_, _, hr1, _⟩ := reconcileWanted_names asgService asgName ignore existingHooks
        wanted { svc := svc1, conditions := st.conditions,
                 calls := st.calls ++ [(Call.DescribeLifecycleHooks asgName, none)] } hc hu
      obtain ⟨P2, hcP2, hfP⟩ := reconcileWanted_failFast asgService asgName ignore
        existingHooks wanted
        { svc := svc1, conditions := st.conditions,
          calls := st.calls ++ [(Call.DescribeLifecycleHooks asgName, none)] }
      rw [hr1] at hfP
      have hok := (failFast_none_iff P2).mp hfP
      have hrun : (ReconcileLifecycleHooks asgService asgName wanted ignore st).2.calls
          = (deleteExtraneous asgService asgName ignore wanted existingHooks
              (reconcileWanted asgService asgName ignore existingHooks wanted
                { svc := svc1, conditions := st.conditions,
                  calls := st.calls ++ [(Call.DescribeLifecycleHooks asgName, none)] }).2).2.calls := by
        unfold ReconcileLifecycleHooks
        rw [hdescribe]
        simp only
        cases hr : reconcileWanted asgService asgName ignore existingHooks wanted
            { svc := svc1, conditions := st.conditions,
              calls := st.calls ++ [(Call.DescribeLifecycleHooks asgName, none)] } with
        | mk r st1 =>
          rw [hr] at hr1
          simp only at hr1
          subst hr1
          rfl
      obtain ⟨D2, hcD2, _, _⟩ := deleteExtraneous_planned asgService asgName ignore wanted
        existingHooks (reconcileWanted asgService asgName ignore existingHooks wanted
          { svc := svc1, conditions := st.conditions,
            calls := st.calls ++ [(Call.DescribeLifecycleHooks asgName, none)] }).2
      rw [hrun, hcD2, hcP2] at hcalls
      have hD0 : D = [] := by assumption
      subst hD0
      have heq : P2 ++ D2 = P := by
        have h1 : st.calls ++ ((Call.DescribeLifecycleHooks asgName, none) :: (P2 ++ D2))
            = st.calls ++ ((Call.DescribeLifecycleHooks asgName, none) :: (P ++ [])) := by
          rw [← hcalls]; simp
        have h2 := List.append_cancel_left h1
        simpa using h2
      have hmem : (c, some e) ∈ P2 ++ D2 := by rw [heq]; exact hce
      rcases List.mem_append.mp hmem with h | h
      · have := List.all_eq_true.mp hok (c, some e) h
        simp at this
      · have hd : (c, some e).1 ∈ (P.map (fun entry => entry.1)) :=
          List.mem_map.mpr ⟨(c, some e), hce, rfl⟩
        have hdel : c.isDelete = false := hPput c hd
        obtain ⟨_, hcD3, hpD3, _⟩ := deleteExtraneous_planned asgService asgName ignore wanted
          existingHooks (reconcileWanted asgService asgName ignore existingHooks wanted
            { svc := svc1, conditions := st.conditions,
              calls := st.calls ++ [(Call.DescribeLifecycleHooks asgName, none)] }).2
        rw [hcD2] at hcD3
        have hsame := List.append_cancel_left hcD3
        rw [← hsame] at hpD3
        have hcd : c ∈ D2.map (fun entry => entry.1) :=
          List.mem_map.mpr ⟨(c, some e), h, rfl⟩
        have := (plannedDeletes_isDelete asgName existingHooks wanted ignore c
          (hpD3.subset hcd)).1
        rw [hdel] at this
        simp at this
  refine ⟨?_, ?_, ?_⟩
  · rw [hfilter]
    rw [hcalls, List.drop_left]
    simp only [List.map_cons, List.map_append, hall]
  · rw [hfilter]; exact hD
  · intro h
    rw [hfilter]
    exact (hnone h).2

/-- Witness for C25: fetched hooks `keep` (ignored), `wanted`, `old1` and `old2`; the two
extraneous hooks are deleted in the order of the fetched list after the create of `new`. -/
theorem ReconcileLifecycleHooks_deletes_as_planned_witness :
    ((ReconcileLifecycleHooks
        (scriptedService [plainHook "keep", plainHook "old1", plainHook "wanted",
          plainHook "old2"] none allSucceed) "asg" [plainHook "wanted", plainHook "new"]
        (ignoreOnly ["keep"]) (freshRun ())).2.calls.drop
        (freshRun ()).calls.length).map (fun entry => entry.1)
      = Call.DescribeLifecycleHooks "asg"
        :: (plannedPuts "asg" [plainHook "keep", plainHook "old1", plainHook "wanted",
              plainHook "old2"] [plainHook "wanted", plainHook "new"] (ignoreOnly ["keep"])
          ++ (((ReconcileLifecycleHooks
            (scriptedService [plainHook "keep", plainHook "old1", plainHook "wanted",
              plainHook "old2"] none allSucceed) "asg" [plainHook "wanted", plainHook "new"]
            (ignoreOnly ["keep"]) (freshRun ())).2.calls.drop
            (freshRun ()).calls.length).map (fun entry => entry.1)).filter Call.isDelete) ∧
    (((ReconcileLifecycleHooks
        (scriptedService [plainHook "keep", plainHook "old1", plainHook "wanted",
          plainHook "old2"] none allSucceed) "asg" [plainHook "wanted", plainHook "new"]
        (ignoreOnly ["keep"]) (freshRun ())).2.calls.drop
        (freshRun ()).calls.length).map (fun entry => entry.1)).filter Call.isDelete
      <+: plannedDeletes "asg" [plainHook "keep", plainHook "old1", plainHook "wanted",
            plainHook "old2"] [plainHook "wanted", plainHook "new"] (ignoreOnly ["keep"]) ∧
    ((ReconcileLifecycleHooks
        (scriptedService [plainHook "keep", plainHook "old1", plainHook "wanted",
          plainHook "old2"] none allSucceed) "asg" [plainHook "wanted", plainHook "new"]
        (ignoreOnly ["keep"]) (freshRun ())).1 = none →
      (((ReconcileLifecycleHooks
        (scriptedService [plainHook "keep", plainHook "old1", plainHook "wanted",
          plainHook "old2"] none allSucceed) "asg" [plainHook "wanted", plainHook "new"]
        (ignoreOnly ["keep"]) (freshRun ())).2.calls.drop
        (freshRun ()).calls.length).map (fun entry => entry.1)).filter Call.isDelete
        = plannedDeletes "asg" [plainHook "keep", plainHook "old1", plainHook "wanted",
            plainHook "old2"] [plainHook "wanted", plainHook "new"] (ignoreOnly ["keep"])) :=
  ReconcileLifecycleHooks_deletes_as_planned
    (scriptedService [plainHook "keep", plainHook "old1", plainHook "wanted",
      plainHook "old2"] none allSucceed) "asg" [plainHook "wanted", plainHook "new"]
    (ignoreOnly ["keep"]) (freshRun ())
    [plainHook "keep", plainHook "old1", plainHook "wanted", plainHook "old2"] () rfl
    (fun _ _ => rfl) (fun _ _ => rfl)

/-- C29: whatever the service calls return, every call that `ReconcileLifecycleHooks` adds to
the record satisfies: a delete targets a hook whose name no wanted hook carries (ignored or
not), and a create targets a name that no fetched hook carries. -/
theorem ReconcileLifecycleHooks_never_deletes_wanted {σ : Type} (asgService : ASGInterface σ)
    (asgName : String) (wanted : List AWSLifecycleHook) (ignore : String → Bool)
    (st : RunState σ) :
    ∀ entry ∈ (ReconcileLifecycleHooks asgService asgName wanted ignore st).2.calls.drop
        st.calls.length,
      (∀ a h, entry.1 = Call.DeleteLifecycleHook a h → ∀ w ∈ wanted, w.Name ≠ h.Name) ∧
      (∀ a h, entry.1 = Call.CreateLifecycleHook a h →
        ∀ x ∈ (asgService.DescribeLifecycleHooks asgName st.svc).1.1, x.Name ≠ h.Name) := by
  intro entry hentry
  cases hd : asgService.DescribeLifecycleHooks asgName st.svc with
  | mk res svc1 =>
    obtain ⟨existingHooks, err⟩ := res
    cases err with
    | some e =>
      have hcalls : (ReconcileLifecycleHooks asgService asgName wanted ignore st).2.calls
          = st.calls ++ [(Call.DescribeLifecycleHooks asgName, some e)] := by
        unfold ReconcileLifecycleHooks
        rw [hd]
      rw [hcalls, List.drop_left] at hentry
      simp only [List.mem_singleton] at hentry
      subst hentry
      exact ⟨fun a h hh => by simp at hh, fun a h hh => by simp at hh⟩
    | none =>
      obtain ⟨P, D, hcalls, hP, hD, _, _⟩ := ReconcileLifecycleHooks_planned asgService
        asgName wanted ignore st existingHooks svc1 hd
      rw [hcalls, List.drop_left] at hentry
      simp only
      have hcases : entry.1 = Call.DescribeLifecycleHooks asgName ∨
          entry.1 ∈ plannedPuts asgName existingHooks wanted ignore ∨
          entry.1 ∈ plannedDeletes asgName existingHooks wanted ignore := by
        rcases List.mem_cons.mp hentry with h | h
        · left; rw [h]
        · rcases List.mem_append.mp h with h | h
          · right; left
            exact hP.subset (List.mem_map.mpr ⟨entry, h, rfl⟩)
          · right; right
            exact hD.subset (List.mem_map.mpr ⟨entry, h, rfl⟩)
      rcases hcases with h | h | h
      · rw [h]
        exact ⟨fun a x hh => by simp at hh, fun a x hh => by simp at hh⟩
      · constructor
        · intro a x hh
          have := (plannedPuts_isPut asgName existingHooks wanted ignore _ h).2
          rw [hh] at this
          simp [Call.isDelete] at this
        · intro a x hh y hy
          rw [hh] at h
          simp only [plannedPuts, List.mem_filterMap, List.mem_filter] at h
          obtain ⟨w, _, hw⟩ := h
          unfold plannedPut at hw
          cases hf : existingHooks.find? (fun z => z.Name == w.Name) with
          | none =>
            rw [hf] at hw
            simp only [Option.some.injEq, Call.CreateLifecycleHook.injEq] at hw
            have hwx : w = x := hw.2
            subst hwx
            have := List.find?_eq_none.mp hf y hy
            simpa using this
          | some z =>
            rw [hf] at hw
            simp only at hw
            split at hw <;> simp at hw
      · constructor
        · intro a x hh w hw
          rw [hh] at h
          simp only [plannedDeletes, List.mem_map, List.mem_filter, Bool.and_eq_true,
            Bool.not_eq_true', Call.DeleteLifecycleHook.injEq] at h
          obtain ⟨z, ⟨_, _, hany⟩, _, hzx⟩ := h
          subst hzx
          have := List.any_eq_false.mp hany w hw
          intro hn
          apply this
          simp [hn]
        · intro a x hh
          have := (plannedDeletes_isDelete asgName existingHooks wanted ignore _ h).2
          rw [hh] at this
          simp [Call.isPut] at this

/-- Witness for C29: fetched hooks `wanted` and `old`, wanted hooks `wanted` and `new`; the
delete of `old` is in the record, and it names no wanted hook. -/
theorem ReconcileLifecycleHooks_never_deletes_wanted_witness :
    (Call.DeleteLifecycleHook "asg" (plainHook "old"), (none : Option GoError))
      ∈ (ReconcileLifecycleHooks
          (scriptedService [plainHook "wanted", plainHook "old"] none allSucceed) "asg"
          [plainHook "wanted", plainHook "new"] ignoreNone (freshRun ())).2.calls.drop
          (freshRun ()).calls.length ∧
    (∀ a h, (Call.DeleteLifecycleHook "asg" (plainHook "old"), (none : Option GoError)).1
        = Call.DeleteLifecycleHook a h →
      ∀ w ∈ [plainHook "wanted", plainHook "new"], w.Name ≠ h.Name) ∧
    (∀ a h, (Call.DeleteLifecycleHook "asg" (plainHook "old"), (none : Option GoError)).1
        = Call.CreateLifecycleHook a h →
      ∀ x ∈ ((scriptedService [plainHook "wanted", plainHook "old"] none
          allSucceed).DescribeLifecycleHooks "asg" (freshRun ()).svc).1.1, x.Name ≠ h.Name) :=
  ⟨by decide,
    ReconcileLifecycleHooks_never_deletes_wanted
      (scriptedService [plainHook "wanted", plainHook "old"] none allSucceed) "asg"
      [plainHook "wanted", plainHook "new"] ignoreNone (freshRun ())
      (Call.DeleteLifecycleHook "asg" (plainHook "old"), none) (by decide)⟩

theorem Version_Compare_of_same (a b : Version) (hmajor : a.Major = b.Major)
    (hminor : a.Minor = b.Minor) (hpatch : a.Patch = b.Patch) (hpre : a.Pre = b.Pre) :
    a.Compare b = 0 := by
  have h := Version_Compare_self a
  unfold Version.Compare at h ⊢
  rw [← hmajor, ← hminor, ← hpatch, ← hpre]
  exact h

theorem controlPlaneIsUpgrading_of_versions (cp : Unstructured) (d o : String)
    (vd vo : Version)
    (hd : versionField cp.UnstructuredContent "spec" = some d)
    (ho : versionField cp.UnstructuredContent "status" = some o)
    (hpd : ParseTolerant d = .ok vd) (hpo : ParseTolerant o = .ok vo) :
    controlPlaneIsUpgrading cp = (decide (CompareWithBuildTags vd vo ≥ 1), none) := by
  unfold controlPlaneIsUpgrading
  rw [NestedString_of_versionField _ _ _ hd, NestedString_of_versionField _ _ _ ho]
  simp only [hpd, hpo]
  simp

/-- C22: what the code does when only the build metadata differs. Spec v1.26.2 and status
v1.26.2+abc parse to the same major.minor.patch triple and the same (empty) pre-release with
different build metadata; the comparison with build tags gives -1, so
`controlPlaneIsUpgrading` returns `(false, nil)` and the stability check and
`runPreflightChecks` return `(true, nil)`. With spec v1.26.2+b and status v1.26.2+a the
comparison gives 2 and the control plane counts as upgrading. -/
theorem controlPlaneIsUpgrading_false_on_status_build_metadata :
    (∃ vd vo, ParseTolerant "v1.26.2" = .ok vd ∧ ParseTolerant "v1.26.2+abc" = .ok vo ∧
      vd.Major = vo.Major ∧ vd.Minor = vo.Minor ∧ vd.Patch = vo.Patch ∧ vd.Pre = vo.Pre ∧
      vd.Build ≠ vo.Build ∧ CompareWithBuildTags vd vo = -1) ∧
    controlPlaneIsUpgrading controlPlaneWithStatusBuild = (false, none) ∧
    controlPlaneStablePreflightChecks controlPlaneWithStatusBuild = (true, none) ∧
    (runPreflightChecks gatesEnabled {} (scopeWith controlPlaneWithStatusBuild)).result
      = (true, none) ∧
    controlPlaneIsUpgrading controlPlaneWithOtherBuild = (true, none) ∧
    (runPreflightChecks gatesEnabled {} (scopeWith controlPlaneWithOtherBuild)).result
      = (false, none) := by
  refine ⟨⟨⟨1, 26, 2, [], []⟩, ⟨1, 26, 2, [], [['a', 'b', 'c']]⟩,
    by rfl, by rfl, rfl, rfl, rfl, rfl, by decide, by decide⟩, by rfl, by rfl, by rfl, by rfl,
    by rfl⟩

end CAPA
